import Mathlib

/-!
# cnk3x/dp : a shallow embedding of the data mapper

Go strings are modelled as lists of runes (`Str`), that is, they are taken to be
valid UTF-8.  The patterns the package matches on (`_`, `:`, `;`, `%`, the
keywords and the initialisms) are ASCII, so matching on runes and matching on
UTF-8 bytes agree, and the byte-wise string order of Go is the code-point order
used here.

Three parts of the Go library are not spelled out and enter as a parameter
(`Lib`): the Unicode case tables, consulted only for runes outside ASCII, the
behaviour of `fmt` from a directive other than `%s`, `%v` and `%%` on, and the
order in which `sort.Sort`, which is not stable, leaves elements that compare
equal.
-/

set_option autoImplicit false

namespace Dp

/-- Go string, as the list of its runes. -/
abbrev Str := List Char

/-! ## The `strings` and `unicode` functions the package calls -/

/-- The library behaviour taken as given: `lower` and `upper` are Go's
`unicode.ToLower` and `unicode.ToUpper` on runes at or above `utf8.RuneSelf`;
`format rest args` is what `fmt` prints for the rest of a format that starts with
a directive other than `%s`, `%v` and `%%`, the operands left being `args`;
`rank keys i` places, among the elements that `sort.Sort` finds equal, the element
that belongs to the struct field `i`: of two columns of the same name the one of
lower rank comes out first, `keys` being the names and the field indices of the
columns in their order before the call. -/
structure Lib where
  lower : Char → Char
  upper : Char → Char
  format : Str → List Str → Str
  rank : List (Str × Nat) → Nat → Nat

/-- An instance of the library parameter, for evaluating the model on ASCII input
and on formats with plain directives; its sort keeps elements that compare equal
in their order, as the insertion sort of the library does. -/
def plainLib : Lib := ⟨fun c => c, fun c => c, fun rest _ => rest, fun _ i => i⟩

/-- POSIX class `[:upper:]` of Go's regexp: `A`..`Z`. -/
def isUpper (c : Char) : Bool := decide (65 ≤ c.toNat) && decide (c.toNat ≤ 90)

/-- ASCII `a`..`z`. -/
def isLower (c : Char) : Bool := decide (97 ≤ c.toNat) && decide (c.toNat ≤ 122)

/-- ASCII `0`..`9`. -/
def isDigit (c : Char) : Bool := decide (48 ≤ c.toNat) && decide (c.toNat ≤ 57)

/-- POSIX class `[:alnum:]` of Go's regexp: `0-9A-Za-z`. -/
def isAlnum (c : Char) : Bool := isDigit c || isUpper c || isLower c

/-- ASCII branch of `unicode.ToLower`: `A`..`Z` are moved by 32. -/
def asciiLower (c : Char) : Char := if isUpper c then Char.ofNat (c.toNat + 32) else c

/-- ASCII branch of `unicode.ToUpper`: `a`..`z` are moved by 32. -/
def asciiUpper (c : Char) : Char := if isLower c then Char.ofNat (c.toNat - 32) else c

/-- Rune mapping of `unicode.ToLower`. -/
def lowerRune (U : Lib) (c : Char) : Char :=
  if c.toNat < 128 then asciiLower c else U.lower c

/-- Rune mapping of `unicode.ToUpper`. -/
def upperRune (U : Lib) (c : Char) : Char :=
  if c.toNat < 128 then asciiUpper c else U.upper c

/-- Go's `strings.ToLower`. -/
def ToLower (U : Lib) (s : Str) : Str := s.map (lowerRune U)

/-- Go's `strings.ToUpper`. -/
def ToUpper (U : Lib) (s : Str) : Str := s.map (upperRune U)

/-- Go's `strings.HasPrefix`. -/
def HasPrefix : Str → Str → Bool
  | _, [] => true
  | [], _ :: _ => false
  | c :: cs, p :: ps => c == p && HasPrefix cs ps

/-- Go's `strings.Contains`. -/
def Contains : Str → Str → Bool
  | [], sub => HasPrefix [] sub
  | c :: cs, sub => HasPrefix (c :: cs) sub || Contains cs sub

/-- Go's `unicode.IsSpace`. -/
def isSpace (c : Char) : Bool :=
  let n := c.toNat
  decide (9 ≤ n ∧ n ≤ 13) || n == 32 || n == 0x85 || n == 0xA0 || n == 0x1680 ||
    decide (0x2000 ≤ n ∧ n ≤ 0x200a) || n == 0x2028 || n == 0x2029 || n == 0x202f ||
    n == 0x205f || n == 0x3000

/-- Removes the trailing runes that satisfy `p`. -/
def dropRightWhile (p : Char → Bool) (s : Str) : Str :=
  (s.reverse.dropWhile p).reverse

/-- Go's `strings.TrimSpace`. -/
def TrimSpace (s : Str) : Str := dropRightWhile isSpace (s.dropWhile isSpace)

/-- Go's `strings.Trim(s, cutset)`. -/
def Trim (s cutset : Str) : Str :=
  dropRightWhile (fun c => cutset.contains c) (s.dropWhile (fun c => cutset.contains c))

/-- Go's `strings.Join`. -/
def Join : List Str → Str → Str
  | [], _ => []
  | [a], _ => a
  | a :: b :: rest, sep => a ++ sep ++ Join (b :: rest) sep

/-- Byte-wise `<` of Go strings. -/
def strLess : Str → Str → Bool
  | [], [] => false
  | [], _ :: _ => true
  | _ :: _, [] => false
  | a :: as, b :: bs => decide (a.toNat < b.toNat) || (a == b && strLess as bs)

/-! ## utils.go : `toUnderscore` -/

/-- The list `commonInitialisms` of utils.go. -/
def commonInitialisms : List Str :=
  ["API", "ASCII", "ASIN", "CPU", "CSS", "DNS", "EOF", "GUID", "HTML", "HTTP", "HTTPS", "ID",
   "IP", "ISBN", "JSON", "LHS", "QPS", "RAM", "RHS", "RPC", "SKU", "SLA", "SMTP", "SSH", "TLS",
   "TTL", "UID", "UI", "UPC", "UUID", "URI", "URL", "UTF8", "VM", "XML", "XSRF",
   "XSS"].map String.toList

/-- Go's `strings.Title` on a word of ASCII letters and digits: the first rune is
upper-cased, the rest is kept. -/
def Title : Str → Str
  | [] => []
  | c :: cs => asciiUpper c :: cs

/-- The pairs handed to `strings.NewReplacer` by `init`:
each initialism with `strings.Title(strings.ToLower(initialism))`. -/
def replacerPairs : List (Str × Str) :=
  commonInitialisms.map (fun s => (s, Title (s.map asciiLower)))

/-- Lookup of the generic `strings.Replacer` at one position: of the old strings
that are a prefix of the rest of the input, the one given first wins. -/
def lookup : List (Str × Str) → Str → Option (Str × Str)
  | [], _ => none
  | (old, new) :: rest, s => if HasPrefix s old then some (old, new) else lookup rest s

/-- Go's `(*strings.Replacer).Replace` for non-empty old strings; `skip` counts the
runes of a match that are still to be passed over. -/
def replaceFrom (pairs : List (Str × Str)) : Nat → Str → Str
  | _, [] => []
  | skip + 1, _ :: cs => replaceFrom pairs skip cs
  | 0, c :: cs =>
    match lookup pairs (c :: cs) with
    | some (old, new) => new ++ replaceFrom pairs (old.length - 1) cs
    | none => c :: replaceFrom pairs 0 cs

/-- The call `replacers.Replace(name)`. -/
def replacersReplace (s : Str) : Str := replaceFrom replacerPairs 0 s

/-- The call `upperRe.ReplaceAllString(name, "_$1")` with upperRe `([[:upper:]]+)`:
an underscore goes in front of each maximal run of upper-case letters.
`inRun` tells that the previous rune was upper-case. -/
def upperReReplace : Bool → Str → Str
  | _, [] => []
  | inRun, c :: cs =>
    if isUpper c then
      if inRun then c :: upperReReplace true cs else '_' :: c :: upperReReplace true cs
    else c :: upperReReplace false cs

/-- The call `alnumRe.ReplaceAllString(name, "_")` with alnumRe `([^[:alnum:]]+)`:
each maximal run of runes outside `0-9A-Za-z` becomes one underscore.
`inRun` tells that the previous rune was outside the class. -/
def alnumReReplace : Bool → Str → Str
  | _, [] => []
  | inRun, c :: cs =>
    if isAlnum c then c :: alnumReReplace false cs
    else if inRun then alnumReReplace true cs else '_' :: alnumReReplace true cs

/-- The function `toUnderscore` of utils.go. -/
def toUnderscore (U : Lib) (name : Str) : Str :=
  let name := replacersReplace name
  let name := upperReReplace false name
  let name := alnumReReplace false name
  ToLower U (Trim name ['_'])

/-- The variable `ParseName` of dp.go, bound to `toUnderscore`. -/
def ParseName (U : Lib) : Str → Str := toUnderscore U

/-! ## The part of `reflect` the package relies on -/

/-- The kinds of `reflect.Kind`. -/
inductive Kind where
  | Invalid | Bool | Int | Int8 | Int16 | Int32 | Int64
  | Uint | Uint8 | Uint16 | Uint32 | Uint64 | Uintptr
  | Float32 | Float64 | Complex64 | Complex128
  | Array | Chan | Func | Interface | Map | Ptr | Slice | String | Struct | UnsafePointer
  deriving DecidableEq

/-- The method `Kind.String` of reflect. -/
def Kind.name : Kind → Str
  | .Invalid => "invalid".toList | .Bool => "bool".toList | .Int => "int".toList
  | .Int8 => "int8".toList | .Int16 => "int16".toList | .Int32 => "int32".toList
  | .Int64 => "int64".toList | .Uint => "uint".toList | .Uint8 => "uint8".toList
  | .Uint16 => "uint16".toList | .Uint32 => "uint32".toList | .Uint64 => "uint64".toList
  | .Uintptr => "uintptr".toList | .Float32 => "float32".toList | .Float64 => "float64".toList
  | .Complex64 => "complex64".toList | .Complex128 => "complex128".toList
  | .Array => "array".toList | .Chan => "chan".toList | .Func => "func".toList
  | .Interface => "interface".toList | .Map => "map".toList | .Ptr => "ptr".toList
  | .Slice => "slice".toList | .String => "string".toList | .Struct => "struct".toList
  | .UnsafePointer => "unsafe.Pointer".toList

/-- A field as declared in a struct type: its name, the kind of its type, its
struct tag, given by its key/value pairs, and whether the field is exported (its
name starts with an upper-case letter; reflect reports an empty `PkgPath`). -/
structure FieldDecl where
  Name : Str
  Kind : Kind
  Tag : List (Str × Str)
  Exported : Bool
  deriving DecidableEq

/-- The `reflect.StructField` returned by `t.Field(i)`: the declaration together
with the index of the field. -/
structure StructField where
  Name : Str
  Kind : Kind
  Tag : List (Str × Str)
  Index : Nat
  Exported : Bool
  deriving DecidableEq

/-- The method `StructTag.Get`: the value under `key`, or the empty string. -/
def StructField.TagGet (f : StructField) (key : Str) : Str :=
  match f.Tag.find? (fun kv => kv.1 == key) with
  | some kv => kv.2
  | none => []

/-- A struct type: package path, type name and declared fields. -/
structure StructType where
  PkgPath : Str
  Name : Str
  Fields : List FieldDecl
  deriving DecidableEq

/-- The fields `t.Field(0)`, `t.Field(1)`, ... of a struct type, `i` being the index
of the first field of the list. -/
def fieldsFrom : Nat → List FieldDecl → List StructField
  | _, [] => []
  | i, d :: ds => ⟨d.Name, d.Kind, d.Tag, i, d.Exported⟩ :: fieldsFrom (i + 1) ds

/-- The types `reflect.Type` that the package tells apart. -/
inductive RType where
  | basic (k : Kind)
  | iface
  | struct (t : StructType)
  | ptr (elem : RType)
  | slice (elem : RType)
  deriving DecidableEq

/-- The method `Type.Kind`. -/
def RType.Kind : RType → Kind
  | .basic k => k
  | .iface => Kind.Interface
  | .struct _ => Kind.Struct
  | .ptr _ => Kind.Ptr
  | .slice _ => Kind.Slice

/-- The function `deref` of utils.go: one pointer level is removed. -/
def deref : RType → RType
  | .ptr e => e
  | t => t

/-- The value of a struct field, as far as `isBlank` and the driver see it.
Floats carry the outcome of the comparison with zero, pointers and interfaces
whether they are nil, and values of the remaining kinds the outcome of
`reflect.DeepEqual` with the zero value of their type. -/
inductive FieldVal where
  | str (s : Str)
  | bool (b : Bool)
  | int (k : Kind) (n : Int)
  | uint (k : Kind) (n : Nat)
  | float (k : Kind) (isZero : Bool) (bits : Nat)
  | ref (k : Kind) (isNil : Bool) (addr : Nat)
  | other (k : Kind) (isZeroValue : Bool) (id : Nat)
  deriving DecidableEq

/-- The function `isBlank` of utils.go. -/
def isBlank : FieldVal → Bool
  | .str s => s.length == 0
  | .bool b => !b
  | .int _ n => n == 0
  | .uint _ n => n == 0
  | .float _ z _ => z
  | .ref _ isNil _ => isNil
  | .other _ z _ => z

/-- What an `interface{}` argument of the package can hold: nothing (the nil
interface), a string, a value of another scalar kind, a struct with its field
values, a pointer (nil when there is no target) or a slice. -/
inductive Value where
  | nil
  | str (s : Str)
  | scalar (k : Kind)
  | struct (t : StructType) (fields : List FieldVal)
  | ptr (elem : RType) (target : Option Value)
  | slice (elem : RType) (items : List Value)

/-- The function `reflect.TypeOf`; `none` is the nil `reflect.Type`. -/
def TypeOf : Value → Option RType
  | .nil => none
  | .str _ => some (.basic Kind.String)
  | .scalar k => some (.basic k)
  | .struct t _ => some (.struct t)
  | .ptr e _ => some (.ptr e)
  | .slice e _ => some (.slice e)

/-- How a Go call ends: with its results, with a returned error (given by its
message), or with a panic.  A panic is given by the message that the deferred
functions of `InsertContext`, `SelectContext` and `queryContext` make of the
recovered value: the text of an error, the quoted text of a string. -/
inductive Outcome (α : Type) where
  | ok (a : α)
  | error (msg : Str)
  | panic (msg : Str)
  deriving DecidableEq

/-! ## dp.go : the table descriptor -/

/-- The struct `Column` of dp.go; `TagMap` lists the entries of the map. -/
structure Column where
  Name : Str
  PrimaryKey : Bool
  AutoIncrement : Bool
  NewID : Bool
  Struct : StructField
  IsOnUpdate : Bool
  TagMap : List (Str × Str)
  deriving DecidableEq

/-- The struct `Table` of dp.go; `Typ` is its field `Type`, and its field `Struct`,
which is never assigned, is left out. -/
structure Table where
  Name : Str
  Typ : StructType
  Columns : List Column
  allColumns : List Str
  insertColumns : List Str
  replaceColumns : List Str
  SelectScript : Str
  InsertScript : Str
  BatchInsertScriptFormat : Str
  deriving DecidableEq

/-- Go's `strings.Split(s, sep)` for a one-rune separator. -/
def Split (sep : Char) : Str → List Str
  | [] => [[]]
  | c :: cs =>
    if c == sep then [] :: Split sep cs
    else match Split sep cs with
      | p :: ps => (c :: p) :: ps
      | [] => [[c]]

/-- Assignment `m[k] = v` on a map given by its entries. -/
def mapSet (m : List (Str × Str)) (k v : Str) : List (Str × Str) :=
  if m.any (fun kv => kv.1 == k) then m.map (fun kv => if kv.1 == k then (k, v) else kv)
  else m ++ [(k, v)]

/-- Lookup `v, ok := m[k]` on a map given by its entries. -/
def mapGet (m : List (Str × Str)) (k : Str) : Option Str :=
  (m.find? (fun kv => kv.1 == k)).map Prod.snd

/-- The loop over `strings.Split(tag, ";")` in `GetTable` that fills `TagMap`. -/
def parseTags (tag : Str) : List (Str × Str) :=
  (Split ';' tag).foldl
    (fun m s =>
      match s.span (fun c => c != ':') with
      | (key, _ :: val) => mapSet m (TrimSpace key) val
      | (_, []) => mapSet m s "true".toList)
    []

/-- One step of Go's insertion sort: the new element `x` moves left past every
element it is less than.  The sorted prefix is held in reverse. -/
def insertRev {α : Type} (less : α → α → Bool) (x : α) : List α → List α
  | [] => [x]
  | p :: ps => if less x p then p :: insertRev less x ps else x :: p :: ps

/-- The insertion sort of Go's `sort` package.  The library runs it on short
slices and another algorithm on long ones; all of them return the elements
ordered by `less`, which fixes the result when `less` tells any two elements
apart. -/
def insertionSort {α : Type} (less : α → α → Bool) (xs : List α) : List α :=
  (xs.foldl (fun acc x => insertRev less x acc) []).reverse

/-- The call `sort.Strings`: strings that compare equal are the same string, so
the ordered list is the same under every sorting algorithm. -/
def sortStrings (xs : List Str) : List Str := insertionSort strLess xs

/-- The method `Table.Less` of dp.go, on two columns. -/
def columnLess (a b : Column) : Bool := strLess a.Name b.Name

/-- Whether `sort.Sort(tab)` leaves the column `a` before the column `b`, `cols`
being `tab.Columns` before the call: by name, as `Table.Less` says, and for two
columns of the same name as the library happens to leave them. -/
def sortedBefore (U : Lib) (cols : List Column) (a b : Column) : Bool :=
  columnLess a b ||
    (a.Name == b.Name &&
      decide (U.rank (cols.map (fun c => (c.Name, c.Struct.Index))) a.Struct.Index
        < U.rank (cols.map (fun c => (c.Name, c.Struct.Index))) b.Struct.Index))

/-- The call `sort.Sort(tab)` of `GetTable`. -/
def sortColumns (U : Lib) (cols : List Column) : List Column :=
  insertionSort (sortedBefore U cols) cols

/-- The method `Table.getInsertQueryFormat` of dp.go: the text its writer `w` holds
at the end. -/
def getInsertQueryFormat (tab : Table) : Str :=
  (if tab.replaceColumns.length > 0 then "INSERT INTO ".toList else "INSERT IGNORE INTO ".toList)
    ++ ['`'] ++ tab.Name ++ ['`']
    ++ " (".toList ++ Join tab.insertColumns [','] ++ [')']
    ++ " VALUES %s".toList
    ++ (if tab.replaceColumns.length > 0 then
          "ON DUPLICATE KEY UPDATE ".toList ++ Join tab.replaceColumns [',']
        else [])

/-- Go's `strings.Repeat`. -/
def Repeat (s : Str) : Nat → Str
  | 0 => []
  | n + 1 => s ++ Repeat s n

/-- Go's `strings.TrimSuffix`. -/
def TrimSuffix (s suffix : Str) : Str :=
  if HasPrefix s.reverse suffix.reverse then (s.reverse.drop suffix.length).reverse else s

/-- The tag that `GetTable` reads for a field: `db`, else `o`, else `gorm`. -/
def fieldTag (f : StructField) : Str :=
  let tag := f.TagGet "db".toList
  let tag := if tag == [] then f.TagGet "o".toList else tag
  if tag == [] then f.TagGet "gorm".toList else tag

/-- Body of the field loop of `GetTable`, applied to the field `f`. -/
def addField (U : Lib) (tab : Table) (f : StructField) : Table :=
  let tag := fieldTag f
  if tag == "-".toList then tab
  else if f.Name == "table".toList then
    if tag != [] then { tab with Name := tag } else tab
  else
    let tagMap := parseTags tag
    let name := (mapGet tagMap "column".toList).getD []
    let name := if name == [] then ParseName U f.Name else name
    let column : Column :=
      { Name := name
        PrimaryKey := (mapGet tagMap "primary_key".toList).isSome
        AutoIncrement := (mapGet tagMap "auto_increment".toList).isSome
        NewID := (mapGet tagMap "newid".toList).isSome
        Struct := f
        IsOnUpdate := (mapGet tagMap "on_update".toList).isSome
        TagMap := tagMap }
    let quotedName := ['`'] ++ column.Name ++ ['`']
    { tab with
      allColumns := tab.allColumns ++ [quotedName]
      insertColumns :=
        if !column.AutoIncrement then tab.insertColumns ++ [quotedName] else tab.insertColumns
      replaceColumns :=
        if column.IsOnUpdate then
          tab.replaceColumns ++ [quotedName ++ "=VALUES(".toList ++ quotedName ++ [')']]
        else tab.replaceColumns
      Columns := tab.Columns ++ [column] }

/-- The part of `GetTable` that builds a descriptor for the struct type `t`
(dp.go, from the field loop to the rendering of the three scripts). -/
def buildTable (U : Lib) (t : StructType) : Table :=
  let tab : Table :=
    { Name := ParseName U t.Name, Typ := t, Columns := [], allColumns := [],
      insertColumns := [], replaceColumns := [], SelectScript := [], InsertScript := [],
      BatchInsertScriptFormat := [] }
  let tab := (fieldsFrom 0 t.Fields).foldl (addField U) tab
  let tab := { tab with allColumns := sortStrings tab.allColumns }
  let tab := { tab with insertColumns := sortStrings tab.insertColumns }
  let tab := { tab with replaceColumns := sortStrings tab.replaceColumns }
  let tab := { tab with Columns := sortColumns U tab.Columns }
  let tab := { tab with
    SelectScript := "SELECT ".toList ++ Join tab.allColumns [','] ++ " FROM `".toList
      ++ tab.Name ++ ['`'] }
  let tab := { tab with BatchInsertScriptFormat := getInsertQueryFormat tab }
  { tab with
    InsertScript := "INSERT INTO `".toList ++ tab.Name ++ "` (".toList
      ++ Join tab.insertColumns [','] ++ ") VALUES (".toList
      ++ TrimSuffix (Repeat "?,".toList tab.insertColumns.length) [','] ++ [')'] }

/-- The process state the package keeps: the map `tabCache` from cache key to a
`*Table`, and the `Table` objects allocated so far; a `*Table` is the position
of its object in `heap`. -/
structure World where
  tabCache : List (Str × Nat)
  heap : List Table
  deriving DecidableEq

/-- The lookup `tabCache[cacheKey]`. -/
def World.cached (w : World) (key : Str) : Option Nat :=
  (w.tabCache.find? (fun kv => kv.1 == key)).map Prod.snd

/-- The key under which `GetTable` looks a struct type up. -/
def cacheKey (t : StructType) : Str := t.PkgPath ++ ['/'] ++ t.Name

/-- The function `GetTable` of dp.go, from the computation of `cacheKey` on: the
result is a `*Table` and the process state after the call. -/
def getStructTable (U : Lib) (w : World) (t : StructType) : Nat × World :=
  match w.cached (cacheKey t) with
  | some tab => (tab, w)
  | none => (w.heap.length, { w with heap := w.heap ++ [buildTable U t] })

/-- The first part of `GetTable` (dp.go, up to the test of `t.Kind()` against
`reflect.Struct`): the struct type `t` that the argument leads to.  For a slice of
interfaces `GetTable` calls itself on the first element and returns what that
call returns, so the recursion is on the type looked for. -/
def structTypeOf : Value → Outcome StructType
  | .nil => .panic "runtime error: invalid memory address or nil pointer dereference".toList
  | .str _ => .error ("need struct's pointer or slice, not ".toList ++ Kind.String.name)
  | .scalar k => .error ("need struct's pointer or slice, not ".toList ++ k.name)
  | .struct t _ => .ok t
  | .ptr e target =>
    match e with
    | .slice e' =>
      match deref e' with
      | .iface =>
        match target with
        | none => .panic "reflect: call of reflect.Value.Len on zero Value".toList
        | some (.slice _ (first :: _)) => structTypeOf first
        | some _ =>
          .error ("need struct's pointer or no empty slice's pointer, not ".toList
            ++ Kind.Slice.name)
      | .struct t => .ok t
      | t' => .error ("need struct's pointer or slice, not ".toList ++ t'.Kind.name)
    | .struct t => .ok t
    | e => .error ("need struct's pointer or slice, not ".toList ++ e.Kind.name)
  | .slice e items =>
    match deref e with
    | .iface =>
      match items with
      | [] =>
        .error ("need struct's pointer or no empty slice's pointer, not ".toList
          ++ Kind.Slice.name)
      | first :: _ => structTypeOf first
    | .struct t => .ok t
    | t' => .error ("need struct's pointer or slice, not ".toList ++ t'.Kind.name)

/-- The function `GetTable` of dp.go: the result is a `*Table` and the process state
after the call. -/
def GetTable (U : Lib) (w : World) (obj : Value) : Outcome (Nat × World) :=
  match structTypeOf obj with
  | .ok t => .ok (getStructTable U w t)
  | .error err => .error err
  | .panic p => .panic p

/-- Go's `fmt.Sprintf` on string operands.  The directives `%s`, `%v` and `%%` are
spelled out: a verb without operand prints `%!s(MISSING)`, a format ending in `%`
prints `%!(NOVERB)`, and operands left over are reported as `%!(EXTRA ...)`.  From
any other directive on the output is the one of the library parameter. -/
def Sprintf (U : Lib) : Str → List Str → Str
  | [], [] => []
  | [], a :: args =>
    "%!(EXTRA ".toList
      ++ Join ((a :: args).map (fun x => "string=".toList ++ x)) ", ".toList ++ [')']
  | c :: rest, args =>
    if c == '%' then
      match rest with
      | [] => "%!(NOVERB)".toList ++ Sprintf U [] args
      | v :: rest' =>
        if v == '%' then '%' :: Sprintf U rest' args
        else if v == 's' || v == 'v' then
          match args with
          | a :: args' => a ++ Sprintf U rest' args'
          | [] => ['%', '!', v] ++ "(MISSING)".toList ++ Sprintf U rest' []
        else U.format (c :: rest) args
    else c :: Sprintf U rest args

/-- The writer `w` of `CreateBatchInsertScript` after its loops: `count` tuples of
`columns` placeholders. -/
def placeholderTuples (columns count : Nat) : Str :=
  (List.range count).foldl
    (fun w i =>
      (if i > 0 then w ++ [','] else w) ++ ['(']
        ++ (List.range columns).foldl (fun w j => (if j > 0 then w ++ [','] else w) ++ ['?']) []
        ++ [')'])
    []

/-- The method `Table.CreateBatchInsertScript` of dp.go. -/
def Table.CreateBatchInsertScript (U : Lib) (tab : Table) (count : Nat) : Str :=
  Sprintf U tab.BatchInsertScriptFormat [placeholderTuples tab.insertColumns.length count]

/-! ## query.go -/

/-- The generator `NewID` (a package variable the caller may rebind) and the clock:
`NewID k` is the result of the `k`-th call of the generator during an operation,
`now k` the value of the `k`-th evaluation of `time.Now().Unix()`. -/
structure Hooks where
  NewID : Nat → Int
  now : Nat → Int

/-- The generator `NewID` as dp.go declares it: it returns 0. -/
def defaultNewID : Nat → Int := fun _ => 0

/-- State of the value loop of `InsertContext`: the slice `values`, and how often
the generator and the clock have been asked. -/
structure Bound where
  values : List FieldVal
  ids : Nat
  ticks : Nat
  deriving DecidableEq

/-- The method `Value.Kind` on a field value. -/
def FieldVal.Kind : FieldVal → Kind
  | .str _ => Kind.String
  | .bool _ => Kind.Bool
  | .int k _ => k
  | .uint k _ => k
  | .float k _ _ => k
  | .ref k _ _ => k
  | .other k _ _ => k

/-- The panic of `reflect.Value.Interface` on the value of an unexported field, as
the deferred functions of the package render it. -/
def unexportedPanic : Str :=
  "\"reflect.Value.Interface: cannot return value obtained from unexported field or method\"".toList

/-- Body of the loop over `tab.Columns` in `InsertContext` for one column `c`, `val`
being `v.FieldByIndex(c.Struct.Index)`.  The call `val.Interface()` panics when the
field is not exported; so does the one `isBlank` makes for the kinds outside its
switch, none of which is `int64`. -/
def bindColumn (H : Hooks) (b : Bound) (c : Column) (val : FieldVal) : Outcome Bound :=
  if !c.AutoIncrement then
    if isBlank val && c.Struct.Kind == Kind.Int64 then
      if c.Struct.Name == "CreatedAt".toList || c.Struct.Name == "UpdatedAt".toList then
        .ok { b with values := b.values ++ [.int Kind.Int64 (H.now b.ticks)],
                     ticks := b.ticks + 1 }
      else if c.NewID || c.PrimaryKey then
        .ok { b with values := b.values ++ [.int Kind.Int64 (H.NewID b.ids)], ids := b.ids + 1 }
      else
        .ok { b with values := b.values ++ [.int Kind.Int 0] }
    else if c.Struct.Exported then
      .ok { b with values := b.values ++ [val] }
    else .panic unexportedPanic
  else .ok b

/-- The loop over `tab.Columns` in `InsertContext` for one item with the field
values `fields`.  For a column that is not auto-increment the field is looked
up, and reflect panics when the index of the field is out of range. -/
def bindItem (H : Hooks) (columns : List Column) (fields : List FieldVal) (b : Bound) :
    Outcome Bound :=
  columns.foldl
    (fun acc c =>
      match acc with
      | .ok b =>
        if c.AutoIncrement then .ok b
        else
          match fields.get? c.Struct.Index with
          | some val => bindColumn H b c val
          | none => .panic "\"reflect: Field index out of range\"".toList
      | other => other)
    (.ok b)

/-- The loop over `items` in `InsertContext`; an item that is no struct makes
`FieldByIndex` panic. -/
def bindItems (H : Hooks) (columns : List Column) (items : List Value) (b : Bound) :
    Outcome Bound :=
  items.foldl
    (fun acc item =>
      match acc, item with
      | .ok b, .struct _ fields => bindItem H columns fields b
      | .ok _, _ => .panic "reflect: call of reflect.Value.FieldByIndex on a non-struct".toList
      | other, _ => other)
    (.ok b)

/-- What the driver answers to `ExecContext`: an error, or a result whose
`RowsAffected` gives a count or an error. -/
inductive ExecReply where
  | failed (err : Str)
  | result (rowsAffected : Except Str Int)

/-- What the driver answers to `QueryContext`: an error (`noRows` says whether it is
`sql.ErrNoRows`), or the rows; a row is what `Scan` does on it: an error, or the
values it has for the destinations, in order, each converted to the type of its
destination. -/
inductive QueryReply where
  | failed (err : Str) (noRows : Bool)
  | rows (rs : List (Except Str (List FieldVal)))

/-- The database handle, over a driver state `σ`. -/
structure Driver (σ : Type) where
  ExecContext : σ → Str → List FieldVal → σ × ExecReply
  QueryContext : σ → Str → List FieldVal → σ × QueryReply

/-- The object a `*Table` points to; no object means a nil or dangling pointer. -/
def World.table (w : World) (tab : Nat) : Option Table := w.heap.get? tab

/-- The function `getTableName` of query.go. -/
def getTableName (U : Lib) (w : World) (tableOrModel : Value) : Outcome (Str × World) :=
  match tableOrModel with
  | .str tabString => .ok (tabString, w)
  | _ =>
    match GetTable U w tableOrModel with
    | .ok (tab, w') =>
      match w'.table tab with
      | some t => .ok (t.Name, w')
      | none => .panic "runtime error: invalid memory address or nil pointer dereference".toList
    | .error err => .error ("dp delete: ".toList ++ err)
    | .panic p => .panic p

/-- The text that `DeleteContext` and `UpdateContext` append for the where-clause. -/
def whereSuffix (U : Lib) (clause : Str) : Str :=
  let clause := TrimSpace clause
  if clause != [] then
    [' '] ++ (if !HasPrefix (ToUpper U clause) "WHERE".toList then "WHERE ".toList else [])
      ++ clause
  else []

/-- Result of `DeleteContext` and `UpdateContext`: the returned pair, or a panic that
leaves the function, together with the driver and the process state. -/
structure ExecResult (σ : Type) where
  outcome : Outcome Int
  db : σ
  world : World

/-- End of `DeleteContext` and `UpdateContext`: the driver call and `RowsAffected`. -/
def execStatement {σ : Type} (D : Driver σ) (db : σ) (w : World) (opName query : Str)
    (params : List FieldVal) : ExecResult σ :=
  match D.ExecContext db query params with
  | (db', .failed err) => ⟨.error (opName ++ err), db', w⟩
  | (db', .result (.error err)) => ⟨.error err, db', w⟩
  | (db', .result (.ok n)) => ⟨.ok n, db', w⟩

/-- The function `DeleteContext` of query.go. -/
def DeleteContext {σ : Type} (U : Lib) (D : Driver σ) (db : σ) (w : World)
    (tableOrModel : Value) (clause : Str) (args : List FieldVal) : ExecResult σ :=
  match getTableName U w tableOrModel with
  | .error err => ⟨.error ("dp Delete: ".toList ++ err), db, w⟩
  | .panic p => ⟨.panic p, db, w⟩
  | .ok (table, w') =>
    let query := "DELETE FROM `".toList ++ table ++ ['`'] ++ whereSuffix U clause
    execStatement D db w' "dp Delete: ".toList query args

/-- State of the `SET` loop of `UpdateContext`: the text written to `query`, the
slice `params` and the flag `start`. -/
structure SetLoop where
  query : Str
  params : List FieldVal
  start : Bool

/-- The `SET` loop of `UpdateContext` over the entries of `values`, listed in the
order in which the map iteration of this call visits them. -/
def setLoop (query : Str) (values : List (Str × FieldVal)) : SetLoop :=
  values.foldl
    (fun st nv =>
      { query := (if st.start then st.query else st.query ++ [',']) ++ " `".toList ++ nv.1
          ++ "`=?".toList
        params := st.params ++ [nv.2]
        start := false })
    ⟨query, [], true⟩

/-- The function `UpdateContext` of query.go; `values` lists the entries of the map
in the order in which the iteration of this call visits them. -/
def UpdateContext {σ : Type} (U : Lib) (D : Driver σ) (db : σ) (w : World)
    (tableOrModel : Value) (values : List (Str × FieldVal)) (clause : Str)
    (args : List FieldVal) : ExecResult σ :=
  match getTableName U w tableOrModel with
  | .error err => ⟨.error ("dp UPDATE: ".toList ++ err), db, w⟩
  | .panic p => ⟨.panic p, db, w⟩
  | .ok (table, w') =>
    let st := setLoop ("UPDATE `".toList ++ table ++ "` SET".toList) values
    let query := st.query ++ whereSuffix U clause
    let params := if TrimSpace clause != [] then st.params ++ args else st.params
    execStatement D db w' "dp Update: ".toList query params

/-- The text `SelectContext` hands to `queryContext`: the select script, followed by
the trimmed where-clause when it is not empty. -/
def selectQuery (tab : Table) (clause : Str) : Str :=
  let clause := TrimSpace clause
  if clause != [] then
    tab.SelectScript ++ [' ']
      ++ (if !HasPrefix clause "where".toList then "where ".toList ++ clause else clause)
  else tab.SelectScript

/-- The text `queryContext` hands to the driver for a destination of kind `outKind`. -/
def limitQuery (outKind : Kind) (query : Str) : Str :=
  if outKind != Kind.Slice then
    if !Contains query "limit".toList then query ++ " limit 1".toList else query
  else query

/-- The zero value of a field of the given kind. -/
def zeroVal : Kind → FieldVal
  | .String => .str []
  | .Bool => .bool false
  | .Int => .int .Int 0 | .Int8 => .int .Int8 0 | .Int16 => .int .Int16 0
  | .Int32 => .int .Int32 0 | .Int64 => .int .Int64 0
  | .Uint => .uint .Uint 0 | .Uint8 => .uint .Uint8 0 | .Uint16 => .uint .Uint16 0
  | .Uint32 => .uint .Uint32 0 | .Uint64 => .uint .Uint64 0 | .Uintptr => .uint .Uintptr 0
  | .Float32 => .float .Float32 true 0 | .Float64 => .float .Float64 true 0
  | .Interface => .ref .Interface true 0 | .Ptr => .ref .Ptr true 0
  | k => .other k true 0

/-- The record `Table.Scan` makes of a row on which the scan stores `vals`: a new
record of the table's type whose field `Columns[i].Struct.Index` receives the
`i`-th value. -/
def Table.materialize (tab : Table) (vals : List FieldVal) : Value :=
  .struct tab.Typ
    ((tab.Columns.zip vals).foldl (fun item cv => item.set cv.1.Struct.Index cv.2)
      (tab.Typ.Fields.map (fun d => zeroVal d.Kind)))

/-- The loop of `Table.Scan` that collects the destinations: the panic with which
it ends, if any.  `FieldByIndex` panics on an index out of range and
`Addr().Interface()` on a field that is not exported. -/
def Table.destPanic (tab : Table) : Option Str :=
  match tab.Columns.find?
      (fun c => decide (tab.Typ.Fields.length ≤ c.Struct.Index) || !c.Struct.Exported) with
  | none => none
  | some c =>
    if tab.Typ.Fields.length ≤ c.Struct.Index then
      some "\"reflect: Field index out of range\"".toList
    else some unexportedPanic

/-- Whether the scan of a row can store `vals` through the destinations of
`columns`: there is one value for each destination, of the kind of its field. -/
def storable (columns : List Column) (vals : List FieldVal) : Bool :=
  vals.length == columns.length &&
    (columns.zip vals).all (fun cv => cv.2.Kind == cv.1.Struct.Kind)

/-- The method `Table.Scan` of dp.go on one row.  A row whose values are not one
for each destination and of the kind of its field is a row that `rows.Scan`
refuses; its error, which names the count or the column and the value, is cut
after `sql: Scan error`. -/
def Table.Scan (tab : Table) (row : Except Str (List FieldVal)) : Outcome Value :=
  match tab.destPanic with
  | some p => .panic p
  | none =>
    match row with
    | .error err => .error err
    | .ok vals =>
      if storable tab.Columns vals then .ok (tab.materialize vals)
      else .error "sql: Scan error".toList

/-- Result of the query entry points: the returned error (`none` is nil), the
destination argument after the call, the driver and the process state. -/
structure QueryResult (σ : Type) where
  err : Option Str
  out : Value
  db : σ
  world : World

/-- The row loop of `queryContext` for a destination pointing to a variable of type
`elemT` that holds `target`; `result` is the slice built so far.  The outcome is
the returned error and the new content of the variable; storing a value of
another type than the destination takes makes reflect panic, which the deferred
function of `queryContext` turns into the returned error. -/
def scanRows (tab : Table) (elemT : RType) (target : Value) (result : List Value) :
    List (Except Str (List FieldVal)) → Option Str × Value
  | [] =>
    match elemT with
    | .slice e => (none, .slice e result)
    | _ => (none, target)
  | row :: rest =>
    match tab.Scan row with
    | .error err => (some err, target)
    | .panic p => (some p, target)
    | .ok item =>
      match elemT with
      | .struct t =>
        if t = tab.Typ then (none, item)
        else (some "\"reflect.Set: value is not assignable to the destination type\"".toList, target)
      | .slice (.ptr e) =>
        if e = .struct tab.Typ then
          scanRows tab elemT target (result ++ [.ptr (.struct tab.Typ) (some item)]) rest
        else (some "\"reflect.Append: value is not assignable to the element type\"".toList, target)
      | .slice e =>
        if e = .struct tab.Typ ∨ e = .iface then scanRows tab elemT target (result ++ [item]) rest
        else (some "\"reflect.Append: value is not assignable to the element type\"".toList, target)
      | _ => (some "reflect: call of reflect.Append on a value that is no slice".toList, target)

/-- The function `queryContext` of query.go; `tab` is `none` for the nil pointer. -/
def queryContext {σ : Type} (U : Lib) (D : Driver σ) (db : σ) (w : World) (out : Value)
    (tab : Option Nat) (query : Str) (args : List FieldVal) : QueryResult σ :=
  match out with
  | .ptr elemT (some target) =>
    match (match tab with
      | some t => Outcome.ok (t, w)
      | none => GetTable U w out) with
    | .error err => ⟨some ("dp select: ".toList ++ err), out, db, w⟩
    | .panic p => ⟨some p, out, db, w⟩
    | .ok (t, w') =>
      let query := limitQuery elemT.Kind query
      match D.QueryContext db query args with
      | (db', .failed err _) => ⟨some err, out, db', w'⟩
      | (db', .rows rs) =>
        match w'.table t with
        | none =>
          match rs with
          | [] => ⟨none, out, db', w'⟩
          | _ :: _ =>
            ⟨some "runtime error: invalid memory address or nil pointer dereference".toList,
              out, db', w'⟩
        | some table =>
          let r := scanRows table elemT target
            (match target with
              | .slice _ items => items
              | _ => []) rs
          ⟨r.1, .ptr elemT (some r.2), db', w'⟩
  | .ptr _ none => ⟨some "nil pointer passed to StructScan destination".toList, out, db, w⟩
  | _ =>
    ⟨some "must pass a pointer, not a value, to StructScan destination".toList, out, db, w⟩

/-- The function `QueryContext` of query.go. -/
def QueryContext {σ : Type} (U : Lib) (D : Driver σ) (db : σ) (w : World) (out : Value)
    (query : Str) (args : List FieldVal) : QueryResult σ :=
  queryContext U D db w out none query args

/-- The function `SelectContext` of query.go. -/
def SelectContext {σ : Type} (U : Lib) (D : Driver σ) (db : σ) (w : World) (out : Value)
    (clause : Str) (args : List FieldVal) : QueryResult σ :=
  match out with
  | .ptr _ (some _) =>
    match GetTable U w out with
    | .error err => ⟨some ("dp select: ".toList ++ err), out, db, w⟩
    | .panic p => ⟨some p, out, db, w⟩
    | .ok (tab, w') =>
      match w'.table tab with
      | none =>
        ⟨some "runtime error: invalid memory address or nil pointer dereference".toList,
          out, db, w'⟩
      | some table => queryContext U D db w' out (some tab) (selectQuery table clause) args
  | .ptr _ none => ⟨some "nil pointer passed to StructScan destination".toList, out, db, w⟩
  | _ =>
    ⟨some "must pass a pointer, not a value, to StructScan destination".toList, out, db, w⟩

/-- A driver that records the text and the arguments of every call in its state and
answers queries by `reply`. -/
def recorder (reply : Str → List FieldVal → QueryReply) : Driver (List (Str × List FieldVal)) where
  ExecContext := fun log q args => (log ++ [(q, args)], .result (.ok 0))
  QueryContext := fun log q args => (log ++ [(q, args)], reply q args)

/-- Statement `m[name] = append(m[name], item)` on the map of `group`, given by its
entries. -/
def groupAppend (m : List (Str × List Value)) (name : Str) (item : Value) :
    List (Str × List Value) :=
  if m.any (fun kv => kv.1 == name) then
    m.map (fun kv => if kv.1 == name then (kv.1, kv.2 ++ [item]) else kv)
  else m ++ [(name, [item])]

mutual
/-- The function `group` of utils.go.  The map is returned also on failure: it
keeps the entries made before the element that is not supported. -/
def group (m : List (Str × List Value)) : Value → List (Str × List Value) × Option Str
  | .nil => (m, some "kind: invalid not support".toList)
  | .str _ => (m, some ("kind: ".toList ++ Kind.String.name ++ " not support".toList))
  | .scalar k => (m, some ("kind: ".toList ++ k.name ++ " not support".toList))
  | .struct t fields => (groupAppend m (cacheKey t) (.struct t fields), none)
  | .ptr _ none => (m, some "kind: invalid not support".toList)
  | .ptr _ (some v) => group m v
  | .slice _ items => groupAll m items
/-- The loop of `group` over the elements of a slice. -/
def groupAll (m : List (Str × List Value)) : List Value → List (Str × List Value) × Option Str
  | [] => (m, none)
  | v :: vs =>
    match group m v with
    | (m', none) => groupAll m' vs
    | (m', some err) => (m', some err)
end

/-- The function `groupValues` of utils.go on the variadic arguments `values`. -/
def groupValues (values : List Value) : List (Str × List Value) × Option Str :=
  groupAll [] values

/-- Addition of `int64`, which wraps around. -/
def addInt64 (a b : Int) : Int := (a + b + 2 ^ 63) % 2 ^ 64 - 2 ^ 63

/-- Result of `InsertContext`: the returned count and error (`none` is nil), the
driver and the process state. -/
structure InsertResult (σ : Type) where
  affected : Int
  err : Option Str
  db : σ
  world : World

/-- Body of the loop of `InsertContext` over the groups, for the group `items`;
`r` holds the count so far, `b` the calls made so far to the generator and the
clock.  A panic is turned into the returned error, as the deferred function does. -/
def insertGroup {σ : Type} (U : Lib) (H : Hooks) (D : Driver σ) (items : List Value)
    (r : InsertResult σ) (b : Bound) : InsertResult σ × Bound :=
  if items.length == 0 then (r, b)
  else
    match GetTable U r.world (.slice .iface items) with
    | .error err => ({ r with err := some err }, b)
    | .panic p => ({ r with err := some p }, b)
    | .ok (tab, w') =>
      match w'.table tab with
      | none =>
        ({ r with
            err := some "runtime error: invalid memory address or nil pointer dereference".toList
            world := w' }, b)
      | some table =>
        let query := table.CreateBatchInsertScript U items.length
        match bindItems H table.Columns items { b with values := [] } with
        | .error err => ({ r with err := some err, world := w' }, b)
        | .panic p => ({ r with err := some p, world := w' }, b)
        | .ok b' =>
          match D.ExecContext r.db query b'.values with
          | (db', .failed err) => ({ r with err := some err, db := db', world := w' }, b')
          | (db', .result (.error err)) =>
            ({ r with err := some err, db := db', world := w' }, b')
          | (db', .result (.ok n)) =>
            ({ affected := addInt64 r.affected n, err := none, db := db', world := w' }, b')

/-- The loop of `InsertContext` over the groups, which ends at the first error. -/
def insertGroups {σ : Type} (U : Lib) (H : Hooks) (D : Driver σ) :
    List (Str × List Value) → InsertResult σ → Bound → InsertResult σ
  | [], r, _ => r
  | g :: gs, r, b =>
    match insertGroup U H D g.2 r b with
    | (r', b') => if r'.err.isSome then r' else insertGroups U H D gs r' b'

/-- The function `InsertContext` of query.go; `visit` gives the order in which the
range statement of this call goes through the entries of `itemsMap`. -/
def InsertContext {σ : Type} (U : Lib) (H : Hooks) (D : Driver σ)
    (visit : List (Str × List Value) → List (Str × List Value)) (db : σ) (w : World)
    (args : List Value) : InsertResult σ :=
  match groupValues args with
  | (_, some err) => ⟨0, some err, db, w⟩
  | (itemsMap, none) => insertGroups U H D (visit itemsMap) ⟨0, none, db, w⟩ ⟨[], 0, 0⟩

/-! ## Sample inputs -/

/-- The process state when the package is loaded: `tabCache` is empty and no table
has been built. -/
def world0 : World := ⟨[], []⟩

/-- The record type `type Account struct { User string; UserID int64 }` of package
`main`. -/
def accountType : StructType :=
  { PkgPath := "main".toList, Name := "Account".toList,
    Fields := [⟨"User".toList, Kind.String, [], true⟩, ⟨"UserID".toList, Kind.Int64, [], true⟩] }

/-- The record `Account{User: "ann", UserID: 7}`. -/
def account : Value := .struct accountType [.str "ann".toList, .int Kind.Int64 7]

/-- A pointer to a variable that holds `account`. -/
def accountDest : Value := .ptr (.struct accountType) (some account)

/-- The record type `type T struct { A string; B string }` with the tag
`db:"on_update"` on `B`. -/
def upsertType : StructType :=
  { PkgPath := "main".toList, Name := "T".toList,
    Fields := [⟨"A".toList, Kind.String, [], true⟩,
      ⟨"B".toList, Kind.String, [("db".toList, "on_update".toList)], true⟩] }

/-- The record type `type T struct { A string; B string }` without tags. -/
def plainType : StructType :=
  { PkgPath := "main".toList, Name := "T".toList,
    Fields := [⟨"A".toList, Kind.String, [], true⟩, ⟨"B".toList, Kind.String, [], true⟩] }

/-- The record type `type Order struct { ID int64; Note string }` with the tag
`db:"primary_key"` on `ID`. -/
def orderType : StructType :=
  { PkgPath := "main".toList, Name := "Order".toList,
    Fields := [⟨"ID".toList, Kind.Int64, [("db".toList, "primary_key".toList)], true⟩,
      ⟨"Note".toList, Kind.String, [], true⟩] }

/-- The record `Order{ID: 0, Note: "x"}`. -/
def order : Value := .struct orderType [.int Kind.Int64 0, .str "x".toList]

/-- The record type `type RateLimit struct { ID int64 }`. -/
def rateLimitType : StructType :=
  { PkgPath := "main".toList, Name := "RateLimit".toList,
    Fields := [⟨"ID".toList, Kind.Int64, [], true⟩] }

/-- A pointer to a variable that holds `RateLimit{}`. -/
def rateLimitDest : Value :=
  .ptr (.struct rateLimitType) (some (.struct rateLimitType [.int Kind.Int64 0]))

/-- A database that finds no row. -/
def noRows : Str → List FieldVal → QueryReply := fun _ _ => .rows []

/-- A database that finds no row and says so by the error `sql.ErrNoRows`. -/
def errNoRows : Str → List FieldVal → QueryReply :=
  fun _ _ => .failed "sql: no rows in result set".toList true

/-- The generator of dp.go together with a clock that stands at 1700000000. -/
def shippedHooks : Hooks := ⟨defaultNewID, fun _ => 1700000000⟩

/-- Formats in which every `%` starts one of the directives `%s`, `%v`, `%%`. -/
def plainFormat : Str → Bool
  | [] => true
  | [_] => true
  | c :: d :: rest =>
    if c == '%' then (d == '%' || d == 's' || d == 'v') && plainFormat rest
    else plainFormat (d :: rest)

/-! ## Predicates used in the statements and proofs -/

/-- Names made of ASCII letters, digits and single underscores: an underscore is
never followed by another one, nor comes first when `inRun` is set. -/
def separated : Bool → Str → Bool
  | _, [] => true
  | inRun, c :: cs =>
    if isAlnum c then separated false cs else (c == '_' && !inRun && separated true cs)

/-- An old string of the replacer starts with an upper-case letter. -/
def startsUpper : Str → Bool
  | [] => false
  | u :: _ => isUpper u

/-- The argument the specification prescribes for the column `c` of a record whose
field holds `val`: the value itself when it is not zero or the field is no
`int64`; else the Unix time when the field is named `CreatedAt` or `UpdatedAt`;
else an identifier of the generator when the column is marked `newid` or
`primary_key`; else zero. -/
def BoundAs (H : Hooks) (c : Column) (val arg : FieldVal) : Prop :=
  ((isBlank val = false ∨ c.Struct.Kind ≠ Kind.Int64) ∧ arg = val) ∨
  (isBlank val = true ∧ c.Struct.Kind = Kind.Int64 ∧
    ((c.Struct.Name = "CreatedAt".toList ∨ c.Struct.Name = "UpdatedAt".toList) ∧
        (∃ k, arg = .int Kind.Int64 (H.now k)) ∨
      (c.Struct.Name ≠ "CreatedAt".toList ∧ c.Struct.Name ≠ "UpdatedAt".toList) ∧
        ((c.NewID = true ∨ c.PrimaryKey = true) ∧ (∃ k, arg = .int Kind.Int64 (H.NewID k)) ∨
          (c.NewID = false ∧ c.PrimaryKey = false) ∧ arg = .int Kind.Int 0)))

/-- A pointer to a variable of type `[]Account` that holds the one record `account`. -/
def accountsDest : Value :=
  .ptr (.slice (.struct accountType)) (some (.slice (.struct accountType) [account]))

/-- A row whose scan stores `"bob"` for the column `user` and 8 for the column
`user_id`, the order of the destinations of `Account`. -/
def bobRow : Except Str (List FieldVal) := .ok [.str "bob".toList, .int Kind.Int64 8]

/-- A database that finds the one row `bobRow`. -/
def oneRow : Str → List FieldVal → QueryReply := fun _ _ => .rows [bobRow]

/-- The record `Account{User: "bob", UserID: 8}`. -/
def accountBob : Value := .struct accountType [.str "bob".toList, .int Kind.Int64 8]

/-- The columns of the struct type `t` in the order of its fields, as the field
loop of `GetTable` leaves them. -/
def fieldColumns (U : Lib) (t : StructType) : List Column :=
  ((fieldsFrom 0 t.Fields).foldl (addField U)
    { Name := ParseName U t.Name, Typ := t, Columns := [], allColumns := [],
      insertColumns := [], replaceColumns := [], SelectScript := [], InsertScript := [],
      BatchInsertScriptFormat := [] }).Columns

/-- No two columns of the struct type that the argument of `GetTable` leads to have
the same name. -/
def distinctNames (v : Value) : Bool :=
  match structTypeOf v with
  | .ok t => decide ((fieldColumns plainLib t).map (fun c => c.Name)).Nodup
  | _ => true

/-- The quoted form of a column name, as `GetTable` writes it into its lists. -/
def quoteName (name : Str) : Str := ['`'] ++ name ++ ['`']

/-- What the field loop of `GetTable` keeps true of the descriptor under
construction: `insertColumns` lists the quoted names of the columns that are not
auto-increment, in the order of `Columns`, and every column belongs to a field
that satisfies `S`. -/
def FieldLoopInv (S : StructField → Prop) (tab : Table) : Prop :=
  tab.insertColumns = (tab.Columns.filter (fun c => !c.AutoIncrement)).map (fun c => quoteName c.Name) ∧
    ∀ c ∈ tab.Columns, S c.Struct

/-- The record type `type Twin struct { ID int64; Id int64 }` with the tag
`db:"auto_increment"` on `ID`; both fields resolve to the column name `id`. -/
def twinType : StructType :=
  { PkgPath := "main".toList, Name := "Twin".toList,
    Fields := [⟨"ID".toList, Kind.Int64, [("db".toList, "auto_increment".toList)], true⟩,
      ⟨"Id".toList, Kind.Int64, [], true⟩] }

/-- The record type `type Mark struct { A string }` with the tag `db:"column:a?"`
on `A`. -/
def markType : StructType :=
  { PkgPath := "main".toList, Name := "Mark".toList,
    Fields := [⟨"A".toList, Kind.String, [("db".toList, "column:a?".toList)], true⟩] }

/-- The record `Mark{A: "x"}`. -/
def mark : Value := .struct markType [.str "x".toList]

/-- Text that contains neither the `%` of a format directive nor the placeholder
mark `?`. -/
def noMarks (s : Str) : Bool := s.all (fun c => c != '%' && c != '?')

/-- The table name and the entries of `insertColumns` and `replaceColumns` contain
neither `%` nor `?`. -/
def cleanNames (tab : Table) : Bool :=
  noMarks tab.Name && tab.insertColumns.all noMarks && tab.replaceColumns.all noMarks

mutual
/-- The elements that flattening an argument reaches: what remains when pointers
and interfaces are followed and slices are walked through.  Behind a nil pointer
or a nil interface lies the invalid value (`Value.nil`, of kind `Invalid`). -/
def leaves : Value → List Value
  | .nil => [.nil]
  | .str s => [.str s]
  | .scalar k => [.scalar k]
  | .struct t fields => [.struct t fields]
  | .ptr _ none => [.nil]
  | .ptr _ (some v) => leaves v
  | .slice _ items => leavesAll items
/-- The elements that flattening a list of arguments reaches, in input order. -/
def leavesAll : List Value → List Value
  | [] => []
  | v :: vs => leaves v ++ leavesAll vs
end

/-- Values of kind `Struct`: the records. -/
def isRecord : Value → Bool
  | .struct _ _ => true
  | _ => false

/-- The key of the type of a record: package path and type name. -/
def recordKey : Value → Str
  | .struct t _ => cacheKey t
  | _ => []

/-- The map `m` groups the records `recs`: no key occurs twice, the group under a
key holds the records of that key, each as often as it occurs in `recs` and in the
order of `recs`, no group is empty, and every record has a group. -/
def Groups (recs : List Value) (m : List (Str × List Value)) : Prop :=
  (m.map Prod.fst).Nodup ∧
    (∀ g ∈ m, g.2 ≠ [] ∧ g.2 = recs.filter (fun x => recordKey x == g.1)) ∧
    ∀ x ∈ recs, ∃ g ∈ m, g.1 = recordKey x

/-- The error with which an `ExecContext` call ends for `InsertContext`: the error
of the call itself or of `RowsAffected`; `none` when both succeed. -/
def ExecReply.failure : ExecReply → Option Str
  | .failed err => some err
  | .result (.error err) => some err
  | .result (.ok _) => none

/-- The affected count a successful `ExecContext` call reports (0 for a call that
fails). -/
def ExecReply.count : ExecReply → Int
  | .result (.ok n) => n
  | _ => 0

/-- One `ExecContext` call as a traced driver keeps it: text, arguments, and the
failure and the count of the answer. -/
structure ExecCall where
  query : Str
  args : List FieldVal
  failure : Option Str
  count : Int
  deriving DecidableEq

/-- The driver `D` with a trace: the state carries, next to the state of `D`, the
`ExecContext` calls made so far, each with the answer `D` gave. -/
def traced {σ : Type} (D : Driver σ) : Driver (σ × List ExecCall) where
  ExecContext := fun s q args =>
    (((D.ExecContext s.1 q args).1,
        s.2 ++ [⟨q, args, (D.ExecContext s.1 q args).2.failure,
          (D.ExecContext s.1 q args).2.count⟩]),
      (D.ExecContext s.1 q args).2)
  QueryContext := fun s q args =>
    (((D.QueryContext s.1 q args).1, s.2), (D.QueryContext s.1 q args).2)

/-- The `int64` sum of a list of counts, added up as `InsertContext` does. -/
def sumInt64 (counts : List Int) : Int := counts.foldl addInt64 0

/-- A driver that counts its calls and reports 3 rows for each. -/
def steady : Driver Nat where
  ExecContext := fun n _ _ => (n + 1, .result (.ok 3))
  QueryContext := fun n _ _ => (n, .rows [])

/-- A driver that counts its calls; its first call reports 3 rows, every later call
fails with the error `boom`. -/
def flaky : Driver Nat where
  ExecContext := fun n _ _ =>
    (n + 1, if n == 0 then .result (.ok 3) else .failed "boom".toList)
  QueryContext := fun n _ _ => (n, .rows [])

/-- State of `InsertContext` in which every traced call has succeeded and the count
is the sum of the counts reported. -/
def AllSucceeded {σ : Type} (r : InsertResult (σ × List ExecCall)) : Prop :=
  (∀ c ∈ r.db.2, c.failure = none) ∧ r.affected = sumInt64 (r.db.2.map (fun c => c.count))

/-- State of `InsertContext` in which the last traced call has failed: its error is
the error held, the calls before it have succeeded, and the count is the sum of
their counts. -/
def LastFailed {σ : Type} (r : InsertResult (σ × List ExecCall)) : Prop :=
  ∃ (pre : List ExecCall) (c : ExecCall) (e : Str),
    r.db.2 = pre ++ [c] ∧ c.failure = some e ∧ r.err = some e ∧
      (∀ x ∈ pre, x.failure = none) ∧ r.affected = sumInt64 (pre.map (fun c => c.count))

/-- The call that inserting `account` makes, answered with 3 affected rows. -/
def accountCall : ExecCall :=
  ⟨"INSERT IGNORE INTO `account` (`user_id`,`user`) VALUES (?,?)".toList,
    [.str "ann".toList, .int Kind.Int64 7], none, 3⟩

/-- The call that inserting `order` makes, answered with the error `boom`. -/
def orderCall : ExecCall :=
  ⟨"INSERT IGNORE INTO `order` (`id`,`note`) VALUES (?,?)".toList,
    [.int Kind.Int64 0, .str "x".toList], some "boom".toList, 0⟩

/-- The record type `type Item struct { A int64 }` that a first function of package
`main` declares in its body. -/
def firstItemType : StructType :=
  { PkgPath := "main".toList, Name := "Item".toList,
    Fields := [⟨"A".toList, Kind.Int64, [], true⟩] }

/-- The record type `type Item struct { B int64 }` that a second function of package
`main` declares in its body: another type of the same package path and name. -/
def secondItemType : StructType :=
  { PkgPath := "main".toList, Name := "Item".toList,
    Fields := [⟨"B".toList, Kind.Int64, [], true⟩] }

/-- The record `Item{A: 1}` of the first of the two types. -/
def firstItem : Value := .struct firstItemType [.int Kind.Int64 1]

/-- The record `Item{B: 2}` of the second of the two types. -/
def secondItem : Value := .struct secondItemType [.int Kind.Int64 2]

/-- The one call that inserting `firstItem` and `secondItem` together makes,
answered with 3 affected rows. -/
def itemsCall : ExecCall :=
  ⟨"INSERT IGNORE INTO `item` (`a`) VALUES (?),(?)".toList,
    [.int Kind.Int64 1, .int Kind.Int64 2], none, 3⟩

/-- The record type `type Hidden struct { id int64; Name string }`, whose field `id`
is not exported. -/
def hiddenType : StructType :=
  { PkgPath := "main".toList, Name := "Hidden".toList,
    Fields := [⟨"id".toList, Kind.Int64, [], false⟩, ⟨"Name".toList, Kind.String, [], true⟩] }

/-- The record `Hidden{id: 5, Name: "x"}`. -/
def hidden : Value := .struct hiddenType [.int Kind.Int64 5, .str "x".toList]

/-- The struct type of a record. -/
def recordType : Value → Option StructType
  | .struct t _ => some t
  | _ => none

/-- Records that hold one value for each field their type declares. -/
def wellFormed : Value → Bool
  | .struct t fields => fields.length == t.Fields.length
  | _ => false

/-- Records of a type whose fields are all exported. -/
def exportedFields : Value → Bool
  | .struct t _ => t.Fields.all (fun d => d.Exported)
  | _ => false

/-- The group `g` of the map of `InsertContext` holds records of the one type `t`,
`count t` of them and at least one, its key is the key of `t`, and the fields of
`t` are exported. -/
def GroupOf (count : StructType → Nat) (g : Str × List Value) (t : StructType) : Prop :=
  g.2 ≠ [] ∧ cacheKey t = g.1 ∧ g.2.length = count t ∧
    (∀ d ∈ t.Fields, d.Exported = true) ∧
    ∀ item ∈ g.2, ∃ fields, item = .struct t fields ∧ fields.length = t.Fields.length

/-- How many of the records `recs` are of the struct type `t`. -/
def countOfType (recs : List Value) (t : StructType) : Nat :=
  (recs.filter (fun x => decide (recordType x = some t))).length

/-! # Theorems -/

/-! ## Facts about runes -/

theorem isAlnum_ascii {c : Char} (h : isAlnum c = true) : c.toNat < 128 := by
  simp only [isAlnum, isDigit, isUpper, isLower, Bool.or_eq_true, Bool.and_eq_true,
    decide_eq_true_eq] at h
  omega

theorem isUpper_isAlnum {c : Char} (h : isUpper c = true) : isAlnum c = true := by
  simp [isAlnum, h]

theorem asciiLower_of_not_upper {c : Char} (h : isUpper c = false) : asciiLower c = c := by
  simp [asciiLower, h]

theorem asciiLower_upper_toNat {c : Char} (h : isUpper c = true) :
    (asciiLower c).toNat = c.toNat + 32 := by
  have hc : c = Char.ofNat c.toNat := (Char.ofNat_toNat c).symm
  simp only [isUpper, Bool.and_eq_true, decide_eq_true_eq] at h
  obtain ⟨h1, h2⟩ := h
  generalize c.toNat = n at hc h1 h2
  subst hc
  interval_cases n <;> decide

theorem isUpper_asciiLower (c : Char) : isUpper (asciiLower c) = false := by
  by_cases h : isUpper c = true
  · have h2 := asciiLower_upper_toNat h
    simp only [isUpper, Bool.and_eq_true, decide_eq_true_eq] at h
    simp only [isUpper, h2, Bool.and_eq_false_iff, decide_eq_false_iff_not]
    omega
  · have h' : isUpper c = false := by simpa using h
    rw [asciiLower_of_not_upper h']; exact h'

theorem isAlnum_asciiLower {c : Char} (h : isAlnum c = true) : isAlnum (asciiLower c) = true := by
  by_cases hu : isUpper c = true
  · have h2 := asciiLower_upper_toNat hu
    simp only [isUpper, Bool.and_eq_true, decide_eq_true_eq] at hu
    simp only [isAlnum, isDigit, isUpper, isLower, h2, Bool.or_eq_true, Bool.and_eq_true,
      decide_eq_true_eq]
    omega
  · have h' : isUpper c = false := by simpa using hu
    rw [asciiLower_of_not_upper h']; exact h

theorem asciiLower_underscore (c : Char) : (asciiLower c == '_') = (c == '_') := by
  by_cases hu : isUpper c = true
  · have h2 := asciiLower_upper_toNat hu
    simp only [isUpper, Bool.and_eq_true, decide_eq_true_eq] at hu
    have e1 : (asciiLower c == '_') = false := by
      rw [beq_eq_false_iff_ne]; intro h; rw [h] at h2
      have : ('_' : Char).toNat = 95 := by decide
      omega
    have e2 : (c == '_') = false := by
      rw [beq_eq_false_iff_ne]; intro h; rw [h] at hu
      have : ('_' : Char).toNat = 95 := by decide
      omega
    rw [e1, e2]
  · have h' : isUpper c = false := by simpa using hu
    rw [asciiLower_of_not_upper h']

theorem isAlnum_underscore : isAlnum '_' = false := by decide

/-! ## Normal form of column names -/

theorem separated_alnumReReplace (s : Str) :
    ∀ b, separated b (alnumReReplace b s) = true := by
  induction s with
  | nil => intro b; simp [alnumReReplace, separated]
  | cons c cs ih =>
    intro b
    by_cases hc : isAlnum c = true
    · simp [alnumReReplace, separated, hc, ih false]
    · cases b
      · simp [alnumReReplace, separated, hc, ih true, isAlnum_underscore]
      · simp [alnumReReplace, hc, ih true]

theorem alnumReReplace_of_separated (s : Str) :
    ∀ b, separated b s = true → alnumReReplace b s = s := by
  induction s with
  | nil => intro b _; simp [alnumReReplace]
  | cons c cs ih =>
    intro b h
    by_cases hc : isAlnum c = true
    · simp only [separated, hc, if_true] at h
      simp [alnumReReplace, hc, ih false h]
    · simp only [separated, hc, Bool.false_eq_true, if_false, Bool.and_eq_true, beq_iff_eq,
        Bool.not_eq_true'] at h
      obtain ⟨⟨h1, h2⟩, h3⟩ := h
      subst h1 h2
      simp [alnumReReplace, isAlnum_underscore, ih true h3]

theorem separated_weaken (s : Str) (b : Bool) (h : separated b s = true) :
    separated false s = true := by
  cases s with
  | nil => simp [separated]
  | cons c cs =>
    by_cases hc : isAlnum c = true
    · simpa [separated, hc] using h
    · simp only [separated, hc, Bool.false_eq_true, if_false, Bool.and_eq_true, beq_iff_eq,
        Bool.not_eq_true'] at h ⊢
      exact ⟨⟨h.1.1, trivial⟩, h.2⟩

theorem separated_tail (c : Char) (cs : Str) (b : Bool) (h : separated b (c :: cs) = true) :
    separated false cs = true := by
  by_cases hc : isAlnum c = true
  · simpa [separated, hc] using h
  · simp only [separated, hc, Bool.false_eq_true, if_false, Bool.and_eq_true] at h
    exact separated_weaken cs true h.2

theorem separated_dropWhile (p : Char → Bool) (s : Str) :
    separated false s = true → separated false (s.dropWhile p) = true := by
  induction s with
  | nil => intro h; simpa using h
  | cons c cs ih =>
    intro h
    rw [List.dropWhile_cons]
    split
    · exact ih (separated_tail c cs false h)
    · exact h

theorem separated_prefix (s t : Str) :
    ∀ b, separated b (s ++ t) = true → separated b s = true := by
  induction s with
  | nil => intro b _; simp [separated]
  | cons c cs ih =>
    intro b h
    by_cases hc : isAlnum c = true
    · simp only [List.cons_append, separated, hc, if_true] at h ⊢
      exact ih false h
    · simp only [List.cons_append, separated, hc, Bool.false_eq_true, if_false,
        Bool.and_eq_true] at h ⊢
      exact ⟨h.1, ih true h.2⟩

theorem dropRightWhile_eq (p : Char → Bool) (s : Str) :
    dropRightWhile p s = List.rdropWhile p s := rfl

theorem separated_dropRightWhile (p : Char → Bool) (s : Str)
    (h : separated false s = true) : separated false (dropRightWhile p s) = true := by
  obtain ⟨t, ht⟩ := List.rdropWhile_prefix p (l := s)
  rw [dropRightWhile_eq]
  apply separated_prefix _ t
  rw [ht]; exact h

theorem separated_Trim (s cut : Str) (h : separated false s = true) :
    separated false (Trim s cut) = true :=
  separated_dropRightWhile _ _ (separated_dropWhile _ _ h)

theorem separated_chars (s : Str) :
    ∀ b, separated b s = true → ∀ c ∈ s, isAlnum c = true ∨ c = '_' := by
  induction s with
  | nil => intro b _ c hc; simp at hc
  | cons d ds ih =>
    intro b h c hc
    rcases List.mem_cons.mp hc with rfl | hmem
    · by_cases hd : isAlnum c = true
      · exact Or.inl hd
      · simp only [separated, hd, Bool.false_eq_true, if_false, Bool.and_eq_true,
          beq_iff_eq] at h
        exact Or.inr h.1.1
    · exact ih false (separated_tail d ds b h) c hmem

theorem separated_map_asciiLower (s : Str) :
    ∀ b, separated b s = true → separated b (s.map asciiLower) = true := by
  induction s with
  | nil => intro b _; simp [separated]
  | cons c cs ih =>
    intro b h
    by_cases hc : isAlnum c = true
    · simp only [separated, hc, if_true] at h
      simp [separated, isAlnum_asciiLower hc, ih false h]
    · simp only [separated, hc, Bool.false_eq_true, if_false, Bool.and_eq_true, beq_iff_eq,
        Bool.not_eq_true'] at h
      obtain ⟨⟨h1, h2⟩, h3⟩ := h
      subst h1
      have e : asciiLower '_' = '_' := by decide
      simp only [List.map_cons, e, separated]
      simp [h2, ih true h3, isAlnum_underscore]

/-! ## The stages of `toUnderscore` on names without upper-case letters -/

theorem replacerPairs_startUpper : replacerPairs.all (fun p => startsUpper p.1) = true := by
  decide

theorem lookup_none_of_not_upper (pairs : List (Str × Str))
    (h : pairs.all (fun p => startsUpper p.1) = true) (c : Char) (cs : Str)
    (hc : isUpper c = false) : lookup pairs (c :: cs) = none := by
  induction pairs with
  | nil => rfl
  | cons p ps ih =>
    obtain ⟨old, new⟩ := p
    simp only [List.all_cons, Bool.and_eq_true] at h
    cases old with
    | nil => simp [startsUpper] at h
    | cons u us =>
      have hu : isUpper u = true := by simpa [startsUpper] using h.1
      have hne : (c == u) = false := by
        rw [beq_eq_false_iff_ne]; intro e; rw [e, hu] at hc; exact Bool.noConfusion hc
      simp [lookup, HasPrefix, hne, ih h.2]

theorem replaceFrom_of_no_upper (pairs : List (Str × Str))
    (h : pairs.all (fun p => startsUpper p.1) = true) (s : Str)
    (hs : ∀ c ∈ s, isUpper c = false) : replaceFrom pairs 0 s = s := by
  induction s with
  | nil => rfl
  | cons c cs ih =>
    have hc := hs c (List.mem_cons_self _ _)
    have hcs : ∀ d ∈ cs, isUpper d = false := fun d hd => hs d (List.mem_cons_of_mem _ hd)
    simp [replaceFrom, lookup_none_of_not_upper pairs h c cs hc, ih hcs]

theorem upperReReplace_of_no_upper (s : Str) (hs : ∀ c ∈ s, isUpper c = false) :
    ∀ b, upperReReplace b s = s := by
  induction s with
  | nil => intro b; rfl
  | cons c cs ih =>
    intro b
    have hc := hs c (List.mem_cons_self _ _)
    have hcs : ∀ d ∈ cs, isUpper d = false := fun d hd => hs d (List.mem_cons_of_mem _ hd)
    simp [upperReReplace, hc, ih hcs false]

theorem ToLower_ascii (U : Lib) (s : Str) (hs : ∀ c ∈ s, c.toNat < 128) :
    ToLower U s = s.map asciiLower := by
  unfold ToLower
  apply List.map_congr_left
  intro c hc
  simp [lowerRune, hs c hc]

theorem mem_Trim (s cut : Str) (c : Char) (h : c ∈ Trim s cut) : c ∈ s := by
  unfold Trim at h
  rw [dropRightWhile_eq] at h
  exact (List.dropWhile_suffix _).subset ((List.rdropWhile_prefix _ _).subset h)

theorem dropWhile_head_not (p : Char → Bool) (s : Str) :
    ∀ a l, s.dropWhile p = a :: l → p a = false := by
  induction s with
  | nil => intro a l h; simp at h
  | cons c cs ih =>
    intro a l h
    rw [List.dropWhile_cons] at h
    by_cases hc : p c = true
    · rw [if_pos hc] at h; exact ih a l h
    · rw [if_neg hc] at h
      obtain ⟨rfl, -⟩ := List.cons.inj h
      simpa using hc

theorem Trim_idem (s cut : Str) : Trim (Trim s cut) cut = Trim s cut := by
  unfold Trim
  simp only [dropRightWhile_eq]
  generalize (fun c => cut.contains c) = p
  have h1 : List.dropWhile p (List.rdropWhile p (List.dropWhile p s))
      = List.rdropWhile p (List.dropWhile p s) := by
    obtain ⟨t, ht⟩ := List.rdropWhile_prefix p (List.dropWhile p s)
    generalize List.rdropWhile p (List.dropWhile p s) = r at ht
    cases r with
    | nil => rfl
    | cons a r' =>
      have ha := dropWhile_head_not p s a (r' ++ t) (by rw [← ht]; rfl)
      simp [List.dropWhile_cons, ha]
  rw [h1, List.rdropWhile_idempotent]

theorem Trim_map_asciiLower (s : Str) :
    Trim (s.map asciiLower) ['_'] = (Trim s ['_']).map asciiLower := by
  have hp : ((fun c => ['_'].contains c) ∘ asciiLower) = (fun c : Char => ['_'].contains c) := by
    funext c
    simp only [Function.comp, List.contains, List.elem, asciiLower_underscore]
  unfold Trim dropRightWhile
  rw [List.dropWhile_map, hp, ← List.map_reverse, List.dropWhile_map, hp, List.map_reverse]

/-- The result of `toUnderscore` does not depend on the case tables: the text
handed to `strings.ToLower` is ASCII. -/
theorem toUnderscore_eq (U : Lib) (x : Str) :
    toUnderscore U x =
      (Trim (alnumReReplace false (upperReReplace false (replacersReplace x))) ['_']).map
        asciiLower := by
  unfold toUnderscore
  apply ToLower_ascii
  intro c hc
  have hsep := separated_alnumReReplace (upperReReplace false (replacersReplace x)) false
  rcases separated_chars _ false hsep c (mem_Trim _ _ c hc) with h | h
  · exact isAlnum_ascii h
  · subst h; decide

theorem toUnderscore_lib (U : Lib) : toUnderscore U = toUnderscore plainLib := by
  funext x; rw [toUnderscore_eq U x, toUnderscore_eq plainLib x]

theorem toUnderscore_of_normal (U : Lib) (z : Str) (hsep : separated false z = true)
    (hup : ∀ c ∈ z, isUpper c = false) (htrim : Trim z ['_'] = z) : toUnderscore U z = z := by
  rw [toUnderscore_eq]
  unfold replacersReplace
  rw [replaceFrom_of_no_upper _ replacerPairs_startUpper z hup,
    upperReReplace_of_no_upper z hup false, alnumReReplace_of_separated z false hsep, htrim]
  conv_rhs => rw [← List.map_id z]
  apply List.map_congr_left
  intro c hc
  simpa using asciiLower_of_not_upper (hup c hc)

/-- C5: `toUnderscore` is stable on its own output. -/
theorem toUnderscore_idempotent (U : Lib) (x : Str) :
    toUnderscore U (toUnderscore U x) = toUnderscore U x := by
  have hx := toUnderscore_eq U x
  generalize hz : toUnderscore U x = z at hx ⊢
  apply toUnderscore_of_normal
  · rw [hx]
    exact separated_map_asciiLower _ false
      (separated_Trim _ _ (separated_alnumReReplace _ false))
  · intro c hc
    rw [hx] at hc
    obtain ⟨d, -, rfl⟩ := List.mem_map.mp hc
    exact isUpper_asciiLower d
  · rw [hx, Trim_map_asciiLower, Trim_idem]



/-! ## The library parameter: ASCII input and the order of equal elements -/

theorem addField_lib (U : Lib) : addField U = addField plainLib := by
  funext tab f
  simp only [addField, ParseName, toUnderscore_lib U]

theorem insertRev_perm {α : Type} (less : α → α → Bool) (x : α) (l : List α) :
    (insertRev less x l).Perm (x :: l) := by
  induction l with
  | nil => exact List.Perm.refl _
  | cons p ps ih =>
    unfold insertRev
    split
    · exact ((List.Perm.cons p ih).trans (List.Perm.swap x p ps))
    · exact List.Perm.refl _

theorem foldl_insertRev_perm {α : Type} (less : α → α → Bool) (xs : List α) :
    ∀ acc : List α, (xs.foldl (fun acc x => insertRev less x acc) acc).Perm (xs ++ acc) := by
  induction xs with
  | nil => intro acc; exact List.Perm.refl _
  | cons x xs ih =>
    intro acc
    rw [List.foldl_cons]
    refine (ih _).trans ?_
    refine (List.Perm.append_left xs (insertRev_perm less x acc)).trans ?_
    simp

theorem insertionSort_perm {α : Type} (less : α → α → Bool) (xs : List α) :
    (insertionSort less xs).Perm xs := by
  unfold insertionSort
  refine (List.reverse_perm _).trans ?_
  simpa using foldl_insertRev_perm less xs []

theorem insertRev_congr {α : Type} (less less' : α → α → Bool) (x : α) (l : List α)
    (h : ∀ p ∈ l, less x p = less' x p) : insertRev less x l = insertRev less' x l := by
  induction l with
  | nil => rfl
  | cons p ps ih =>
    unfold insertRev
    rw [h p (List.mem_cons_self _ _), ih (fun q hq => h q (List.mem_cons_of_mem _ hq))]

theorem foldl_insertRev_congr {α : Type} (less less' : α → α → Bool) (all : List α)
    (h : ∀ a ∈ all, ∀ b ∈ all, less a b = less' a b) (xs : List α) :
    ∀ acc : List α, (∀ x ∈ xs, x ∈ all) → (∀ p ∈ acc, p ∈ all) →
      xs.foldl (fun acc x => insertRev less x acc) acc
        = xs.foldl (fun acc x => insertRev less' x acc) acc := by
  induction xs with
  | nil => intro acc _ _; rfl
  | cons x xs ih =>
    intro acc hxs hacc
    rw [List.foldl_cons, List.foldl_cons,
      insertRev_congr less less' x acc
        (fun p hp => h x (hxs x (List.mem_cons_self _ _)) p (hacc p hp))]
    apply ih
    · exact fun y hy => hxs y (List.mem_cons_of_mem _ hy)
    · intro p hp
      rcases List.mem_cons.mp ((insertRev_perm less' x acc).subset hp) with rfl | hp
      · exact hxs p (List.mem_cons_self _ _)
      · exact hacc p hp

theorem insertionSort_congr {α : Type} (less less' : α → α → Bool) (xs : List α)
    (h : ∀ a ∈ xs, ∀ b ∈ xs, less a b = less' a b) :
    insertionSort less xs = insertionSort less' xs := by
  unfold insertionSort
  rw [foldl_insertRev_congr less less' xs h xs [] (fun x hx => hx)
    (fun p hp => absurd hp (List.not_mem_nil p))]

theorem sortedBefore_of_nodup (U : Lib) (cols : List Column)
    (h : (cols.map (fun c => c.Name)).Nodup) :
    ∀ a ∈ cols, ∀ b ∈ cols, sortedBefore U cols a b = columnLess a b := by
  intro a ha b hb
  unfold sortedBefore
  by_cases hn : a.Name = b.Name
  · have hab : a = b := List.inj_on_of_nodup_map h ha hb hn
    subst hab
    simp
  · have : (a.Name == b.Name) = false := by simpa using hn
    rw [this, Bool.false_and, Bool.or_false]

theorem sortColumns_of_nodup (U : Lib) (cols : List Column)
    (h : (cols.map (fun c => c.Name)).Nodup) :
    sortColumns U cols = insertionSort columnLess cols :=
  insertionSort_congr _ _ cols (sortedBefore_of_nodup U cols h)

theorem sortColumns_perm (U : Lib) (cols : List Column) : (sortColumns U cols).Perm cols :=
  insertionSort_perm _ cols

theorem buildTable_Columns (U : Lib) (t : StructType) :
    (buildTable U t).Columns = sortColumns U (fieldColumns U t) := rfl

theorem fieldColumns_lib (U : Lib) (t : StructType) :
    fieldColumns U t = fieldColumns plainLib t := by
  simp only [fieldColumns, ParseName, toUnderscore_lib U, addField_lib U]

theorem buildTable_lib (U : Lib) (t : StructType)
    (h : ((fieldColumns plainLib t).map (fun c => c.Name)).Nodup) :
    buildTable U t = buildTable plainLib t := by
  have hs : sortColumns U (fieldColumns plainLib t)
      = sortColumns plainLib (fieldColumns plainLib t) := by
    rw [sortColumns_of_nodup U _ h, sortColumns_of_nodup plainLib _ h]
  simp only [fieldColumns, ParseName] at hs
  simp only [buildTable, ParseName, toUnderscore_lib U, addField_lib U, hs]

theorem getStructTable_lib (U : Lib) (w : World) (t : StructType)
    (h : ((fieldColumns plainLib t).map (fun c => c.Name)).Nodup) :
    getStructTable U w t = getStructTable plainLib w t := by
  simp only [getStructTable, buildTable_lib U t h]

theorem GetTable_lib (U : Lib) (w : World) (v : Value) (h : distinctNames v = true) :
    GetTable U w v = GetTable plainLib w v := by
  unfold GetTable
  unfold distinctNames at h
  cases ht : structTypeOf v with
  | ok t =>
    rw [ht] at h
    simp only []
    rw [getStructTable_lib U w t (of_decide_eq_true h)]
  | error e => rfl
  | panic p => rfl

theorem queryContext_lib {σ : Type} (U : Lib) (D : Driver σ) (db : σ) (w : World) (out : Value)
    (tab : Option Nat) (query : Str) (args : List FieldVal) (h : distinctNames out = true) :
    queryContext U D db w out tab query args = queryContext plainLib D db w out tab query args := by
  unfold queryContext
  split
  · rw [GetTable_lib U w _ h]
  · rfl
  · rfl

theorem SelectContext_lib {σ : Type} (U : Lib) (D : Driver σ) (db : σ) (w : World) (out : Value)
    (clause : Str) (args : List FieldVal) (h : distinctNames out = true) :
    SelectContext U D db w out clause args = SelectContext plainLib D db w out clause args := by
  unfold SelectContext
  split
  · rw [GetTable_lib U w _ h]
    split
    · rfl
    · rfl
    · split
      · rfl
      · rw [queryContext_lib U D db _ _ _ _ _ h]
  · rfl
  · rfl

theorem ToUpper_ascii (U : Lib) (s : Str) (hs : ∀ c ∈ s, c.toNat < 128) :
    ToUpper U s = ToUpper plainLib s := by
  unfold ToUpper
  apply List.map_congr_left
  intro c hc
  simp [upperRune, hs c hc]

theorem Sprintf_lib (U : Lib) (format : Str) :
    ∀ args, plainFormat format = true → Sprintf U format args = Sprintf plainLib format args := by
  induction format using plainFormat.induct with
  | case1 => intro args _; cases args <;> rfl
  | case2 c =>
    intro args _
    by_cases hc : c = '%'
    · subst hc; cases args <;> rfl
    · cases args <;> simp [Sprintf, hc]
  | case3 c d rest hc ih =>
    intro args h
    have hc' : c = '%' := by simpa using hc
    subst hc'
    simp only [plainFormat, beq_self_eq_true, if_true, Bool.and_eq_true, Bool.or_eq_true,
      beq_iff_eq] at h
    obtain ⟨hd, hrest⟩ := h
    rcases hd with (rfl | rfl) | rfl
    · simp [Sprintf, ih _ hrest]
    · cases args <;> simp [Sprintf, ih _ hrest]
    · cases args <;> simp [Sprintf, ih _ hrest]
  | case4 c d rest hc ih =>
    intro args h
    have hc' : (c == '%') = false := by simpa using hc
    simp only [plainFormat, hc', Bool.false_eq_true, if_false] at h
    simp only [Sprintf, hc', Bool.false_eq_true, if_false, ih args h]

/-! ## The claims -/

/-- C1, evaluated on the code: for `type Account struct { User string; UserID int64 }`
the descriptor built by `GetTable` has as many entries in `allColumns` as in
`Columns`, but in another order: `allColumns`, sorted as quoted text, starts with
the quoted `user_id`, while `Columns`, sorted by name, starts with `user`, so
`allColumns[i]` is not the quoted name of `Columns[i]`. -/
theorem GetTable_select_order_differs_from_scan_order (U : Lib) :
    GetTable U world0 account = .ok (0, ⟨[], [buildTable U accountType]⟩) ∧
      (buildTable U accountType).allColumns = ["`user_id`".toList, "`user`".toList] ∧
      (buildTable U accountType).Columns.map (fun c => ['`'] ++ c.Name ++ ['`'])
        = ["`user`".toList, "`user_id`".toList] ∧
      (buildTable U accountType).SelectScript = "SELECT `user_id`,`user` FROM `account`".toList := by
  refine ⟨rfl, ?_⟩
  rw [buildTable_lib U accountType (by decide!)]
  decide!

/-- C2, evaluated on the code: `GetTable` never stores into `tabCache`.  After a
first successful call on `Account` the cache holds nothing under the key of the
type, and a second call builds a second descriptor, at another address. -/
theorem GetTable_second_call_builds_again (U : Lib) :
    GetTable U world0 account = .ok (0, ⟨[], [buildTable U accountType]⟩) ∧
      World.cached ⟨[], [buildTable U accountType]⟩ (cacheKey accountType) = none ∧
      GetTable U ⟨[], [buildTable U accountType]⟩ account
        = .ok (1, ⟨[], [buildTable U accountType, buildTable U accountType]⟩) :=
  ⟨rfl, rfl, rfl⟩

/-- C3, evaluated on the code: for the clause `WHERE id = 1`, `SelectContext` hands
the driver a text with a second keyword (`... where WHERE id = 1 limit 1`), because
it tests for the lower-case prefix `where` only; `DeleteContext` and
`UpdateContext` append the clause unchanged. -/
theorem SelectContext_doubles_upper_case_where (U : Lib) :
    (SelectContext U (recorder noRows) [] world0 accountDest "WHERE id = 1".toList []).db
        = [("SELECT `user_id`,`user` FROM `account` where WHERE id = 1 limit 1".toList, [])] ∧
      (DeleteContext U (recorder noRows) [] world0 (.str "account".toList)
          "WHERE id = 1".toList []).db
        = [("DELETE FROM `account` WHERE id = 1".toList, [])] ∧
      (UpdateContext U (recorder noRows) [] world0 (.str "account".toList)
          [("user".toList, .str "bob".toList)] "WHERE id = 1".toList []).db
        = [("UPDATE `account` SET `user`=? WHERE id = 1".toList, [.str "bob".toList])] := by
  have hup : ToUpper U (TrimSpace "WHERE id = 1".toList)
      = ToUpper plainLib (TrimSpace "WHERE id = 1".toList) :=
    ToUpper_ascii U _ (by decide!)
  refine ⟨?_, ?_, ?_⟩
  · rw [SelectContext_lib U _ _ _ _ _ _ (by decide!)]; decide!
  · simp only [DeleteContext, UpdateContext, getTableName, whereSuffix, hup]; decide!
  · simp only [DeleteContext, UpdateContext, getTableName, whereSuffix, hup]; decide!

/-- C4, evaluated on the code: for table `t` with columns `a`, `b` and no upsert
assignment the batch text for two records is the text of the specification; with
the upsert assignment of `b` the text for one record has no blank between the
tuples and `ON DUPLICATE KEY UPDATE`, so it is not the text of the specification. -/
theorem CreateBatchInsertScript_upsert_lacks_blank (U : Lib) :
    (buildTable U plainType).CreateBatchInsertScript U 2
        = "INSERT IGNORE INTO `t` (`a`,`b`) VALUES (?,?),(?,?)".toList ∧
      (buildTable U upsertType).CreateBatchInsertScript U 1
        = "INSERT INTO `t` (`a`,`b`) VALUES (?,?)ON DUPLICATE KEY UPDATE `b`=VALUES(`b`)".toList ∧
      (buildTable U upsertType).CreateBatchInsertScript U 1
        ≠ "INSERT INTO `t` (`a`,`b`) VALUES (?,?) ON DUPLICATE KEY UPDATE `b`=VALUES(`b`)".toList := by
  simp only [buildTable_lib U plainType (by decide!), buildTable_lib U upsertType (by decide!),
    Table.CreateBatchInsertScript]
  rw [Sprintf_lib U _ _ (by decide!), Sprintf_lib U _ _ (by decide!)]
  decide!

/-- C6, evaluated on the code: of the configured initialisms exactly `HTTPS` is not
kept as one segment; the replacer tries `HTTP` first, so `UserHTTPS` becomes
`user_http_s`.  For each of the other 36 initialisms `X` the name `User` followed
by `X` becomes `user_` followed by `X` in lower case. -/
theorem toUnderscore_splits_HTTPS (U : Lib) :
    toUnderscore U "UserHTTPS".toList = "user_http_s".toList ∧
      commonInitialisms.filter
          (fun X => toUnderscore U ("User".toList ++ X) != "user_".toList ++ X.map asciiLower)
        = ["HTTPS".toList] := by
  rw [toUnderscore_lib U]
  decide!

/-- C9, evaluated on the code: `DeleteContext` and `UpdateContext` have no deferred
`recover`; with a nil table-or-model argument the panic of `GetTable` leaves them
as a panic.  `SelectContext` and `QueryContext` return an error for a nil
destination. -/
theorem DeleteContext_UpdateContext_panic_on_nil {σ : Type} (U : Lib) (D : Driver σ) (db : σ)
    (w : World) (values : List (Str × FieldVal)) (clause : Str) (args : List FieldVal) :
    (DeleteContext U D db w Value.nil clause args).outcome
        = .panic "runtime error: invalid memory address or nil pointer dereference".toList ∧
      (UpdateContext U D db w Value.nil values clause args).outcome
        = .panic "runtime error: invalid memory address or nil pointer dereference".toList ∧
      (SelectContext U D db w Value.nil clause args).err
        = some "must pass a pointer, not a value, to StructScan destination".toList ∧
      (QueryContext U D db w Value.nil clause args).err
        = some "must pass a pointer, not a value, to StructScan destination".toList :=
  ⟨rfl, rfl, rfl, rfl⟩

theorem bindColumn_autoIncrement (H : Hooks) (b : Bound) (c : Column) (val : FieldVal)
    (h : c.AutoIncrement = true) : bindColumn H b c val = .ok b := by
  simp [bindColumn, h]

theorem bindColumn_values (H : Hooks) (b b' : Bound) (c : Column) (val : FieldVal)
    (h : c.AutoIncrement = false) (hb' : bindColumn H b c val = .ok b') :
    ∃ arg, b'.values = b.values ++ [arg] ∧ BoundAs H c val arg := by
  unfold bindColumn at hb'
  unfold BoundAs
  simp only [h, Bool.not_false, if_true] at hb'
  by_cases hb : isBlank val = true
  · by_cases hk : c.Struct.Kind = Kind.Int64
    · have hcond : (isBlank val && c.Struct.Kind == Kind.Int64) = true := by simp [hb, hk]
      rw [if_pos hcond] at hb'
      by_cases hn : c.Struct.Name = "CreatedAt".toList ∨ c.Struct.Name = "UpdatedAt".toList
      · have hn' : (c.Struct.Name == "CreatedAt".toList || c.Struct.Name == "UpdatedAt".toList)
            = true := by
          rw [Bool.or_eq_true, beq_iff_eq, beq_iff_eq]; exact hn
        rw [if_pos hn'] at hb'
        have hbb := Outcome.ok.inj hb'
        subst hbb
        exact ⟨_, rfl, Or.inr ⟨hb, hk, Or.inl ⟨hn, _, rfl⟩⟩⟩
      · have hn' : ¬ (c.Struct.Name == "CreatedAt".toList || c.Struct.Name == "UpdatedAt".toList)
            = true := by
          rw [Bool.or_eq_true, beq_iff_eq, beq_iff_eq]; exact hn
        have hn2 : c.Struct.Name ≠ "CreatedAt".toList ∧ c.Struct.Name ≠ "UpdatedAt".toList :=
          not_or.mp hn
        rw [if_neg hn'] at hb'
        by_cases hid : (c.NewID || c.PrimaryKey) = true
        · rw [if_pos hid] at hb'
          have hbb := Outcome.ok.inj hb'
          subst hbb
          exact ⟨_, rfl, Or.inr ⟨hb, hk, Or.inr ⟨hn2, Or.inl ⟨by simpa using hid, _, rfl⟩⟩⟩⟩
        · rw [if_neg hid] at hb'
          have hbb := Outcome.ok.inj hb'
          subst hbb
          exact ⟨_, rfl, Or.inr ⟨hb, hk, Or.inr ⟨hn2, Or.inr ⟨by simpa using hid, rfl⟩⟩⟩⟩
    · have hcond : ¬ (isBlank val && c.Struct.Kind == Kind.Int64) = true := by simp [hk]
      rw [if_neg hcond] at hb'
      by_cases he : c.Struct.Exported = true
      · rw [if_pos he] at hb'
        have hbb := Outcome.ok.inj hb'
        subst hbb
        exact ⟨val, rfl, Or.inl ⟨Or.inr hk, rfl⟩⟩
      · rw [if_neg he] at hb'
        exact Outcome.noConfusion hb'
  · have hb0 : isBlank val = false := by simpa using hb
    have hcond : ¬ (isBlank val && c.Struct.Kind == Kind.Int64) = true := by simp [hb0]
    rw [if_neg hcond] at hb'
    by_cases he : c.Struct.Exported = true
    · rw [if_pos he] at hb'
      have hbb := Outcome.ok.inj hb'
      subst hbb
      exact ⟨val, rfl, Or.inl ⟨Or.inl hb0, rfl⟩⟩
    · rw [if_neg he] at hb'
      exact Outcome.noConfusion hb'

theorem bindItem_stuck (H : Hooks) (fields : List FieldVal) (cols : List Column)
    (o : Outcome Bound) (ho : ∀ b, o ≠ .ok b) :
    cols.foldl
      (fun acc c =>
        match acc with
        | .ok b =>
          if c.AutoIncrement then Outcome.ok b
          else
            match fields.get? c.Struct.Index with
            | some val => bindColumn H b c val
            | none => .panic "\"reflect: Field index out of range\"".toList
        | other => other) o = o := by
  induction cols with
  | nil => rfl
  | cons c cs ih =>
    cases o with
    | ok b => exact absurd rfl (ho b)
    | error e => exact ih
    | panic p => exact ih

theorem bindItem_cons (H : Hooks) (c : Column) (cs : List Column) (fields : List FieldVal)
    (b : Bound) :
    bindItem H (c :: cs) fields b =
      if c.AutoIncrement then bindItem H cs fields b
      else
        match fields.get? c.Struct.Index with
        | some val =>
          match bindColumn H b c val with
          | .ok b1 => bindItem H cs fields b1
          | .error e => .error e
          | .panic p => .panic p
        | none => .panic "\"reflect: Field index out of range\"".toList := by
  unfold bindItem
  rw [List.foldl_cons]
  cases hauto : c.AutoIncrement with
  | true => rfl
  | false =>
    simp only [Bool.false_eq_true, if_false]
    cases hget : fields.get? c.Struct.Index with
    | some val =>
      simp only []
      cases hbc : bindColumn H b c val with
      | ok b1 => rfl
      | error e => exact bindItem_stuck H fields cs _ (fun b h => Outcome.noConfusion h)
      | panic p => exact bindItem_stuck H fields cs _ (fun b h => Outcome.noConfusion h)
    | none => exact bindItem_stuck H fields cs _ (fun b h => Outcome.noConfusion h)

/-- C7: the arguments `InsertContext` binds for one record.  When the loop over the
columns ends without a panic, it has appended to `values` exactly one argument
for each column that is not auto-increment, in the order of the columns, and
the argument of a column is: the value of its field when that value is not zero
or the kind of the field is not `int64`; otherwise the clock reading when the
field is named `CreatedAt` or `UpdatedAt`, else a result of `NewID` when the
column is marked `newid` or `primary_key`, else the `int` zero. -/
theorem InsertContext_bound_arguments (H : Hooks) (fields : List FieldVal) (cols : List Column) :
    ∀ b b' : Bound, bindItem H cols fields b = .ok b' →
      ∃ args, b'.values = b.values ++ args ∧
        List.Forall₂
          (fun c arg => ∃ val, fields.get? c.Struct.Index = some val ∧ BoundAs H c val arg)
          (cols.filter (fun c => !c.AutoIncrement)) args := by
  induction cols with
  | nil =>
    intro b b' h
    have hb : b = b' := by simpa [bindItem] using h
    subst hb
    exact ⟨[], by simp, by simp⟩
  | cons c cs ih =>
    intro b b' h
    rw [bindItem_cons] at h
    cases hauto : c.AutoIncrement with
    | true =>
      rw [hauto, if_pos rfl] at h
      obtain ⟨args, hargs, hall⟩ := ih _ b' h
      exact ⟨args, hargs, by simpa [List.filter_cons, hauto] using hall⟩
    | false =>
      rw [hauto, if_neg Bool.false_ne_true] at h
      cases hget : fields.get? c.Struct.Index with
      | none => rw [hget] at h; exact Outcome.noConfusion h
      | some val =>
        rw [hget] at h
        simp only [] at h
        cases hbc : bindColumn H b c val with
        | error e => rw [hbc] at h; exact Outcome.noConfusion h
        | panic q => rw [hbc] at h; exact Outcome.noConfusion h
        | ok b1 =>
          rw [hbc] at h
          obtain ⟨args, hargs, hall⟩ := ih _ b' h
          obtain ⟨arg, harg, hspec⟩ := bindColumn_values H b b1 c val hauto hbc
          refine ⟨arg :: args, ?_, ?_⟩
          · rw [hargs, harg]; simp
          · simp only [List.filter_cons, hauto, Bool.not_false, if_true]
            exact List.Forall₂.cons ⟨val, hget, hspec⟩ hall

/-- Witness of C7: the record `Order{ID: 0, Note: "x"}` under the generator and the
clock of `shippedHooks`. -/
theorem InsertContext_bound_arguments_witness :
    bindItem shippedHooks (buildTable plainLib orderType).Columns
        [.int Kind.Int64 0, .str "x".toList] ⟨[], 0, 0⟩
      = .ok ⟨[.int Kind.Int64 0, .str "x".toList], 1, 0⟩ ∧
    ∃ args, [FieldVal.int Kind.Int64 0, .str "x".toList] = [] ++ args ∧
      List.Forall₂
        (fun c arg =>
          ∃ val, [FieldVal.int Kind.Int64 0, .str "x".toList].get? c.Struct.Index = some val ∧
            BoundAs shippedHooks c val arg)
        ((buildTable plainLib orderType).Columns.filter (fun c => !c.AutoIncrement)) args :=
  ⟨by decide!,
    InsertContext_bound_arguments shippedHooks [.int Kind.Int64 0, .str "x".toList]
      (buildTable plainLib orderType).Columns ⟨[], 0, 0⟩
      ⟨[.int Kind.Int64 0, .str "x".toList], 1, 0⟩ (by decide!)⟩

theorem InsertContext_order_call (U : Lib) :
    (InsertContext U shippedHooks (recorder noRows) (fun m => m) [] world0 [order]).db
      = [("INSERT IGNORE INTO `order` (`id`,`note`) VALUES (?,?)".toList,
          [.int Kind.Int64 0, .str "x".toList])] := by
  have hg : groupValues [order] = ([(cacheKey orderType, [order])], none) := rfl
  have ht : GetTable U world0 (.slice .iface [order])
      = .ok (0, ⟨[], [buildTable plainLib orderType]⟩) := by
    rw [GetTable_lib _ _ _ (by decide!)]; rfl
  have hf : plainFormat (buildTable plainLib orderType).BatchInsertScriptFormat = true := by
    decide!
  have hq : (buildTable plainLib orderType).CreateBatchInsertScript U 1
      = (buildTable plainLib orderType).CreateBatchInsertScript plainLib 1 :=
    Sprintf_lib U _ _ hf
  have hi : insertGroup U shippedHooks (recorder noRows) [order] ⟨0, none, [], world0⟩ ⟨[], 0, 0⟩
      = insertGroup plainLib shippedHooks (recorder noRows) [order] ⟨0, none, [], world0⟩
          ⟨[], 0, 0⟩ := by
    simp only [insertGroup, ht, World.table, List.get?, List.length_singleton,
      hq]
    rfl
  simp only [InsertContext, hg, insertGroups, hi]
  decide!

/-- C8, refuted as stated: with `NewID` as dp.go declares it, inserting
`Order{ID: 0, Note: "x"}`, whose `int64` primary key is zero, makes one insert call,
and the argument bound for `id` is 0; under no behaviour of the library is it an
identifier other than zero. -/
theorem default_NewID_binds_zero :
    ¬ ∃ (U : Lib) (query : Str) (id : Int) (others : List FieldVal), id ≠ 0 ∧
      (InsertContext U shippedHooks (recorder noRows) (fun m => m) [] world0 [order]).db
        = [(query, .int Kind.Int64 id :: others)] := by
  rintro ⟨U, query, id, others, hne, h⟩
  rw [InsertContext_order_call U] at h
  simp only [List.cons.injEq, Prod.mk.injEq, FieldVal.int.injEq, and_true] at h
  exact hne h.2.1.2.symm

/-- C8, amended: for a column that is not auto-increment, whose field is an `int64`
not named `CreatedAt` or `UpdatedAt`, that is marked `newid` or `primary_key` and
whose field is zero, `InsertContext` binds the value that this call of `NewID`
returns; it is 0 under the generator of dp.go, and differs from zero exactly when
the installed generator returns a value other than zero. -/
theorem InsertContext_blank_id_gets_NewID (H : Hooks) (b : Bound) (c : Column) (val : FieldVal)
    (hauto : c.AutoIncrement = false) (hkind : c.Struct.Kind = Kind.Int64)
    (hname : c.Struct.Name ≠ "CreatedAt".toList ∧ c.Struct.Name ≠ "UpdatedAt".toList)
    (hmark : c.NewID = true ∨ c.PrimaryKey = true) (hzero : isBlank val = true) :
    bindColumn H b c val
        = .ok ⟨b.values ++ [.int Kind.Int64 (H.NewID b.ids)], b.ids + 1, b.ticks⟩ ∧
      (H.NewID = defaultNewID →
        bindColumn H b c val = .ok ⟨b.values ++ [.int Kind.Int64 0], b.ids + 1, b.ticks⟩) ∧
      (FieldVal.int Kind.Int64 (H.NewID b.ids) ≠ .int Kind.Int64 0 ↔ H.NewID b.ids ≠ 0) := by
  have hcond : (isBlank val && c.Struct.Kind == Kind.Int64) = true := by simp [hzero, hkind]
  have hn : ¬ (c.Struct.Name == "CreatedAt".toList || c.Struct.Name == "UpdatedAt".toList)
      = true := by
    rw [Bool.or_eq_true, beq_iff_eq, beq_iff_eq]; exact not_or.mpr hname
  have hid : (c.NewID || c.PrimaryKey) = true := by simpa using hmark
  have hmain : bindColumn H b c val
      = .ok ⟨b.values ++ [.int Kind.Int64 (H.NewID b.ids)], b.ids + 1, b.ticks⟩ := by
    unfold bindColumn
    simp only [hauto, Bool.not_false, if_true]
    rw [if_pos hcond, if_neg hn, if_pos hid]
  refine ⟨hmain, ?_, ?_⟩
  · intro hdef
    rw [hmain, hdef]; rfl
  · simp

/-- Witness of C8 as amended: the `id` column of `Order` and a zero `ID`, under the
generator of dp.go. -/
theorem InsertContext_blank_id_gets_NewID_witness :
    bindColumn shippedHooks ⟨[], 0, 0⟩
        ⟨"id".toList, true, false, false,
          ⟨"ID".toList, Kind.Int64, [("db".toList, "primary_key".toList)], 0, true⟩, false,
          [("primary_key".toList, "true".toList)]⟩ (.int Kind.Int64 0)
      = .ok ⟨[] ++ [.int Kind.Int64 (shippedHooks.NewID 0)], 0 + 1, 0⟩ ∧
    (shippedHooks.NewID = defaultNewID →
      bindColumn shippedHooks ⟨[], 0, 0⟩
        ⟨"id".toList, true, false, false,
          ⟨"ID".toList, Kind.Int64, [("db".toList, "primary_key".toList)], 0, true⟩, false,
          [("primary_key".toList, "true".toList)]⟩ (.int Kind.Int64 0)
        = .ok ⟨[] ++ [.int Kind.Int64 0], 0 + 1, 0⟩) ∧
    (FieldVal.int Kind.Int64 (shippedHooks.NewID 0) ≠ .int Kind.Int64 0
      ↔ shippedHooks.NewID 0 ≠ 0) :=
  InsertContext_blank_id_gets_NewID shippedHooks ⟨[], 0, 0⟩
    ⟨"id".toList, true, false, false,
      ⟨"ID".toList, Kind.Int64, [("db".toList, "primary_key".toList)], 0, true⟩, false,
      [("primary_key".toList, "true".toList)]⟩ (.int Kind.Int64 0)
    rfl rfl (by decide!) (Or.inr rfl) rfl

theorem HasPrefix_map (f : Char → Char) (s : Str) :
    ∀ p, HasPrefix s p = true → HasPrefix (s.map f) (p.map f) = true := by
  induction s with
  | nil => intro p h; cases p with
    | nil => rfl
    | cons a as => simp [HasPrefix] at h
  | cons c cs ih =>
    intro p h
    cases p with
    | nil => rfl
    | cons a as =>
      simp only [HasPrefix, Bool.and_eq_true, beq_iff_eq] at h
      simp only [List.map_cons, HasPrefix, Bool.and_eq_true, beq_iff_eq]
      exact ⟨by rw [h.1], ih as h.2⟩

theorem Contains_map (f : Char → Char) (p : Str) (s : Str) :
    Contains s p = true → Contains (s.map f) (p.map f) = true := by
  induction s with
  | nil => intro h; exact HasPrefix_map f [] p h
  | cons c cs ih =>
    intro h
    simp only [Contains, Bool.or_eq_true] at h
    simp only [List.map_cons, Contains, Bool.or_eq_true]
    rcases h with h | h
    · exact Or.inl (HasPrefix_map f (c :: cs) p h)
    · exact Or.inr (ih h)

theorem SelectContext_record_text (U : Lib) (reply : Str → List FieldVal → QueryReply)
    (log : List (Str × List FieldVal)) (w : World) (st : StructType) (target : Value)
    (clause : Str) (args : List FieldVal) (hw : w.tabCache = []) :
    (SelectContext U (recorder reply) log w (.ptr (.struct st) (some target)) clause args).db
      = log ++ [(limitQuery Kind.Struct (selectQuery (buildTable U st) clause), args)] := by
  have hc : w.cached (cacheKey st) = none := by simp [World.cached, hw]
  have ht : GetTable U w (.ptr (.struct st) (some target))
      = .ok (w.heap.length, { w with heap := w.heap ++ [buildTable U st] }) := by
    simp [GetTable, structTypeOf, getStructTable, hc]
  have hl : World.table { w with heap := w.heap ++ [buildTable U st] } w.heap.length
      = some (buildTable U st) := by
    simp [World.table]
  simp only [SelectContext, ht, hl, queryContext, recorder, RType.Kind]
  cases reply (limitQuery Kind.Struct (selectQuery (buildTable U st) clause)) args with
  | failed err nr => rfl
  | rows rs => rfl

/-- C10, refuted as stated: for a destination of type `RateLimit` and the clause
`id = 1`, which contains no limit, the text handed to the driver is
`SELECT ... FROM rate_limit where id = 1` and does not end in ` limit 1`: the test
for `limit` runs over the whole text, and the table name contains it.  And for a
destination of type `Account` and the clause `id > 0 LIMIT 5` the text ends in
`LIMIT 5 limit 1`: the test looks for the lower-case word only. -/
theorem SelectContext_RateLimit_gets_no_limit :
    (SelectContext plainLib (recorder noRows) [] world0 rateLimitDest "id = 1".toList []).db
        = [("SELECT `id` FROM `rate_limit` where id = 1".toList, [])] ∧
      (¬ ∃ (U : Lib) (q : Str),
        (SelectContext U (recorder noRows) [] world0 rateLimitDest "id = 1".toList []).db
          = [(q ++ " limit 1".toList, [])]) ∧
      (SelectContext plainLib (recorder noRows) [] world0 accountDest
          "id > 0 LIMIT 5".toList []).db
        = [("SELECT `user_id`,`user` FROM `account` where id > 0 LIMIT 5 limit 1".toList, [])] := by
  have hv : (SelectContext plainLib (recorder noRows) [] world0 rateLimitDest
      "id = 1".toList []).db = [("SELECT `id` FROM `rate_limit` where id = 1".toList, [])] := by
    decide!
  refine ⟨hv, ?_, ?_⟩
  · rintro ⟨U, q, h⟩
    rw [SelectContext_lib U _ _ _ _ _ _ (by decide!), hv] at h
    simp only [List.cons.injEq, Prod.mk.injEq, and_true] at h
    have hs : " limit 1".toList <:+ "SELECT `id` FROM `rate_limit` where id = 1".toList :=
      ⟨q, h.symm⟩
    exact absurd hs (by decide!)
  · decide!

/-- C10, amended: for every destination that points to a single record, the text
handed to the driver is made of the select text of the table, then, for a clause
that is not blank, a blank and the trimmed clause, with `where ` in front of it
unless the clause starts with that keyword (in whatever letter case), and then
` limit 1` exactly when the text so far contains no `limit` in lower case.  So the
limit is left out when the name of the table or of a column contains `limit`,
and a clause whose limit is written in another letter case gets a second one. -/
theorem SelectContext_limit_rule (U : Lib) (reply : Str → List FieldVal → QueryReply)
    (log : List (Str × List FieldVal)) (w : World) (st : StructType) (target : Value)
    (clause : Str) (args : List FieldVal) (hw : w.tabCache = []) :
    ∃ lead q : Str,
      (lead = "where ".toList ∨
        (lead = [] ∧ HasPrefix ((TrimSpace clause).map asciiLower) "where".toList = true)) ∧
      q = (buildTable U st).SelectScript
            ++ (if TrimSpace clause = [] then [] else [' '] ++ lead ++ TrimSpace clause) ∧
      (SelectContext U (recorder reply) log w (.ptr (.struct st) (some target)) clause args).db
        = log ++ [(if Contains q "limit".toList = true then q else q ++ " limit 1".toList,
            args)] := by
  rw [SelectContext_record_text U reply log w st target clause args hw]
  refine ⟨if HasPrefix (TrimSpace clause) "where".toList = true then [] else "where ".toList,
    selectQuery (buildTable U st) clause, ?_, ?_, ?_⟩
  · by_cases hp : HasPrefix (TrimSpace clause) "where".toList = true
    · rw [if_pos hp]
      refine Or.inr ⟨rfl, ?_⟩
      have := HasPrefix_map asciiLower (TrimSpace clause) "where".toList hp
      rwa [show ("where".toList).map asciiLower = "where".toList from by decide!] at this
    · rw [if_neg hp]
      exact Or.inl rfl
  · simp only [selectQuery]
    cases hp : HasPrefix (TrimSpace clause) "where".toList <;>
      by_cases hc : TrimSpace clause = [] <;> simp [hc]
  · simp only [limitQuery]
    cases hl : Contains (selectQuery (buildTable U st) clause) "limit".toList <;> simp

/-- Witness of C10 as amended: the destination `accountDest` in the initial process
state, with the clause `id = 1`; the text is the select text, the clause behind
`where`, and the limit. -/
theorem SelectContext_limit_rule_witness :
    world0.tabCache = [] ∧
      (SelectContext plainLib (recorder noRows) [] world0
          (.ptr (.struct accountType) (some account)) "id = 1".toList []).db
        = [("SELECT `user_id`,`user` FROM `account` where id = 1 limit 1".toList, [])] ∧
      ∃ lead q : Str,
        (lead = "where ".toList ∨
          (lead = [] ∧
            HasPrefix ((TrimSpace "id = 1".toList).map asciiLower) "where".toList = true)) ∧
        q = (buildTable plainLib accountType).SelectScript
              ++ (if TrimSpace "id = 1".toList = [] then []
                  else [' '] ++ lead ++ TrimSpace "id = 1".toList) ∧
        (SelectContext plainLib (recorder noRows) [] world0
            (.ptr (.struct accountType) (some account)) "id = 1".toList []).db
          = [] ++ [(if Contains q "limit".toList = true then q else q ++ " limit 1".toList,
              [])] :=
  ⟨rfl, by decide!,
    SelectContext_limit_rule plainLib noRows [] world0 accountType account "id = 1".toList []
      rfl⟩

/-- C17, evaluated on the code: when the driver reports that the query has no row by
the error `sql.ErrNoRows`, `queryContext` returns that error for a single-record
destination: the statement `rows, err := db.QueryContext(...)` assigns the named
result `err`, and the bare `return` of the branch for `sql.ErrNoRows` hands it
back.  The destination is left as it was; and when the driver answers with an
empty row set, the destination is left as it was and no error is returned. -/
theorem queryContext_returns_ErrNoRows (U : Lib) (w : World) (st : StructType) (target : Value)
    (tab : Option Nat) (query : Str) (args : List FieldVal) :
    ((queryContext U (recorder errNoRows) [] w (.ptr (.struct st) (some target)) tab query
          args).err = some "sql: no rows in result set".toList ∧
        (queryContext U (recorder errNoRows) [] w (.ptr (.struct st) (some target)) tab query
          args).out = .ptr (.struct st) (some target)) ∧
      ((queryContext U (recorder noRows) [] w (.ptr (.struct st) (some target)) tab query
          args).err = none ∧
        (queryContext U (recorder noRows) [] w (.ptr (.struct st) (some target)) tab query
          args).out = .ptr (.struct st) (some target)) := by
  cases tab with
  | some t =>
    simp only [queryContext, RType.Kind, recorder, errNoRows, noRows]
    cases hw : w.table t <;> simp [scanRows]
  | none =>
    simp only [queryContext, GetTable, structTypeOf, RType.Kind, recorder, errNoRows, noRows]
    cases hw : World.table (getStructTable U w st).2 (getStructTable U w st).1 <;>
      simp [scanRows]

theorem buildTable_format (U : Lib) (t : StructType) :
    (buildTable U t).BatchInsertScriptFormat = getInsertQueryFormat (buildTable U t) := rfl

theorem getInsertQueryFormat_upsert (tab : Table) (h : tab.replaceColumns ≠ []) :
    getInsertQueryFormat tab
      = "INSERT INTO `".toList ++ tab.Name ++ "` (".toList ++ Join tab.insertColumns [',']
          ++ ") VALUES %s".toList ++ "ON DUPLICATE KEY UPDATE ".toList
          ++ Join tab.replaceColumns [','] := by
  have hl : tab.replaceColumns.length > 0 := List.length_pos.mpr h
  unfold getInsertQueryFormat
  rw [if_pos hl, if_pos hl]
  simp only [List.append_assoc]
  rfl

theorem getInsertQueryFormat_ignore (tab : Table) (h : tab.replaceColumns = []) :
    getInsertQueryFormat tab
      = "INSERT IGNORE INTO `".toList ++ tab.Name ++ "` (".toList
          ++ Join tab.insertColumns [','] ++ ") VALUES %s".toList := by
  have hl : ¬ tab.replaceColumns.length > 0 := by rw [h]; exact Nat.lt_irrefl 0
  unfold getInsertQueryFormat
  rw [if_neg hl, if_neg hl]
  simp only [List.append_assoc, List.append_nil]
  rfl

/-- C18: the batch insert template of a descriptor.  It starts with `INSERT INTO`
exactly when `replaceColumns` is not empty, and then it is the plain insert whose
placeholder `%s` is followed by `ON DUPLICATE KEY UPDATE` and the assignments;
otherwise it is the `INSERT IGNORE` form, which ends with the placeholder and has
no such clause. -/
theorem BatchInsertScriptFormat_upsert_iff (U : Lib) (t : StructType) :
    ((buildTable U t).replaceColumns ≠ [] ↔
        HasPrefix (buildTable U t).BatchInsertScriptFormat "INSERT INTO ".toList = true) ∧
      ((buildTable U t).replaceColumns ≠ [] →
        (buildTable U t).BatchInsertScriptFormat
          = "INSERT INTO `".toList ++ (buildTable U t).Name ++ "` (".toList
              ++ Join (buildTable U t).insertColumns [','] ++ ") VALUES %s".toList
              ++ "ON DUPLICATE KEY UPDATE ".toList ++ Join (buildTable U t).replaceColumns [',']) ∧
      ((buildTable U t).replaceColumns = [] →
        (buildTable U t).BatchInsertScriptFormat
          = "INSERT IGNORE INTO `".toList ++ (buildTable U t).Name ++ "` (".toList
              ++ Join (buildTable U t).insertColumns [','] ++ ") VALUES %s".toList) := by
  rw [buildTable_format]
  generalize buildTable U t = tab
  refine ⟨?_, getInsertQueryFormat_upsert tab, getInsertQueryFormat_ignore tab⟩
  constructor
  · intro h
    rw [getInsertQueryFormat_upsert tab h]
    rfl
  · intro h hnil
    rw [getInsertQueryFormat_ignore tab hnil] at h
    exact Bool.noConfusion h

theorem Join_snoc (sep a : Str) (l : List Str) (h : l ≠ []) :
    Join (l ++ [a]) sep = Join l sep ++ sep ++ a := by
  induction l with
  | nil => exact absurd rfl h
  | cons x xs ih =>
    cases xs with
    | nil => simp [Join]
    | cons y ys =>
      have := ih (List.cons_ne_nil y ys)
      show x ++ sep ++ Join (y :: ys ++ [a]) sep = x ++ sep ++ Join (y :: ys) sep ++ sep ++ a
      rw [this]
      simp [List.append_assoc]

theorem setLoop_snoc (query : Str) (values : List (Str × FieldVal)) (nv : Str × FieldVal) :
    setLoop query (values ++ [nv])
      = { query := (if (setLoop query values).start then (setLoop query values).query
            else (setLoop query values).query ++ [',']) ++ " `".toList ++ nv.1 ++ "`=?".toList
          params := (setLoop query values).params ++ [nv.2]
          start := false } := by
  simp only [setLoop, List.foldl_append, List.foldl_cons, List.foldl_nil]

theorem setLoop_spec (query : Str) (values : List (Str × FieldVal)) :
    (setLoop query values).query
        = query ++ Join (values.map (fun nv => " `".toList ++ nv.1 ++ "`=?".toList)) [','] ∧
      (setLoop query values).params = values.map Prod.snd ∧
      ((setLoop query values).start = true ↔ values = []) := by
  induction values using List.reverseRecOn with
  | nil => exact ⟨by simp [setLoop, Join], rfl, by simp [setLoop]⟩
  | append_singleton l nv ih =>
    obtain ⟨hq, hp, hs⟩ := ih
    rw [setLoop_snoc]
    refine ⟨?_, by simp [hp], by simp⟩
    by_cases hl : l = []
    · subst hl
      simp [setLoop, Join]
    · have hstart : ¬ (setLoop query l).start = true := fun h => hl (hs.mp h)
      have hne : l.map (fun nv => " `".toList ++ nv.1 ++ "`=?".toList) ≠ [] := by
        simpa using hl
      simp only [hstart, if_false, List.map_append, List.map_cons, List.map_nil]
      rw [Join_snoc _ _ _ hne, hq]
      simp [List.append_assoc]

theorem UpdateContext_recorded (U : Lib) (reply : Str → List FieldVal → QueryReply)
    (log : List (Str × List FieldVal)) (w w' : World) (tableOrModel : Value) (t : Str)
    (values : List (Str × FieldVal)) (clause : Str) (args : List FieldVal)
    (h : getTableName U w tableOrModel = .ok (t, w')) :
    (UpdateContext U (recorder reply) log w tableOrModel values clause args).db
      = log ++ [("UPDATE `".toList ++ t ++ "` SET".toList
            ++ Join (values.map (fun nv => " `".toList ++ nv.1 ++ "`=?".toList)) [',']
            ++ whereSuffix U clause,
          values.map Prod.snd ++ (if TrimSpace clause != [] then args else []))] := by
  obtain ⟨hq, hp, -⟩ := setLoop_spec ("UPDATE `".toList ++ t ++ "` SET".toList) values
  simp only [UpdateContext, h, execStatement, recorder, hq, hp]
  by_cases hc : (TrimSpace clause != []) = true
  · simp only [hc, if_true]
  · simp only [hc, if_false, List.append_nil]
    simp

/-- C14, refuted as stated: with a blank where-clause `UpdateContext` does not pass
`args` on.  For the values `user = "bob"`, no clause and the argument 1 the driver
gets the text `UPDATE account SET user=?` with the one parameter `"bob"`; under no
behaviour of the library do the parameters end with `args`. -/
theorem UpdateContext_drops_args_without_clause :
    (UpdateContext plainLib (recorder noRows) [] world0 (.str "account".toList)
        [("user".toList, .str "bob".toList)] [] [.int Kind.Int64 1]).db
        = [("UPDATE `account` SET `user`=?".toList, [.str "bob".toList])] ∧
      ¬ ∃ (U : Lib) (text : Str),
        (UpdateContext U (recorder noRows) [] world0 (.str "account".toList)
          [("user".toList, .str "bob".toList)] [] [.int Kind.Int64 1]).db
          = [(text, [.str "bob".toList, .int Kind.Int64 1])] := by
  refine ⟨by decide!, ?_⟩
  rintro ⟨U, text, h⟩
  rw [UpdateContext_recorded U noRows [] world0 world0 (.str "account".toList) "account".toList
    _ _ _ rfl] at h
  have hc : (TrimSpace ([] : Str) != []) = false := by decide
  simp only [hc, List.nil_append, List.cons.injEq, Prod.mk.injEq, and_true] at h
  exact absurd h.2 (by decide)

/-- C14, amended: `UpdateContext` hands the driver the text
`UPDATE t SET c1=?, c2=?, ...` (each column quoted) followed by the where part,
and as parameters the values of the map in the order in which their columns were
rendered, followed by all of `args` when the where-clause is not blank; with a
blank where-clause the parameters are the values of the map alone. -/
theorem UpdateContext_text_and_parameters (U : Lib) (reply : Str → List FieldVal → QueryReply)
    (log : List (Str × List FieldVal)) (w w' : World) (tableOrModel : Value) (t : Str)
    (values : List (Str × FieldVal)) (clause : Str) (args : List FieldVal)
    (h : getTableName U w tableOrModel = .ok (t, w')) :
    ∃ params,
      (UpdateContext U (recorder reply) log w tableOrModel values clause args).db
          = log ++ [("UPDATE `".toList ++ t ++ "` SET".toList
              ++ Join (values.map (fun nv => " `".toList ++ nv.1 ++ "`=?".toList)) [',']
              ++ whereSuffix U clause, params)] ∧
        (TrimSpace clause ≠ [] → params = values.map Prod.snd ++ args) ∧
        (TrimSpace clause = [] → params = values.map Prod.snd) := by
  refine ⟨_, UpdateContext_recorded U reply log w w' tableOrModel t values clause args h, ?_, ?_⟩
  · intro hc
    have : (TrimSpace clause != []) = true := by simpa using hc
    rw [if_pos this]
  · intro hc
    have : ¬ (TrimSpace clause != []) = true := by simp [hc]
    rw [if_neg this, List.append_nil]

/-- Witness of C14 as amended: the table `account`, two values and the clause
`id = ?` with one argument. -/
theorem UpdateContext_text_and_parameters_witness :
    getTableName plainLib world0 (.str "account".toList) = .ok ("account".toList, world0) ∧
      ∃ params,
        (UpdateContext plainLib (recorder noRows) [] world0 (.str "account".toList)
            [("user".toList, .str "bob".toList), ("note".toList, .str "x".toList)]
            "id = ?".toList [.int Kind.Int64 7]).db
          = [] ++ [("UPDATE `".toList ++ "account".toList ++ "` SET".toList
              ++ Join ([("user".toList, FieldVal.str "bob".toList),
                  ("note".toList, .str "x".toList)].map
                    (fun nv => " `".toList ++ nv.1 ++ "`=?".toList)) [',']
              ++ whereSuffix plainLib "id = ?".toList, params)] ∧
          (TrimSpace "id = ?".toList ≠ [] →
            params = [("user".toList, FieldVal.str "bob".toList),
                ("note".toList, .str "x".toList)].map Prod.snd ++ [.int Kind.Int64 7]) ∧
          (TrimSpace "id = ?".toList = [] →
            params = [("user".toList, FieldVal.str "bob".toList),
                ("note".toList, .str "x".toList)].map Prod.snd) :=
  ⟨rfl,
    UpdateContext_text_and_parameters plainLib noRows [] world0 world0 (.str "account".toList)
      "account".toList [("user".toList, .str "bob".toList), ("note".toList, .str "x".toList)]
      "id = ?".toList [.int Kind.Int64 7] rfl⟩

/-- C19, evaluated on the code: for the record `Account{User: "ann", UserID: 7}` the
insert text lists the columns as `user_id`, `user` (`insertColumns` is sorted as
quoted text) while the arguments are bound in the order of `Columns`, sorted by
name: first `"ann"`, the value of `User`, then 7, the value of `UserID`.  The first
argument is not the value of the field whose column is `insertColumns[0]`. -/
theorem InsertContext_binds_in_another_order (U : Lib) :
    (buildTable U accountType).insertColumns = ["`user_id`".toList, "`user`".toList] ∧
      (InsertContext U shippedHooks (recorder noRows) (fun m => m) [] world0 [account]).db
        = [("INSERT IGNORE INTO `account` (`user_id`,`user`) VALUES (?,?)".toList,
            [.str "ann".toList, .int Kind.Int64 7])] := by
  have hg : groupValues [account] = ([(cacheKey accountType, [account])], none) := rfl
  have ht : GetTable U world0 (.slice .iface [account])
      = .ok (0, ⟨[], [buildTable plainLib accountType]⟩) := by
    rw [GetTable_lib _ _ _ (by decide!)]; rfl
  have hf : plainFormat (buildTable plainLib accountType).BatchInsertScriptFormat = true := by
    decide!
  have hq : (buildTable plainLib accountType).CreateBatchInsertScript U 1
      = (buildTable plainLib accountType).CreateBatchInsertScript plainLib 1 :=
    Sprintf_lib U _ _ hf
  have hi : insertGroup U shippedHooks (recorder noRows) [account] ⟨0, none, [], world0⟩
        ⟨[], 0, 0⟩
      = insertGroup plainLib shippedHooks (recorder noRows) [account] ⟨0, none, [], world0⟩
          ⟨[], 0, 0⟩ := by
    simp only [insertGroup, ht, World.table, List.get?,
      List.length_singleton, hq]
    rfl
  refine ⟨by rw [buildTable_lib U accountType (by decide!)]; decide!, ?_⟩
  simp only [InsertContext, hg, insertGroups, hi]
  decide!

theorem Table.Scan_ok (tab : Table) (vals : List FieldVal) (hd : tab.destPanic = none)
    (hs : storable tab.Columns vals = true) :
    tab.Scan (.ok vals) = .ok (tab.materialize vals) := by
  unfold Table.Scan
  rw [hd]
  simp only []
  rw [if_pos hs]

theorem Table.Scan_inv (tab : Table) (row : Except Str (List FieldVal)) (item : Value)
    (h : tab.Scan row = .ok item) :
    tab.destPanic = none ∧
      ∃ vals, row = .ok vals ∧ storable tab.Columns vals = true ∧ item = tab.materialize vals := by
  unfold Table.Scan at h
  cases hd : tab.destPanic with
  | some p => rw [hd] at h; exact Outcome.noConfusion h
  | none =>
    rw [hd] at h
    simp only [] at h
    cases row with
    | error e => exact Outcome.noConfusion h
    | ok vals =>
      simp only [] at h
      by_cases hs : storable tab.Columns vals = true
      · rw [if_pos hs] at h
        exact ⟨rfl, vals, rfl, hs, (Outcome.ok.inj h).symm⟩
      · rw [if_neg hs] at h
        exact Outcome.noConfusion h

theorem addField_Typ (U : Lib) (tab : Table) (f : StructField) :
    (addField U tab f).Typ = tab.Typ := by
  unfold addField
  simp only []
  split
  · rfl
  · split
    · split <;> rfl
    · rfl

theorem foldl_addField_Typ (U : Lib) (fs : List StructField) :
    ∀ tab : Table, (fs.foldl (addField U) tab).Typ = tab.Typ := by
  induction fs with
  | nil => intro tab; rfl
  | cons f fs ih => intro tab; rw [List.foldl_cons, ih, addField_Typ]

theorem buildTable_Typ (U : Lib) (t : StructType) : (buildTable U t).Typ = t := by
  show ((fieldsFrom 0 t.Fields).foldl (addField U) _).Typ = t
  rw [foldl_addField_Typ]

theorem scanRows_records (tab : Table) (target : Value)
    (rows : List (Except Str (List FieldVal))) (items : List Value)
    (h : List.Forall₂ (fun row item => tab.Scan row = .ok item) rows items) :
    ∀ result : List Value,
      scanRows tab (.slice (.struct tab.Typ)) target result rows
        = (none, .slice (.struct tab.Typ) (result ++ items)) := by
  induction h with
  | nil => intro result; simp [scanRows]
  | cons hrow _ ih =>
    intro result
    simp only [scanRows, hrow, true_or, if_true, ih]
    simp [List.append_assoc]

theorem scanRows_pointers (tab : Table) (target : Value)
    (rows : List (Except Str (List FieldVal))) (items : List Value)
    (h : List.Forall₂ (fun row item => tab.Scan row = .ok item) rows items) :
    ∀ result : List Value,
      scanRows tab (.slice (.ptr (.struct tab.Typ))) target result rows
        = (none, .slice (.ptr (.struct tab.Typ))
            (result ++ items.map (fun item => .ptr (.struct tab.Typ) (some item)))) := by
  induction h with
  | nil => intro result; simp [scanRows]
  | cons hrow _ ih =>
    intro result
    simp only [scanRows, hrow, if_true, ih]
    simp [List.append_assoc]

theorem getStructTable_fresh (U : Lib) (w : World) (t : StructType) (hw : w.tabCache = []) :
    getStructTable U w t = (w.heap.length, { w with heap := w.heap ++ [buildTable U t] }) := by
  simp [getStructTable, World.cached, hw]

theorem World.table_fresh (w : World) (tab : Table) :
    World.table { w with heap := w.heap ++ [tab] } w.heap.length = some tab := by
  simp [World.table]

theorem queryContext_records {σ : Type} (U : Lib) (D : Driver σ) (db db' : σ) (w : World)
    (st : StructType) (old : List Value) (rows : List (Except Str (List FieldVal)))
    (items : List Value) (query : Str) (args : List FieldVal) (hw : w.tabCache = [])
    (hd : D.QueryContext db query args = (db', .rows rows))
    (hscan : List.Forall₂ (fun row item => (buildTable U st).Scan row = .ok item) rows items) :
    (queryContext U D db w (.ptr (.slice (.struct st)) (some (.slice (.struct st) old))) none
        query args).err = none ∧
      (queryContext U D db w (.ptr (.slice (.struct st)) (some (.slice (.struct st) old))) none
        query args).out
        = .ptr (.slice (.struct st)) (some (.slice (.struct st) (old ++ items))) := by
  have hs := scanRows_records (buildTable U st) (.slice (.struct st) old) rows items hscan old
  rw [buildTable_Typ] at hs
  have hq : limitQuery Kind.Slice query = query := rfl
  simp only [queryContext, GetTable, structTypeOf, deref, getStructTable_fresh U w st hw,
    RType.Kind, hq, hd, World.table_fresh, hs]
  exact ⟨trivial, trivial⟩

theorem queryContext_pointers {σ : Type} (U : Lib) (D : Driver σ) (db db' : σ) (w : World)
    (st : StructType) (old : List Value) (rows : List (Except Str (List FieldVal)))
    (items : List Value) (query : Str) (args : List FieldVal) (hw : w.tabCache = [])
    (hd : D.QueryContext db query args = (db', .rows rows))
    (hscan : List.Forall₂ (fun row item => (buildTable U st).Scan row = .ok item) rows items) :
    (queryContext U D db w
        (.ptr (.slice (.ptr (.struct st))) (some (.slice (.ptr (.struct st)) old))) none
        query args).err = none ∧
      (queryContext U D db w
        (.ptr (.slice (.ptr (.struct st))) (some (.slice (.ptr (.struct st)) old))) none
        query args).out
        = .ptr (.slice (.ptr (.struct st)))
            (some (.slice (.ptr (.struct st))
              (old ++ items.map (fun item => .ptr (.struct st) (some item))))) := by
  have hs := scanRows_pointers (buildTable U st) (.slice (.ptr (.struct st)) old) rows items
    hscan old
  rw [buildTable_Typ] at hs
  have hq : limitQuery Kind.Slice query = query := rfl
  simp only [queryContext, GetTable, structTypeOf, deref, getStructTable_fresh U w st hw,
    RType.Kind, hq, hd, World.table_fresh, hs]
  exact ⟨trivial, trivial⟩

theorem Scan_accountBob (U : Lib) :
    (buildTable U accountType).Scan bobRow = .ok accountBob := by
  unfold bobRow
  rw [buildTable_lib U accountType (by decide!),
    Table.Scan_ok _ _ (by decide!) (by decide!)]
  unfold Table.materialize accountBob
  rw [buildTable_Typ]
  congr 2

/-- C11, refuted as stated: `queryContext` starts the result from the slice the
destination holds.  A destination of type `[]Account` that holds the record
`Account{ann, 7}` holds two elements after a query with one row, that record and
the record `Account{bob, 8}` of the row, and under no behaviour of the library
just the materialized record; and after a query without rows it still holds its
record and is not empty. -/
theorem queryContext_keeps_old_elements :
    (queryContext plainLib (recorder oneRow) [] world0 accountsDest none "SELECT 1".toList []).out
        = .ptr (.slice (.struct accountType))
            (some (.slice (.struct accountType) [account, accountBob])) ∧
      (¬ ∃ (U : Lib) (record : Value),
        (queryContext U (recorder oneRow) [] world0 accountsDest none "SELECT 1".toList []).out
          = .ptr (.slice (.struct accountType)) (some (.slice (.struct accountType) [record]))) ∧
      ¬ ∃ U : Lib,
        (queryContext U (recorder noRows) [] world0 accountsDest none "SELECT 1".toList []).out
          = .ptr (.slice (.struct accountType)) (some (.slice (.struct accountType) [])) := by
  have hone : ∀ U : Lib,
      (queryContext U (recorder oneRow) [] world0 accountsDest none "SELECT 1".toList []).out
        = .ptr (.slice (.struct accountType))
            (some (.slice (.struct accountType) ([account] ++ [accountBob]))) := fun U =>
    (queryContext_records U (recorder oneRow) [] [("SELECT 1".toList, [])] world0
      accountType [account] [bobRow] [accountBob]
      "SELECT 1".toList [] rfl rfl
      (List.Forall₂.cons (Scan_accountBob U) List.Forall₂.nil)).2
  refine ⟨hone plainLib, ?_, ?_⟩
  · rintro ⟨U, record, h⟩
    rw [hone U] at h
    simp at h
  · rintro ⟨U, h⟩
    have hq := (queryContext_records U (recorder noRows) [] [("SELECT 1".toList, [])] world0
      accountType [account] [] [] "SELECT 1".toList [] rfl rfl List.Forall₂.nil).2
    unfold accountsDest at h
    rw [hq] at h
    simp at h

/-- C11, amended: for a destination that points to a slice of records, or of
pointers to records, and a sequence of rows that all scan, `queryContext` returns
no error and the destination then holds the elements it held before the call
followed by the records of the rows (their addresses for a slice of pointers),
in row order; the record of a row is the new record of the type that holds the
values of the row in the fields of the columns.  So a destination that was empty
holds exactly the records of the rows, and without rows the destination is left
as it was. -/
theorem queryContext_collection_appends {σ : Type} (U : Lib) (D : Driver σ) (db db' : σ)
    (w : World) (st : StructType) (old oldPtrs : List Value)
    (rows : List (Except Str (List FieldVal))) (items : List Value) (query : Str)
    (args : List FieldVal) (hw : w.tabCache = [])
    (hd : D.QueryContext db query args = (db', .rows rows))
    (hscan : List.Forall₂ (fun row item => (buildTable U st).Scan row = .ok item) rows items) :
    List.Forall₂
        (fun row item => ∃ vals, row = .ok vals ∧ item = (buildTable U st).materialize vals)
        rows items ∧
      ((queryContext U D db w (.ptr (.slice (.struct st)) (some (.slice (.struct st) old))) none
          query args).err = none ∧
        (queryContext U D db w (.ptr (.slice (.struct st)) (some (.slice (.struct st) old))) none
          query args).out
          = .ptr (.slice (.struct st)) (some (.slice (.struct st) (old ++ items)))) ∧
      ((queryContext U D db w
          (.ptr (.slice (.ptr (.struct st))) (some (.slice (.ptr (.struct st)) oldPtrs))) none
          query args).err = none ∧
        (queryContext U D db w
          (.ptr (.slice (.ptr (.struct st))) (some (.slice (.ptr (.struct st)) oldPtrs))) none
          query args).out
          = .ptr (.slice (.ptr (.struct st)))
              (some (.slice (.ptr (.struct st))
                (oldPtrs ++ items.map (fun item => .ptr (.struct st) (some item)))))) :=
  ⟨hscan.imp (fun _ _ h =>
      (Table.Scan_inv _ _ _ h).2.imp (fun _ hv => ⟨hv.1, hv.2.2⟩)),
    queryContext_records U D db db' w st old rows items query args hw hd hscan,
    queryContext_pointers U D db db' w st oldPtrs rows items query args hw hd hscan⟩

/-- Witness of C11 as amended: destinations of type `[]Account` and `[]*Account`
that hold `account` and a pointer to it, in the initial process state, and a
database that finds one row, which scans to `Account{bob, 8}`. -/
theorem queryContext_collection_appends_witness :
    world0.tabCache = [] ∧
      (recorder oneRow).QueryContext [] "SELECT 1".toList []
        = ([("SELECT 1".toList, [])], .rows [bobRow]) ∧
      List.Forall₂ (fun row item => (buildTable plainLib accountType).Scan row = .ok item)
        [bobRow] [accountBob] ∧
      List.Forall₂
        (fun row item =>
          ∃ vals, row = .ok vals ∧ item = (buildTable plainLib accountType).materialize vals)
        [bobRow] [accountBob] ∧
      ((queryContext plainLib (recorder oneRow) [] world0
            (.ptr (.slice (.struct accountType)) (some (.slice (.struct accountType) [account])))
            none "SELECT 1".toList []).err = none ∧
        (queryContext plainLib (recorder oneRow) [] world0
            (.ptr (.slice (.struct accountType)) (some (.slice (.struct accountType) [account])))
            none "SELECT 1".toList []).out
          = .ptr (.slice (.struct accountType))
              (some (.slice (.struct accountType) ([account] ++ [accountBob])))) ∧
      ((queryContext plainLib (recorder oneRow) [] world0
            (.ptr (.slice (.ptr (.struct accountType)))
              (some (.slice (.ptr (.struct accountType))
                [.ptr (.struct accountType) (some account)])))
            none "SELECT 1".toList []).err = none ∧
        (queryContext plainLib (recorder oneRow) [] world0
            (.ptr (.slice (.ptr (.struct accountType)))
              (some (.slice (.ptr (.struct accountType))
                [.ptr (.struct accountType) (some account)])))
            none "SELECT 1".toList []).out
          = .ptr (.slice (.ptr (.struct accountType)))
              (some (.slice (.ptr (.struct accountType))
                ([.ptr (.struct accountType) (some account)] ++
                  [accountBob].map (fun item => .ptr (.struct accountType) (some item)))))) :=
  ⟨rfl, rfl, List.Forall₂.cons (Scan_accountBob plainLib) List.Forall₂.nil,
    queryContext_collection_appends plainLib (recorder oneRow) [] [("SELECT 1".toList, [])]
      world0 accountType [account] [Value.ptr (.struct accountType) (some account)]
      [bobRow] [accountBob] "SELECT 1".toList []
      rfl rfl (List.Forall₂.cons (Scan_accountBob plainLib) List.Forall₂.nil)⟩

/-! ## The field loop of `GetTable` -/

theorem addField_inv (U : Lib) (S : StructField → Prop) (tab : Table) (f : StructField)
    (hf : S f) (h : FieldLoopInv S tab) : FieldLoopInv S (addField U tab f) := by
  obtain ⟨h1, h2⟩ := h
  unfold addField
  simp only []
  split
  · exact ⟨h1, h2⟩
  · split
    · split
      · exact ⟨h1, h2⟩
      · exact ⟨h1, h2⟩
    · constructor
      · simp only [List.filter_append, List.map_append, List.filter_cons, List.filter_nil]
        split
        · rename_i hai
          simp only [hai, if_true, List.map_cons, List.map_nil, h1]
          rfl
        · rename_i hai
          simp only [hai, if_false, List.map_nil, List.append_nil, h1]
      · intro c hc
        rcases List.mem_append.mp hc with hc | hc
        · exact h2 c hc
        · rw [List.mem_singleton.mp hc]; exact hf

theorem foldl_addField_inv (U : Lib) (S : StructField → Prop) (fs : List StructField) :
    ∀ tab : Table, (∀ f ∈ fs, S f) → FieldLoopInv S tab →
      FieldLoopInv S (fs.foldl (addField U) tab) := by
  induction fs with
  | nil => intro tab _ h; exact h
  | cons f fs ih =>
    intro tab hS h
    rw [List.foldl_cons]
    exact ih _ (fun g hg => hS g (List.mem_cons_of_mem _ hg))
      (addField_inv U S tab f (hS f (List.mem_cons_self _ _)) h)

theorem fieldsFrom_index (ds : List FieldDecl) :
    ∀ i, ∀ f ∈ fieldsFrom i ds, f.Index < i + ds.length := by
  induction ds with
  | nil => intro i f hf; simp [fieldsFrom] at hf
  | cons d ds ih =>
    intro i f hf
    simp only [fieldsFrom, List.mem_cons] at hf
    rcases hf with rfl | hf
    · simp
    · have := ih (i + 1) f hf
      simp only [List.length_cons]; omega

theorem fieldsFrom_exported (ds : List FieldDecl) (h : ∀ d ∈ ds, d.Exported = true) :
    ∀ i, ∀ f ∈ fieldsFrom i ds, f.Exported = true := by
  induction ds with
  | nil => intro i f hf; simp [fieldsFrom] at hf
  | cons d ds ih =>
    intro i f hf
    simp only [fieldsFrom, List.mem_cons] at hf
    rcases hf with rfl | hf
    · exact h d (List.mem_cons_self _ _)
    · exact ih (fun e he => h e (List.mem_cons_of_mem _ he)) (i + 1) f hf

theorem buildTable_fieldLoop (U : Lib) (t : StructType) (S : StructField → Prop)
    (hS : ∀ f ∈ fieldsFrom 0 t.Fields, S f) :
    ∃ tab : Table,
      FieldLoopInv S tab ∧
        (buildTable U t).insertColumns = sortStrings tab.insertColumns ∧
        (buildTable U t).Columns = sortColumns U tab.Columns := by
  refine ⟨(fieldsFrom 0 t.Fields).foldl (addField U)
    { Name := ParseName U t.Name, Typ := t, Columns := [], allColumns := [],
      insertColumns := [], replaceColumns := [], SelectScript := [], InsertScript := [],
      BatchInsertScriptFormat := [] }, ?_, rfl, rfl⟩
  apply foldl_addField_inv
  · exact hS
  · exact ⟨rfl, fun c hc => absurd hc (List.not_mem_nil c)⟩

theorem buildTable_insertColumns_perm (U : Lib) (t : StructType) :
    (buildTable U t).insertColumns.Perm
      (((buildTable U t).Columns.filter (fun c => !c.AutoIncrement)).map
        (fun c => quoteName c.Name)) := by
  obtain ⟨tab, ⟨h1, -⟩, hi, hc⟩ := buildTable_fieldLoop U t (fun _ => True) (fun _ _ => trivial)
  rw [hi, hc, h1]
  refine (insertionSort_perm strLess _).trans ?_
  exact ((sortColumns_perm U tab.Columns).symm.filter _).map _

theorem buildTable_index (U : Lib) (t : StructType) :
    ∀ c ∈ (buildTable U t).Columns, c.Struct.Index < t.Fields.length := by
  obtain ⟨tab, ⟨-, h2⟩, -, hc⟩ := buildTable_fieldLoop U t (fun f => f.Index < t.Fields.length)
    (fun f hf => by simpa using fieldsFrom_index t.Fields 0 f hf)
  intro c hmem
  rw [hc] at hmem
  exact h2 c ((sortColumns_perm U tab.Columns).subset hmem)

theorem buildTable_exported (U : Lib) (t : StructType) (h : ∀ d ∈ t.Fields, d.Exported = true) :
    ∀ c ∈ (buildTable U t).Columns, c.Struct.Exported = true := by
  obtain ⟨tab, ⟨-, h2⟩, -, hc⟩ := buildTable_fieldLoop U t (fun f => f.Exported = true)
    (fieldsFrom_exported t.Fields h 0)
  intro c hmem
  rw [hc] at hmem
  exact h2 c ((sortColumns_perm U tab.Columns).subset hmem)

theorem buildTable_insertColumns_lib (U : Lib) (t : StructType) :
    (buildTable U t).insertColumns = (buildTable plainLib t).insertColumns := by
  simp only [buildTable, ParseName, toUnderscore_lib U, addField_lib U]

theorem buildTable_Columns_perm_lib (U : Lib) (t : StructType) :
    (buildTable U t).Columns.Perm (buildTable plainLib t).Columns := by
  rw [buildTable_Columns, buildTable_Columns, fieldColumns_lib U]
  exact (sortColumns_perm U _).trans (sortColumns_perm plainLib _).symm

theorem quoteName_injective (a b : Str) (h : quoteName a = quoteName b) : a = b := by
  unfold quoteName at h
  have h2 : a ++ ['`'] = b ++ ['`'] := by
    have := List.cons.inj h
    exact this.2
  exact List.append_cancel_right h2

/-- C15, refuted as stated: in `type Twin struct { ID int64; Id int64 }` with
`auto_increment` on `ID` both fields resolve to the column name `id`.  The column of
`Id` puts the quoted `id` into `insertColumns`, and that entry is also the quoted
name of the column of `ID`, whose `AutoIncrement` flag is true. -/
theorem insertColumns_holds_name_of_auto_increment_twin :
    (buildTable plainLib twinType).insertColumns = ["`id`".toList] ∧
      (buildTable plainLib twinType).Columns.map (fun c => (c.Name, c.AutoIncrement))
        = [("id".toList, true), ("id".toList, false)] ∧
      ¬ ∃ U : Lib, ∀ e ∈ (buildTable U twinType).insertColumns,
        ∀ c ∈ (buildTable U twinType).Columns, c.AutoIncrement = true → e ≠ quoteName c.Name := by
  refine ⟨by decide!, by decide!, ?_⟩
  rintro ⟨U, h⟩
  have hc : ∃ c ∈ (buildTable plainLib twinType).Columns,
      c.AutoIncrement = true ∧ "`id`".toList = quoteName c.Name := by decide!
  obtain ⟨c, hmem, hauto, hname⟩ := hc
  have he : "`id`".toList ∈ (buildTable U twinType).insertColumns := by
    rw [buildTable_insertColumns_lib U]
    decide!
  exact h _ he c ((buildTable_Columns_perm_lib U twinType).symm.subset hmem) hauto hname

/-- C15, amended: for every record type the entries of `insertColumns` are, up to
their order, the quoted names of the columns whose `AutoIncrement` flag is false,
one entry for each such column.  Hence, when no two columns of the type share a
name, no entry of `insertColumns` is the quoted name of a column whose flag is
true. -/
theorem insertColumns_excludes_auto_increment (U : Lib) (t : StructType) :
    (buildTable U t).insertColumns.Perm
        (((buildTable U t).Columns.filter (fun c => !c.AutoIncrement)).map
          (fun c => quoteName c.Name)) ∧
      (((buildTable U t).Columns.map (fun c => c.Name)).Nodup →
        ∀ e ∈ (buildTable U t).insertColumns, ∀ c ∈ (buildTable U t).Columns,
          c.AutoIncrement = true → e ≠ quoteName c.Name) := by
  refine ⟨buildTable_insertColumns_perm U t, ?_⟩
  intro hnd e he c hc hai heq
  have he' := (buildTable_insertColumns_perm U t).subset he
  obtain ⟨c', hc', hq⟩ := List.mem_map.mp he'
  obtain ⟨hmem, hnai⟩ := List.mem_filter.mp hc'
  have hname : c'.Name = c.Name := quoteName_injective _ _ (hq.trans heq)
  have hcc : c' = c := List.inj_on_of_nodup_map hnd hmem hc hname
  rw [hcc, hai] at hnai
  exact Bool.noConfusion hnai

/-! ## The batch text and the bound arguments -/

theorem Sprintf_literal (U : Lib) (s : Str) (h : '%' ∉ s) : Sprintf U s [] = s := by
  induction s with
  | nil => rfl
  | cons c cs ih =>
    have hc : (c == '%') = false := by
      rw [beq_eq_false_iff_ne]; intro e; exact h (e ▸ List.mem_cons_self _ _)
    have hcs : '%' ∉ cs := fun hm => h (List.mem_cons_of_mem _ hm)
    conv_lhs => rw [Sprintf.eq_def]
    simp only [hc, Bool.false_eq_true, if_false, ih hcs]

theorem Sprintf_prefix (U : Lib) (pre rest : Str) (args : List Str) (h : '%' ∉ pre) :
    Sprintf U (pre ++ rest) args = pre ++ Sprintf U rest args := by
  induction pre with
  | nil => rfl
  | cons c cs ih =>
    have hc : (c == '%') = false := by
      rw [beq_eq_false_iff_ne]; intro e; exact h (e ▸ List.mem_cons_self _ _)
    have hcs : '%' ∉ cs := fun hm => h (List.mem_cons_of_mem _ hm)
    rw [List.cons_append]
    conv_lhs => rw [Sprintf.eq_def]
    simp only [hc, Bool.false_eq_true, if_false, ih hcs]
    rfl

theorem Sprintf_substitute (U : Lib) (pre post a : Str) (hpre : '%' ∉ pre) (hpost : '%' ∉ post) :
    Sprintf U (pre ++ ['%', 's'] ++ post) [a] = pre ++ a ++ post := by
  rw [List.append_assoc, Sprintf_prefix U pre _ _ hpre]
  have : Sprintf U (['%', 's'] ++ post) [a] = a ++ Sprintf U post [] := by
    simp [Sprintf]
  rw [this, Sprintf_literal U post hpost, List.append_assoc]

theorem not_mem_Join (c : Char) (sep : Str) (hsep : c ∉ sep) (l : List Str)
    (h : ∀ x ∈ l, c ∉ x) : c ∉ Join l sep := by
  induction l with
  | nil => simp [Join]
  | cons x xs ih =>
    cases xs with
    | nil => simpa [Join] using h x (List.mem_cons_self _ _)
    | cons y ys =>
      have hx := h x (List.mem_cons_self _ _)
      have hrest := ih (fun z hz => h z (List.mem_cons_of_mem _ hz))
      show c ∉ x ++ sep ++ Join (y :: ys) sep
      simp only [List.mem_append, not_or]
      exact ⟨⟨hx, hsep⟩, hrest⟩

theorem noMarks_iff (s : Str) : noMarks s = true ↔ '%' ∉ s ∧ '?' ∉ s := by
  unfold noMarks
  rw [List.all_eq_true]
  constructor
  · intro h
    constructor
    · intro hm; have := h _ hm; simp at this
    · intro hm; have := h _ hm; simp at this
  · rintro ⟨h1, h2⟩ c hc
    have e1 : c ≠ '%' := fun e => h1 (e ▸ hc)
    have e2 : c ≠ '?' := fun e => h2 (e ▸ hc)
    simp [e1, e2]

theorem count_inner_marks (l : List Nat) :
    ∀ w : Str,
      (l.foldl (fun w j => (if j > 0 then w ++ [','] else w) ++ ['?']) w).count '?'
        = w.count '?' + l.length := by
  induction l with
  | nil => intro w; simp
  | cons j js ih =>
    intro w
    rw [List.foldl_cons, ih]
    have hcomma : List.count '?' [','] = 0 := by decide
    have hmark : List.count '?' ['?'] = 1 := by decide
    split <;> simp only [List.count_append, hcomma, hmark, List.length_cons] <;> omega

theorem count_outer_marks (k : Nat) (l : List Nat) :
    ∀ w : Str,
      (l.foldl
        (fun w i =>
          (if i > 0 then w ++ [','] else w) ++ ['(']
            ++ (List.range k).foldl (fun w j => (if j > 0 then w ++ [','] else w) ++ ['?']) []
            ++ [')']) w).count '?'
        = w.count '?' + l.length * k := by
  induction l with
  | nil => intro w; simp
  | cons i is ih =>
    intro w
    rw [List.foldl_cons, ih]
    have hcomma : List.count '?' [','] = 0 := by decide
    have hopen : List.count '?' ['('] = 0 := by decide
    have hclose : List.count '?' [')'] = 0 := by decide
    have hinner := count_inner_marks (List.range k) []
    simp only [List.count_nil, List.length_range, Nat.zero_add] at hinner
    split <;>
      simp only [List.count_append, hcomma, hopen, hclose, hinner, List.length_cons,
        Nat.add_mul, Nat.one_mul] <;> omega

theorem count_placeholderTuples (k n : Nat) : (placeholderTuples k n).count '?' = n * k := by
  unfold placeholderTuples
  rw [count_outer_marks k (List.range n) []]
  simp

theorem bindItem_length (H : Hooks) (fields : List FieldVal) (cols : List Column) :
    ∀ b b' : Bound, bindItem H cols fields b = .ok b' →
      b'.values.length = b.values.length + (cols.filter (fun c => !c.AutoIncrement)).length := by
  induction cols with
  | nil =>
    intro b b' h
    have hb : b = b' := by simpa [bindItem] using h
    subst hb; simp
  | cons c cs ih =>
    intro b b' h
    rw [bindItem_cons] at h
    cases hauto : c.AutoIncrement with
    | true =>
      rw [hauto, if_pos rfl] at h
      have hlen := ih _ b' h
      simpa [List.filter_cons, hauto] using hlen
    | false =>
      rw [hauto, if_neg Bool.false_ne_true] at h
      cases hget : fields.get? c.Struct.Index with
      | none => rw [hget] at h; exact Outcome.noConfusion h
      | some val =>
        rw [hget] at h
        simp only [] at h
        cases hbc : bindColumn H b c val with
        | error e => rw [hbc] at h; exact Outcome.noConfusion h
        | panic q => rw [hbc] at h; exact Outcome.noConfusion h
        | ok b1 =>
          rw [hbc] at h
          have hlen := ih _ b' h
          obtain ⟨arg, harg, -⟩ := bindColumn_values H b b1 c val hauto hbc
          have harg' : b1.values.length = b.values.length + 1 := by
            rw [harg]; simp
          have hf : ((c :: cs).filter (fun c => !c.AutoIncrement)).length
              = (cs.filter (fun c => !c.AutoIncrement)).length + 1 := by
            simp [List.filter_cons, hauto]
          rw [harg'] at hlen
          rw [hf]
          omega

theorem bindColumn_ok (H : Hooks) (b : Bound) (c : Column) (val : FieldVal)
    (he : c.Struct.Exported = true) :
    ∃ b', bindColumn H b c val = .ok b' ∧ b'.ids ≥ b.ids := by
  unfold bindColumn
  rw [if_pos he]
  split
  · split
    · split
      · exact ⟨_, rfl, Nat.le_refl _⟩
      · split
        · exact ⟨_, rfl, Nat.le_succ _⟩
        · exact ⟨_, rfl, Nat.le_refl _⟩
    · exact ⟨_, rfl, Nat.le_refl _⟩
  · exact ⟨_, rfl, Nat.le_refl _⟩

theorem bindItem_ok (H : Hooks) (fields : List FieldVal) (cols : List Column) :
    ∀ b : Bound, (∀ c ∈ cols, c.Struct.Index < fields.length) →
      (∀ c ∈ cols, c.Struct.Exported = true) →
      ∃ b', bindItem H cols fields b = .ok b' ∧ b'.ids ≥ b.ids := by
  induction cols with
  | nil => intro b _ _; exact ⟨b, rfl, Nat.le_refl _⟩
  | cons c cs ih =>
    intro b h hexp
    have hc := h c (List.mem_cons_self _ _)
    obtain ⟨val, hval⟩ : ∃ val, fields.get? c.Struct.Index = some val :=
      ⟨fields.get ⟨_, hc⟩, List.get?_eq_get hc⟩
    rw [bindItem_cons, hval]
    cases hauto : c.AutoIncrement with
    | true =>
      rw [if_pos rfl]
      exact ih b (fun d hd => h d (List.mem_cons_of_mem _ hd))
        (fun d hd => hexp d (List.mem_cons_of_mem _ hd))
    | false =>
      rw [if_neg Bool.false_ne_true]
      obtain ⟨b1, hb1, hge1⟩ := bindColumn_ok H b c val (hexp c (List.mem_cons_self _ _))
      simp only [hb1]
      obtain ⟨b', hb', hge⟩ := ih b1 (fun d hd => h d (List.mem_cons_of_mem _ hd))
        (fun d hd => hexp d (List.mem_cons_of_mem _ hd))
      exact ⟨b', hb', Nat.le_trans hge1 hge⟩

theorem bindItems_stuck (H : Hooks) (cols : List Column) (items : List Value)
    (o : Outcome Bound) (ho : ∀ b, o ≠ .ok b) :
    items.foldl
      (fun acc item =>
        match acc, item with
        | .ok b, .struct _ fields => bindItem H cols fields b
        | .ok _, _ => Outcome.panic
            "reflect: call of reflect.Value.FieldByIndex on a non-struct".toList
        | other, _ => other) o = o := by
  induction items with
  | nil => rfl
  | cons item items ih =>
    cases o with
    | ok b => exact absurd rfl (ho b)
    | error e => exact ih
    | panic p => exact ih

theorem bindItems_cons_struct (H : Hooks) (cols : List Column) (t : StructType)
    (fields : List FieldVal) (items : List Value) (b : Bound) :
    bindItems H cols (.struct t fields :: items) b =
      match bindItem H cols fields b with
      | .ok b1 => bindItems H cols items b1
      | .error e => .error e
      | .panic p => .panic p := by
  unfold bindItems
  rw [List.foldl_cons]
  cases hb : bindItem H cols fields b with
  | ok b1 => simp only [hb]
  | error e =>
    simp only [hb]
    exact bindItems_stuck H cols items _ (fun b h => Outcome.noConfusion h)
  | panic p =>
    simp only [hb]
    exact bindItems_stuck H cols items _ (fun b h => Outcome.noConfusion h)

theorem bindItems_cons_other (H : Hooks) (cols : List Column) (item : Value)
    (items : List Value) (b : Bound) (h : ∀ t fields, item ≠ .struct t fields) :
    bindItems H cols (item :: items) b
      = .panic "reflect: call of reflect.Value.FieldByIndex on a non-struct".toList := by
  unfold bindItems
  rw [List.foldl_cons]
  cases item with
  | struct t fields => exact absurd rfl (h t fields)
  | nil => exact bindItems_stuck H cols items _ (fun b h => Outcome.noConfusion h)
  | str s => exact bindItems_stuck H cols items _ (fun b h => Outcome.noConfusion h)
  | scalar k => exact bindItems_stuck H cols items _ (fun b h => Outcome.noConfusion h)
  | ptr e target => exact bindItems_stuck H cols items _ (fun b h => Outcome.noConfusion h)
  | slice e xs => exact bindItems_stuck H cols items _ (fun b h => Outcome.noConfusion h)

theorem bindItems_length (H : Hooks) (cols : List Column) (items : List Value) :
    ∀ b b' : Bound, bindItems H cols items b = .ok b' →
      b'.values.length
        = b.values.length + items.length * (cols.filter (fun c => !c.AutoIncrement)).length := by
  induction items with
  | nil =>
    intro b b' h
    have hb : b = b' := by simpa [bindItems] using h
    subst hb; simp
  | cons item items ih =>
    intro b b' h
    cases item with
    | struct t fields =>
      rw [bindItems_cons_struct] at h
      cases hb : bindItem H cols fields b with
      | ok b1 =>
        rw [hb] at h
        have h1 := bindItem_length H fields cols b b1 hb
        have h2 := ih b1 b' h
        simp only [List.length_cons, Nat.succ_mul] at h2 ⊢
        omega
      | error e => rw [hb] at h; exact Outcome.noConfusion h
      | panic p => rw [hb] at h; exact Outcome.noConfusion h
    | nil => rw [bindItems_cons_other H cols _ items b (by intros; simp)] at h; cases h
    | str s => rw [bindItems_cons_other H cols _ items b (by intros; simp)] at h; cases h
    | scalar k => rw [bindItems_cons_other H cols _ items b (by intros; simp)] at h; cases h
    | ptr e target => rw [bindItems_cons_other H cols _ items b (by intros; simp)] at h; cases h
    | slice e xs => rw [bindItems_cons_other H cols _ items b (by intros; simp)] at h; cases h

theorem getInsertQueryFormat_split (tab : Table) :
    getInsertQueryFormat tab
      = ((if tab.replaceColumns.length > 0 then "INSERT INTO ".toList
            else "INSERT IGNORE INTO ".toList)
          ++ ['`'] ++ tab.Name ++ ['`'] ++ " (".toList ++ Join tab.insertColumns [','] ++ [')']
          ++ " VALUES ".toList)
        ++ ['%', 's']
        ++ (if tab.replaceColumns.length > 0 then
              "ON DUPLICATE KEY UPDATE ".toList ++ Join tab.replaceColumns [',']
            else []) := by
  unfold getInsertQueryFormat
  simp only [List.append_assoc]
  rfl

theorem getInsertQueryFormat_marks (tab : Table) (h : cleanNames tab = true) (c : Char)
    (hc : c = '%' ∨ c = '?') :
    c ∉ ((if tab.replaceColumns.length > 0 then "INSERT INTO ".toList
            else "INSERT IGNORE INTO ".toList)
          ++ ['`'] ++ tab.Name ++ ['`'] ++ " (".toList ++ Join tab.insertColumns [','] ++ [')']
          ++ " VALUES ".toList) ∧
      c ∉ (if tab.replaceColumns.length > 0 then
              "ON DUPLICATE KEY UPDATE ".toList ++ Join tab.replaceColumns [',']
            else []) := by
  unfold cleanNames at h
  simp only [Bool.and_eq_true, List.all_eq_true] at h
  obtain ⟨⟨hname, hins⟩, hrep⟩ := h
  have hn : c ∉ tab.Name := by
    rcases hc with rfl | rfl
    · exact ((noMarks_iff _).mp hname).1
    · exact ((noMarks_iff _).mp hname).2
  have hi : ∀ x ∈ tab.insertColumns, c ∉ x := by
    intro x hx
    rcases hc with rfl | rfl
    · exact ((noMarks_iff _).mp (hins x hx)).1
    · exact ((noMarks_iff _).mp (hins x hx)).2
  have hr : ∀ x ∈ tab.replaceColumns, c ∉ x := by
    intro x hx
    rcases hc with rfl | rfl
    · exact ((noMarks_iff _).mp (hrep x hx)).1
    · exact ((noMarks_iff _).mp (hrep x hx)).2
  have hcomma : c ∉ [','] := by rcases hc with rfl | rfl <;> decide
  have hji := not_mem_Join c [','] hcomma _ hi
  have hjr := not_mem_Join c [','] hcomma _ hr
  have h1 : c ∉ "INSERT INTO ".toList := by rcases hc with rfl | rfl <;> decide
  have h2 : c ∉ "INSERT IGNORE INTO ".toList := by rcases hc with rfl | rfl <;> decide
  have h3 : c ∉ ['`'] := by rcases hc with rfl | rfl <;> decide
  have h4 : c ∉ " (".toList := by rcases hc with rfl | rfl <;> decide
  have h5 : c ∉ [')'] := by rcases hc with rfl | rfl <;> decide
  have h6 : c ∉ " VALUES ".toList := by rcases hc with rfl | rfl <;> decide
  have h7 : c ∉ "ON DUPLICATE KEY UPDATE ".toList := by rcases hc with rfl | rfl <;> decide
  constructor
  · simp only [List.mem_append, not_or]
    refine ⟨⟨⟨⟨⟨⟨⟨?_, h3⟩, hn⟩, h3⟩, h4⟩, hji⟩, h5⟩, h6⟩
    split
    · exact h1
    · exact h2
  · split
    · simp only [List.mem_append, not_or]
      exact ⟨h7, hjr⟩
    · exact List.not_mem_nil c

theorem CreateBatchInsertScript_text (U : Lib) (t : StructType) (n : Nat)
    (h : cleanNames (buildTable U t) = true) :
    (buildTable U t).CreateBatchInsertScript U n
      = ((if (buildTable U t).replaceColumns.length > 0 then "INSERT INTO ".toList
            else "INSERT IGNORE INTO ".toList)
          ++ ['`'] ++ (buildTable U t).Name ++ ['`'] ++ " (".toList
          ++ Join (buildTable U t).insertColumns [','] ++ [')'] ++ " VALUES ".toList)
        ++ placeholderTuples (buildTable U t).insertColumns.length n
        ++ (if (buildTable U t).replaceColumns.length > 0 then
              "ON DUPLICATE KEY UPDATE ".toList ++ Join (buildTable U t).replaceColumns [',']
            else []) := by
  unfold Table.CreateBatchInsertScript
  rw [buildTable_format, getInsertQueryFormat_split]
  obtain ⟨hpre, hpost⟩ := getInsertQueryFormat_marks (buildTable U t) h '%' (Or.inl rfl)
  exact Sprintf_substitute U _ _ _ hpre hpost

/-- C20, refuted as stated: in `type Mark struct { A string }` with the tag
`db:"column:a?"` the column is named `a?`.  For the group of the one record
`Mark{A: "x"}` `InsertContext` binds one argument, and the text of
`CreateBatchInsertScript(1)` holds two marks `?`, the one of the column name and
the placeholder, under every behaviour of the library. -/
theorem CreateBatchInsertScript_counts_mark_of_name :
    bindItems shippedHooks (buildTable plainLib markType).Columns [mark] ⟨[], 0, 0⟩
        = .ok ⟨[.str "x".toList], 0, 0⟩ ∧
      (buildTable plainLib markType).CreateBatchInsertScript plainLib 1
        = "INSERT IGNORE INTO `mark` (`a?`) VALUES (?)".toList ∧
      ¬ ∃ U : Lib, ((buildTable U markType).CreateBatchInsertScript U 1).count '?'
        = 1 * (buildTable U markType).insertColumns.length := by
  refine ⟨by decide!, by decide!, ?_⟩
  rintro ⟨U, h⟩
  rw [buildTable_lib U markType (by decide!)] at h
  unfold Table.CreateBatchInsertScript at h
  rw [Sprintf_lib U _ _ (by decide!)] at h
  revert h
  decide!

/-- C20, amended: let the table name, the entries of `insertColumns` and the upsert
assignments of a record type contain neither `%` nor `?`.  For a group of `n`
records whose binding runs to its end, the number of marks `?` in the text that
`CreateBatchInsertScript(n)` returns is the number of arguments `InsertContext`
binds for the group, and that is `n` times the length of `insertColumns`. -/
theorem placeholders_match_bound_arguments (U : Lib) (H : Hooks) (t : StructType)
    (items : List Value) (b b' : Bound) (hclean : cleanNames (buildTable U t) = true)
    (hb : bindItems H (buildTable U t).Columns items { b with values := [] } = .ok b') :
    ((buildTable U t).CreateBatchInsertScript U items.length).count '?' = b'.values.length ∧
      b'.values.length = items.length * (buildTable U t).insertColumns.length := by
  have hk : (buildTable U t).insertColumns.length
      = ((buildTable U t).Columns.filter (fun c => !c.AutoIncrement)).length := by
    rw [(buildTable_insertColumns_perm U t).length_eq, List.length_map]
  have hlen : b'.values.length = items.length * (buildTable U t).insertColumns.length := by
    have := bindItems_length H _ items _ b' hb
    rw [hk]; simpa using this
  refine ⟨?_, hlen⟩
  rw [CreateBatchInsertScript_text U t items.length hclean, hlen]
  obtain ⟨hpre, hpost⟩ := getInsertQueryFormat_marks (buildTable U t) hclean '?' (Or.inr rfl)
  rw [List.count_append, List.count_append, List.count_eq_zero_of_not_mem hpre,
    List.count_eq_zero_of_not_mem hpost, count_placeholderTuples]
  omega

/-- Witness of C20 as amended: the group that holds the one record `order`; the text
`INSERT IGNORE INTO order (id,note) VALUES (?,?)` has two marks and two arguments
are bound. -/
theorem placeholders_match_bound_arguments_witness :
    cleanNames (buildTable plainLib orderType) = true ∧
    bindItems shippedHooks (buildTable plainLib orderType).Columns [order]
        { (⟨[], 0, 0⟩ : Bound) with values := [] }
      = .ok ⟨[.int Kind.Int64 0, .str "x".toList], 1, 0⟩ ∧
    (((buildTable plainLib orderType).CreateBatchInsertScript plainLib [order].length).count '?'
        = (⟨[.int Kind.Int64 0, .str "x".toList], 1, 0⟩ : Bound).values.length ∧
      (⟨[.int Kind.Int64 0, .str "x".toList], 1, 0⟩ : Bound).values.length
        = [order].length * (buildTable plainLib orderType).insertColumns.length) :=
  ⟨by decide!, by decide!,
    placeholders_match_bound_arguments plainLib shippedHooks orderType [order] ⟨[], 0, 0⟩
      ⟨[.int Kind.Int64 0, .str "x".toList], 1, 0⟩ (by decide!) (by decide!)⟩

/-! ## Grouping -/

theorem Groups_groupAppend (recs : List Value) (m : List (Str × List Value)) (x : Value)
    (h : Groups recs m) : Groups (recs ++ [x]) (groupAppend m (recordKey x) x) := by
  obtain ⟨hnd, hg, hall⟩ := h
  unfold groupAppend
  by_cases hany : m.any (fun kv => kv.1 == recordKey x) = true
  · rw [if_pos hany]
    refine ⟨?_, ?_, ?_⟩
    · have : (m.map (fun kv => if kv.1 == recordKey x then (kv.1, kv.2 ++ [x]) else kv)).map
          Prod.fst = m.map Prod.fst := by
        rw [List.map_map]
        apply List.map_congr_left
        intro kv _
        simp only [Function.comp]
        split <;> rfl
      rw [this]; exact hnd
    · intro g' hg'
      obtain ⟨g, hgm, rfl⟩ := List.mem_map.mp hg'
      obtain ⟨hne, hfil⟩ := hg g hgm
      by_cases hk : (g.1 == recordKey x) = true
      · rw [if_pos hk]
        have hk' : (recordKey x == g.1) = true := by
          rw [beq_iff_eq] at hk ⊢; exact hk.symm
        refine ⟨by simp, ?_⟩
        simp only [List.filter_append, List.filter_cons, hk', if_true, List.filter_nil]
        rw [← hfil]
      · rw [if_neg hk]
        have hk' : ¬ (recordKey x == g.1) = true := by
          rw [beq_iff_eq] at hk ⊢; exact fun e => hk e.symm
        refine ⟨hne, ?_⟩
        simp only [List.filter_append, List.filter_cons, hk', Bool.false_eq_true, if_false,
          List.filter_nil, List.append_nil]
        exact hfil
    · intro y hy
      rcases List.mem_append.mp hy with hy | hy
      · obtain ⟨g, hgm, hgk⟩ := hall y hy
        refine ⟨_, List.mem_map.mpr ⟨g, hgm, rfl⟩, ?_⟩
        split <;> exact hgk
      · rw [List.mem_singleton.mp hy]
        obtain ⟨g, hgm, hgk⟩ := List.any_eq_true.mp hany
        refine ⟨_, List.mem_map.mpr ⟨g, hgm, rfl⟩, ?_⟩
        rw [if_pos hgk]
        exact beq_iff_eq.mp hgk
  · rw [if_neg hany]
    have hnone : ∀ g ∈ m, g.1 ≠ recordKey x := by
      intro g hgm e
      exact hany (List.any_eq_true.mpr ⟨g, hgm, beq_iff_eq.mpr e⟩)
    refine ⟨?_, ?_, ?_⟩
    · rw [List.map_append, List.map_singleton]
      apply List.Nodup.append hnd (List.nodup_singleton _)
      intro k hk1 hk2
      rw [List.mem_singleton] at hk2
      obtain ⟨g, hgm, rfl⟩ := List.mem_map.mp hk1
      exact hnone g hgm hk2
    · intro g hgm
      rcases List.mem_append.mp hgm with hgm | hgm
      · obtain ⟨hne, hfil⟩ := hg g hgm
        have hk' : ¬ (recordKey x == g.1) = true := by
          rw [beq_iff_eq]; exact fun e => hnone g hgm e.symm
        refine ⟨hne, ?_⟩
        simp only [List.filter_append, List.filter_cons, hk', Bool.false_eq_true, if_false,
          List.filter_nil, List.append_nil]
        exact hfil
      · rw [List.mem_singleton.mp hgm]
        refine ⟨by simp, ?_⟩
        have hempty : recs.filter (fun y => recordKey y == recordKey x) = [] := by
          rw [List.filter_eq_nil_iff]
          intro y hy hk
          obtain ⟨g, hgm', hgk⟩ := hall y hy
          exact hnone g hgm' (hgk.trans (beq_iff_eq.mp hk))
        simp [List.filter_append, hempty]
    · intro y hy
      rcases List.mem_append.mp hy with hy | hy
      · obtain ⟨g, hgm, hgk⟩ := hall y hy
        exact ⟨g, List.mem_append_left _ hgm, hgk⟩
      · rw [List.mem_singleton.mp hy]
        exact ⟨_, List.mem_append_right _ (List.mem_singleton_self _), rfl⟩

mutual
theorem group_spec : ∀ (v : Value) (m : List (Str × List Value)) (recs : List Value),
    Groups recs m →
      ((leaves v).all isRecord = true →
          ∃ m', group m v = (m', none) ∧ Groups (recs ++ leaves v) m') ∧
        ((leaves v).all isRecord = false → (group m v).2 ≠ none)
  | .nil, m, recs, _ => by
    refine ⟨fun h => ?_, fun _ => ?_⟩
    · simp [leaves, isRecord] at h
    · simp [group]
  | .str s, m, recs, _ => by
    refine ⟨fun h => ?_, fun _ => ?_⟩
    · simp [leaves, isRecord] at h
    · simp [group]
  | .scalar k, m, recs, _ => by
    refine ⟨fun h => ?_, fun _ => ?_⟩
    · simp [leaves, isRecord] at h
    · simp [group]
  | .struct t fields, m, recs, hm => by
    refine ⟨fun _ => ?_, fun h => ?_⟩
    · exact ⟨_, rfl, Groups_groupAppend recs m (.struct t fields) hm⟩
    · simp [leaves, isRecord] at h
  | .ptr _ none, m, recs, _ => by
    refine ⟨fun h => ?_, fun _ => ?_⟩
    · simp [leaves, isRecord] at h
    · simp [group]
  | .ptr e (some v), m, recs, hm => by
    have := group_spec v m recs hm
    simpa only [group, leaves] using this
  | .slice e items, m, recs, hm => by
    have := groupAll_spec items m recs hm
    simpa only [group, leaves] using this
theorem groupAll_spec : ∀ (vs : List Value) (m : List (Str × List Value)) (recs : List Value),
    Groups recs m →
      ((leavesAll vs).all isRecord = true →
          ∃ m', groupAll m vs = (m', none) ∧ Groups (recs ++ leavesAll vs) m') ∧
        ((leavesAll vs).all isRecord = false → (groupAll m vs).2 ≠ none)
  | [], m, recs, hm => by
    refine ⟨fun _ => ⟨m, rfl, by simpa [leavesAll] using hm⟩, fun h => ?_⟩
    simp [leavesAll] at h
  | v :: vs, m, recs, hm => by
    obtain ⟨hv1, hv2⟩ := group_spec v m recs hm
    cases hall : (leaves v).all isRecord with
    | true =>
      obtain ⟨m1, hg1, hm1⟩ := hv1 hall
      obtain ⟨hr1, hr2⟩ := groupAll_spec vs m1 (recs ++ leaves v) hm1
      constructor
      · intro h
        have hvs : (leavesAll vs).all isRecord = true := by
          simp only [leavesAll, List.all_append, Bool.and_eq_true] at h
          exact h.2
        obtain ⟨m', hg', hm'⟩ := hr1 hvs
        refine ⟨m', ?_, ?_⟩
        · simp only [groupAll, hg1, hg']
        · simpa only [leavesAll, List.append_assoc] using hm'
      · intro h
        have hvs : (leavesAll vs).all isRecord = false := by
          simp only [leavesAll, List.all_append, hall, Bool.true_and] at h
          exact h
        have := hr2 hvs
        simpa only [groupAll, hg1] using this
    | false =>
      constructor
      · intro h
        simp only [leavesAll, List.all_append, hall, Bool.false_and] at h
        exact Bool.noConfusion h
      · intro _
        have hne := hv2 hall
        cases hgv : group m v with
        | mk m1 err =>
          rw [hgv] at hne
          cases err with
          | none => exact absurd rfl hne
          | some e => simp [groupAll, hgv]
end

theorem Groups_nil : Groups [] [] :=
  ⟨List.nodup_nil, fun g hg => absurd hg (List.not_mem_nil g),
    fun x hx => absurd hx (List.not_mem_nil x)⟩

theorem groupValues_groups (values : List Value) (h : (groupValues values).2 = none) :
    Groups (leavesAll values) (groupValues values).1 := by
  obtain ⟨h1, h2⟩ := groupAll_spec values [] [] Groups_nil
  cases hall : (leavesAll values).all isRecord with
  | true =>
    obtain ⟨m', hg, hm'⟩ := h1 hall
    unfold groupValues
    rw [hg]
    simpa using hm'
  | false => exact absurd h (h2 hall)

/-- C13: `groupValues` fails exactly when flattening its arguments through
pointers, interfaces and slices reaches an element that is no record (behind a
nil pointer or nil interface lies the invalid value, which is none).  When it
succeeds the map groups the records reached: no key occurs twice, the group
under a key is not empty and holds the records whose type has that key, each as
often as the input holds it and in input order, and every record has its group. -/
theorem groupValues_fails_iff_and_groups (values : List Value) :
    ((groupValues values).2 ≠ none ↔ ∃ x ∈ leavesAll values, isRecord x = false) ∧
      ((groupValues values).2 = none →
        ((groupValues values).1.map Prod.fst).Nodup ∧
          (∀ g ∈ (groupValues values).1,
            g.2 ≠ [] ∧ g.2 = (leavesAll values).filter (fun x => recordKey x == g.1)) ∧
          ∀ x ∈ leavesAll values, ∃ g ∈ (groupValues values).1, g.1 = recordKey x) := by
  refine ⟨?_, fun h => groupValues_groups values h⟩
  obtain ⟨h1, h2⟩ := groupAll_spec values [] [] Groups_nil
  constructor
  · intro hne
    cases hall : (leavesAll values).all isRecord with
    | true =>
      obtain ⟨m', hg, -⟩ := h1 hall
      exact absurd (by unfold groupValues; rw [hg]) hne
    | false =>
      have : ¬ ((leavesAll values).all isRecord = true) := by rw [hall]; exact Bool.noConfusion
      rw [List.all_eq_true] at this
      push_neg at this
      obtain ⟨x, hx, hr⟩ := this
      exact ⟨x, hx, by simpa using hr⟩
  · rintro ⟨x, hx, hr⟩
    apply h2
    cases hall : (leavesAll values).all isRecord with
    | false => rfl
    | true =>
      rw [List.all_eq_true] at hall
      rw [hall x hx] at hr
      exact Bool.noConfusion hr

/-! ## The loop of `InsertContext` over the groups -/

theorem sumInt64_snoc (l : List Int) (n : Int) :
    sumInt64 (l ++ [n]) = addInt64 (sumInt64 l) n := by
  simp [sumInt64, List.foldl_append]

theorem traced_ExecContext {σ : Type} (D : Driver σ) (s : σ × List ExecCall) (q : Str)
    (vals : List FieldVal) (s' : σ) (rep : ExecReply)
    (h : D.ExecContext s.1 q vals = (s', rep)) :
    (traced D).ExecContext s q vals = ((s', s.2 ++ [⟨q, vals, rep.failure, rep.count⟩]), rep) := by
  simp only [traced, h]

theorem insertGroup_step {σ : Type} (U : Lib) (H : Hooks) (D : Driver σ) (items : List Value)
    (r : InsertResult (σ × List ExecCall)) (b : Bound) (h : AllSucceeded r) :
    (AllSucceeded (insertGroup U H (traced D) items r b).1) ∨
      (LastFailed (insertGroup U H (traced D) items r b).1) := by
  unfold insertGroup
  by_cases hlen : (items.length == 0) = true
  · rw [if_pos hlen]; exact Or.inl h
  · rw [if_neg hlen]
    cases hget : GetTable U r.world (.slice .iface items) with
    | error err => exact Or.inl h
    | panic p => exact Or.inl h
    | ok res =>
      obtain ⟨tab, w'⟩ := res
      simp only []
      cases htab : w'.table tab with
      | none => exact Or.inl h
      | some table =>
        simp only []
        cases hbind : bindItems H table.Columns items { b with values := [] } with
        | error err => exact Or.inl h
        | panic p => exact Or.inl h
        | ok b' =>
          simp only []
          obtain ⟨hok, hsum⟩ := h
          rcases hD : D.ExecContext r.db.1 (table.CreateBatchInsertScript U items.length)
            b'.values with ⟨s', rep⟩
          rw [traced_ExecContext D r.db _ _ s' rep hD]
          cases rep with
          | failed err =>
            exact Or.inr ⟨r.db.2, _, err, rfl, rfl, rfl, hok, hsum⟩
          | result res =>
            cases res with
            | error err =>
              exact Or.inr ⟨r.db.2, _, err, rfl, rfl, rfl, hok, hsum⟩
            | ok n =>
              refine Or.inl ⟨?_, ?_⟩
              · intro c hc
                rcases List.mem_append.mp hc with hc | hc
                · exact hok c hc
                · rw [List.mem_singleton.mp hc]; rfl
              · show addInt64 r.affected n =
                  sumInt64 ((r.db.2 ++ [(⟨table.CreateBatchInsertScript U items.length,
                    b'.values, none, n⟩ : ExecCall)]).map (fun c => c.count))
                rw [List.map_append, List.map_singleton, sumInt64_snoc, ← hsum]

theorem insertGroups_step {σ : Type} (U : Lib) (H : Hooks) (D : Driver σ)
    (gs : List (Str × List Value)) :
    ∀ (r : InsertResult (σ × List ExecCall)) (b : Bound), AllSucceeded r →
      AllSucceeded (insertGroups U H (traced D) gs r b) ∨
        LastFailed (insertGroups U H (traced D) gs r b) := by
  induction gs with
  | nil => intro r b h; exact Or.inl h
  | cons g gs ih =>
    intro r b h
    unfold insertGroups
    have hstep := insertGroup_step U H D g.2 r b h
    rcases hres : insertGroup U H (traced D) g.2 r b with ⟨r', b'⟩
    rw [hres] at hstep
    simp only []
    by_cases herr : r'.err.isSome = true
    · rw [if_pos herr]; exact hstep
    · rw [if_neg herr]
      rcases hstep with hA | hL
      · exact ih r' b' hA
      · obtain ⟨_, _, e, _, _, he, _⟩ := hL
        rw [he] at herr
        exact absurd rfl herr

theorem InsertContext_traced {σ : Type} (U : Lib) (H : Hooks) (D : Driver σ)
    (visit : List (Str × List Value) → List (Str × List Value)) (db : σ) (w : World)
    (args : List Value) :
    AllSucceeded (InsertContext U H (traced D) visit (db, []) w args) ∨
      LastFailed (InsertContext U H (traced D) visit (db, []) w args) := by
  have h0 : ∀ (e : Option Str),
      AllSucceeded (⟨0, e, (db, []), w⟩ : InsertResult (σ × List ExecCall)) := by
    intro e
    exact ⟨fun c hc => absurd hc (List.not_mem_nil c), rfl⟩
  unfold InsertContext
  rcases hg : groupValues args with ⟨m, err⟩
  cases err with
  | some e => exact Or.inl (h0 (some e))
  | none => exact insertGroups_step U H D (visit m) _ _ (h0 none)

theorem wrap_addInt64 (a x : Int) :
    addInt64 ((a + 2 ^ 63) % 2 ^ 64 - 2 ^ 63) x = (a + x + 2 ^ 63) % 2 ^ 64 - 2 ^ 63 := by
  unfold addInt64
  omega

theorem foldl_addInt64 (l : List Int) :
    ∀ a : Int, l.foldl addInt64 ((a + 2 ^ 63) % 2 ^ 64 - 2 ^ 63)
      = (a + l.sum + 2 ^ 63) % 2 ^ 64 - 2 ^ 63 := by
  induction l with
  | nil => intro a; simp
  | cons x xs ih =>
    intro a
    have e : a + (x + xs.sum) = a + x + xs.sum := by ring
    rw [List.foldl_cons, wrap_addInt64, ih (a + x), List.sum_cons, e]

theorem sumInt64_eq_sum (l : List Int) (hlo : -2 ^ 63 ≤ l.sum) (hhi : l.sum < 2 ^ 63) :
    sumInt64 l = l.sum := by
  have h := foldl_addInt64 l 0
  have h0 : ((0 : Int) + 2 ^ 63) % 2 ^ 64 - 2 ^ 63 = 0 := by norm_num
  rw [h0] at h
  unfold sumInt64
  rw [h]
  omega

/-- C16: the traced driver keeps every `ExecContext` call that `InsertContext` makes,
in order.  When a call fails, by its own error or by the error of `RowsAffected`,
it is the last call made: no statement follows it, every call before it has
succeeded, `InsertContext` returns the error of that call, and the returned count
is the `int64` sum of the counts that the calls before it have reported, which is
their sum whenever that sum is an `int64`. -/
theorem InsertContext_stops_at_failed_call {σ : Type} (U : Lib) (H : Hooks) (D : Driver σ)
    (visit : List (Str × List Value) → List (Str × List Value)) (db : σ) (w : World)
    (args : List Value) (pre post : List ExecCall) (c : ExecCall) (e : Str)
    (hlog : (InsertContext U H (traced D) visit (db, []) w args).db.2 = pre ++ c :: post)
    (hfail : c.failure = some e) :
    post = [] ∧ (∀ x ∈ pre, x.failure = none) ∧
      (InsertContext U H (traced D) visit (db, []) w args).err = some e ∧
      (InsertContext U H (traced D) visit (db, []) w args).affected
        = sumInt64 (pre.map (fun x => x.count)) ∧
      (-2 ^ 63 ≤ (pre.map (fun x => x.count)).sum → (pre.map (fun x => x.count)).sum < 2 ^ 63 →
        (InsertContext U H (traced D) visit (db, []) w args).affected
          = (pre.map (fun x => x.count)).sum) := by
  have hmem : c ∈ (InsertContext U H (traced D) visit (db, []) w args).db.2 := by
    rw [hlog]; simp
  rcases InsertContext_traced U H D visit db w args with hA | hL
  · have := hA.1 c hmem
    rw [hfail] at this
    exact Option.noConfusion this
  · obtain ⟨pre', c', e', hlog', hfail', herr, hpre, hsum⟩ := hL
    rw [hlog] at hlog'
    have hpost : post = [] := by
      rcases List.eq_nil_or_concat post with hp | ⟨init, last, hp⟩
      · exact hp
      · exfalso
        have e2 : pre ++ c :: init.concat last = (pre ++ c :: init) ++ [last] := by simp
        rw [hp, e2] at hlog'
        have hinit := (List.append_inj' hlog' rfl).1
        have hc : c ∈ pre' := by rw [← hinit]; simp
        have := hpre c hc
        rw [hfail] at this
        exact Option.noConfusion this
    subst hpost
    have hboth := List.append_inj' hlog' rfl
    have hpp : pre = pre' := hboth.1
    have hcc : c = c' := List.singleton_inj.mp hboth.2
    subst hpp
    subst hcc
    have hee : e = e' := by
      rw [hfail] at hfail'
      exact Option.some.inj hfail'
    subst hee
    refine ⟨rfl, hpre, herr, hsum, ?_⟩
    intro hlo hhi
    rw [hsum]
    exact sumInt64_eq_sum _ hlo hhi

/-- Witness of C16: `Account` and `Order` records on the driver `flaky`, whose second
call fails; the first statement has reported 3 rows. -/
theorem InsertContext_stops_at_failed_call_witness :
    (InsertContext plainLib shippedHooks (traced flaky) (fun m => m) (0, []) world0
        [account, order]).db.2 = [accountCall] ++ orderCall :: [] ∧
    orderCall.failure = some "boom".toList ∧
    (([] : List ExecCall) = [] ∧ (∀ x ∈ [accountCall], x.failure = none) ∧
      (InsertContext plainLib shippedHooks (traced flaky) (fun m => m) (0, []) world0
        [account, order]).err = some "boom".toList ∧
      (InsertContext plainLib shippedHooks (traced flaky) (fun m => m) (0, []) world0
        [account, order]).affected = sumInt64 ([accountCall].map (fun x => x.count)) ∧
      (-2 ^ 63 ≤ ([accountCall].map (fun x => x.count)).sum →
        ([accountCall].map (fun x => x.count)).sum < 2 ^ 63 →
        (InsertContext plainLib shippedHooks (traced flaky) (fun m => m) (0, []) world0
          [account, order]).affected = ([accountCall].map (fun x => x.count)).sum)) :=
  ⟨by decide!, by decide!,
    InsertContext_stops_at_failed_call plainLib shippedHooks flaky (fun m => m) 0 world0
      [account, order] [accountCall] [] orderCall "boom".toList (by decide!) (by decide!)⟩

/-! ## One statement for each key of the map -/

theorem InsertContext_items_call (U : Lib) :
    (InsertContext U shippedHooks (traced steady) (fun m => m) (0, []) world0
        [firstItem, secondItem]).db.2 = [itemsCall] := by
  have hg : groupValues [firstItem, secondItem]
      = ([(cacheKey firstItemType, [firstItem, secondItem])], none) := by rfl
  have ht : GetTable U world0 (.slice .iface [firstItem, secondItem])
      = .ok (0, ⟨[], [buildTable plainLib firstItemType]⟩) := by
    rw [GetTable_lib _ _ _ (by decide!)]; rfl
  have hf : plainFormat (buildTable plainLib firstItemType).BatchInsertScriptFormat = true := by
    decide!
  have hq : (buildTable plainLib firstItemType).CreateBatchInsertScript U 2
      = (buildTable plainLib firstItemType).CreateBatchInsertScript plainLib 2 :=
    Sprintf_lib U _ _ hf
  have hi : insertGroup U shippedHooks (traced steady) [firstItem, secondItem]
        ⟨0, none, (0, []), world0⟩ ⟨[], 0, 0⟩
      = insertGroup plainLib shippedHooks (traced steady) [firstItem, secondItem]
          ⟨0, none, (0, []), world0⟩ ⟨[], 0, 0⟩ := by
    simp only [insertGroup, ht, World.table, List.get?, List.length_cons,
      List.length_singleton, List.length_nil, hq]
    rfl
  simp only [InsertContext, hg, insertGroups, hi]
  decide!

theorem exists_forall2 {α β : Type} (R : α → β → Prop) :
    ∀ l : List α, (∀ a ∈ l, ∃ b, R a b) → ∃ l' : List β, List.Forall₂ R l l'
  | [], _ => ⟨[], List.Forall₂.nil⟩
  | a :: l, h => by
    obtain ⟨b, hb⟩ := h a (List.mem_cons_self a l)
    obtain ⟨l', hl'⟩ := exists_forall2 R l (fun x hx => h x (List.mem_cons_of_mem a hx))
    exact ⟨b :: l', List.Forall₂.cons hb hl'⟩

theorem forall2_right {α β : Type} {R : α → β → Prop} {l : List α} {l' : List β}
    (h : List.Forall₂ R l l') : ∀ b ∈ l', ∃ a ∈ l, R a b := by
  induction h with
  | nil => intro b hb; exact absurd hb (List.not_mem_nil b)
  | cons hab _ ih =>
    intro b hb
    rcases List.mem_cons.mp hb with rfl | hb
    · exact ⟨_, List.mem_cons_self _ _, hab⟩
    · obtain ⟨a, ha, hr⟩ := ih b hb
      exact ⟨a, List.mem_cons_of_mem _ ha, hr⟩

theorem forall2_left {α β : Type} {R : α → β → Prop} {l : List α} {l' : List β}
    (h : List.Forall₂ R l l') : ∀ a ∈ l, ∃ b ∈ l', R a b := by
  induction h with
  | nil => intro a ha; exact absurd ha (List.not_mem_nil a)
  | cons hab _ ih =>
    intro a ha
    rcases List.mem_cons.mp ha with rfl | ha
    · exact ⟨_, List.mem_cons_self _ _, hab⟩
    · obtain ⟨b, hb, hr⟩ := ih a ha
      exact ⟨b, List.mem_cons_of_mem _ hb, hr⟩

theorem GroupOf_keys (count : StructType → Nat) {gs : List (Str × List Value)}
    {ts : List StructType} (h : List.Forall₂ (GroupOf count) gs ts) :
    ts.map cacheKey = gs.map Prod.fst := by
  induction h with
  | nil => rfl
  | cons hab _ ih => rw [List.map_cons, List.map_cons, ih, hab.2.1]

theorem wellFormed_struct {x : Value} (h : wellFormed x = true) :
    ∃ t fields, x = .struct t fields ∧ fields.length = t.Fields.length := by
  cases x with
  | struct t fields =>
    refine ⟨t, fields, rfl, ?_⟩
    simpa [wellFormed] using h
  | nil => exact Bool.noConfusion h
  | str s => exact Bool.noConfusion h
  | scalar k => exact Bool.noConfusion h
  | ptr e target => exact Bool.noConfusion h
  | slice e items => exact Bool.noConfusion h

theorem bindItems_ok (H : Hooks) (U : Lib) (t : StructType)
    (hexp : ∀ d ∈ t.Fields, d.Exported = true) :
    ∀ (items : List Value) (b : Bound),
      (∀ item ∈ items, ∃ fields, item = .struct t fields ∧ fields.length = t.Fields.length) →
      ∃ b', bindItems H (buildTable U t).Columns items b = .ok b'
  | [], b, _ => ⟨b, rfl⟩
  | item :: items, b, h => by
    obtain ⟨fields, rfl, hlen⟩ := h item (List.mem_cons_self _ _)
    rw [bindItems_cons_struct]
    obtain ⟨b1, hb1, -⟩ := bindItem_ok H fields (buildTable U t).Columns b
      (fun c hc => by rw [hlen]; exact buildTable_index U t c hc)
      (buildTable_exported U t hexp)
    rw [hb1]
    exact bindItems_ok H U t hexp items b1 (fun x hx => h x (List.mem_cons_of_mem _ hx))

theorem insertGroup_ok {σ : Type} (U : Lib) (H : Hooks) (D : Driver σ)
    (hD : ∀ s q a, (D.ExecContext s q a).2.failure = none) (t : StructType)
    (items : List Value) (r : InsertResult (σ × List ExecCall)) (b : Bound)
    (hne : items ≠ []) (hexp : ∀ d ∈ t.Fields, d.Exported = true)
    (hitems : ∀ item ∈ items, ∃ fields, item = .struct t fields ∧
      fields.length = t.Fields.length)
    (hw : r.world.tabCache = []) :
    ∃ c : ExecCall, c.query = (buildTable U t).CreateBatchInsertScript U items.length ∧
      c.failure = none ∧
      (insertGroup U H (traced D) items r b).1.err = none ∧
      (insertGroup U H (traced D) items r b).1.world.tabCache = [] ∧
      (insertGroup U H (traced D) items r b).1.db.2 = r.db.2 ++ [c] := by
  obtain ⟨first, rest, rfl⟩ := List.exists_cons_of_ne_nil hne
  obtain ⟨fields, hfirst, -⟩ := hitems first (List.mem_cons_self _ _)
  have hget : GetTable U r.world (.slice .iface (first :: rest))
      = .ok (r.world.heap.length, { r.world with heap := r.world.heap ++ [buildTable U t] }) := by
    subst hfirst
    simp only [GetTable, structTypeOf, deref]
    rw [getStructTable_fresh U r.world t hw]
  have htab := World.table_fresh r.world (buildTable U t)
  obtain ⟨b', hb'⟩ := bindItems_ok H U t hexp (first :: rest) { b with values := [] } hitems
  rcases hDx : D.ExecContext r.db.1
    ((buildTable U t).CreateBatchInsertScript U (first :: rest).length) b'.values with ⟨s', rep⟩
  have hrep : rep.failure = none := by
    have := hD r.db.1 ((buildTable U t).CreateBatchInsertScript U (first :: rest).length) b'.values
    rw [hDx] at this
    exact this
  have hlen : ¬ ((first :: rest).length == 0) = true := by simp
  cases rep with
  | failed err => exact Option.noConfusion hrep
  | result res =>
    cases res with
    | error err => exact Option.noConfusion hrep
    | ok n =>
      have hres : insertGroup U H (traced D) (first :: rest) r b
          = (⟨addInt64 r.affected n, none,
              (s', r.db.2 ++ [⟨(buildTable U t).CreateBatchInsertScript U (first :: rest).length,
                b'.values, none, n⟩]),
              { r.world with heap := r.world.heap ++ [buildTable U t] }⟩, b') := by
        unfold insertGroup
        rw [if_neg hlen, hget]
        simp only []
        rw [htab]
        simp only []
        rw [hb']
        simp only []
        rw [traced_ExecContext D r.db _ _ s' _ hDx]
        rfl
      rw [hres]
      exact ⟨(⟨(buildTable U t).CreateBatchInsertScript U (first :: rest).length, b'.values,
        none, n⟩ : ExecCall), rfl, rfl, rfl, hw, rfl⟩

theorem insertGroups_ok {σ : Type} (U : Lib) (H : Hooks) (D : Driver σ)
    (hD : ∀ s q a, (D.ExecContext s q a).2.failure = none) (count : StructType → Nat)
    (gs : List (Str × List Value)) (ts : List StructType)
    (h : List.Forall₂ (GroupOf count) gs ts) :
    ∀ (r : InsertResult (σ × List ExecCall)) (b : Bound),
      r.world.tabCache = [] → r.err = none →
      (insertGroups U H (traced D) gs r b).err = none ∧
        ∃ calls, (insertGroups U H (traced D) gs r b).db.2 = r.db.2 ++ calls ∧
          List.Forall₂
            (fun t c => c.query = (buildTable U t).CreateBatchInsertScript U (count t) ∧
              c.failure = none) ts calls := by
  induction h with
  | nil =>
    intro r b _ herr
    exact ⟨herr, [], by simp [insertGroups], List.Forall₂.nil⟩
  | @cons g t gs ts hgt _ ih =>
    intro r b hw _
    obtain ⟨c, hq, hf, he, hw', hlog⟩ :=
      insertGroup_ok U H D hD t g.2 r b hgt.1 hgt.2.2.2.1 hgt.2.2.2.2 hw
    unfold insertGroups
    rcases hres : insertGroup U H (traced D) g.2 r b with ⟨r', b'⟩
    rw [hres] at he hw' hlog
    simp only [] at he hw' hlog ⊢
    have hnone : ¬ (r'.err.isSome = true) := by rw [he]; simp
    rw [if_neg hnone]
    obtain ⟨he2, calls, hlog2, hfa⟩ := ih r' b' hw' he
    refine ⟨he2, c :: calls, ?_, List.Forall₂.cons ⟨?_, hf⟩ hfa⟩
    · rw [hlog2, hlog, List.append_assoc, List.singleton_append]
    · rw [hq, hgt.2.2.1]

theorem InsertContext_hidden_call (U : Lib) :
    (InsertContext U shippedHooks (traced steady) (fun m => m) (0, []) world0 [hidden]).db.2
        = [] ∧
      (InsertContext U shippedHooks (traced steady) (fun m => m) (0, []) world0 [hidden]).err
        = some unexportedPanic := by
  have hg : groupValues [hidden] = ([(cacheKey hiddenType, [hidden])], none) := by rfl
  have ht : GetTable U world0 (.slice .iface [hidden])
      = .ok (0, ⟨[], [buildTable plainLib hiddenType]⟩) := by
    rw [GetTable_lib _ _ _ (by decide!)]; rfl
  have hf : plainFormat (buildTable plainLib hiddenType).BatchInsertScriptFormat = true := by
    decide!
  have hq : (buildTable plainLib hiddenType).CreateBatchInsertScript U 1
      = (buildTable plainLib hiddenType).CreateBatchInsertScript plainLib 1 :=
    Sprintf_lib U _ _ hf
  have hi : insertGroup U shippedHooks (traced steady) [hidden]
        ⟨0, none, (0, []), world0⟩ ⟨[], 0, 0⟩
      = insertGroup plainLib shippedHooks (traced steady) [hidden]
          ⟨0, none, (0, []), world0⟩ ⟨[], 0, 0⟩ := by
    simp only [insertGroup, ht, World.table, List.get?, List.length_cons,
      List.length_singleton, List.length_nil, hq]
    rfl
  simp only [InsertContext, hg, insertGroups, hi]
  decide!

/-- C12, refuted as stated: `firstItem` and `secondItem` are records of two distinct
record types, both named `Item` in package `main`, and the driver `steady` lets
every call succeed.  Under no behaviour of the library does `InsertContext` issue
two statements for them: it issues the one statement `itemsCall`, which binds the
fields of both records under the column of the first type.  And for the record
`Hidden{id: 5, Name: "x"}`, of one record type, it issues no statement at all: the
field `id` is not exported, reflect panics on the call `val.Interface()`, and
`InsertContext` returns the recovered panic. -/
theorem InsertContext_one_statement_for_two_types :
    firstItemType ≠ secondItemType ∧
      recordType firstItem = some firstItemType ∧
      recordType secondItem = some secondItemType ∧
      (¬ ∃ U : Lib,
        (InsertContext U shippedHooks (traced steady) (fun m => m) (0, []) world0
          [firstItem, secondItem]).db.2.length = 2) ∧
      (InsertContext plainLib shippedHooks (traced steady) (fun m => m) (0, []) world0
        [firstItem, secondItem]).db.2 = [itemsCall] ∧
      (¬ ∃ U : Lib,
        (InsertContext U shippedHooks (traced steady) (fun m => m) (0, []) world0
          [hidden]).db.2.length = 1) ∧
      (InsertContext plainLib shippedHooks (traced steady) (fun m => m) (0, []) world0
        [hidden]).err
        = some "\"reflect.Value.Interface: cannot return value obtained from unexported field or method\"".toList := by
  refine ⟨by decide, rfl, rfl, ?_, InsertContext_items_call plainLib, ?_,
    (InsertContext_hidden_call plainLib).2⟩
  · rintro ⟨U, h⟩
    rw [InsertContext_items_call U] at h
    exact absurd h (by decide)
  · rintro ⟨U, h⟩
    rw [(InsertContext_hidden_call U).1] at h
    exact absurd h (by decide)

/-- C12, amended: let the arguments flatten to records of types whose fields are
all exported, let no two of them of distinct types share a type key (package path
and type name), and let every driver call succeed; every record holds one value
for each field of its type, the range statement visits every entry of the map
once, and `tabCache` is empty, as it always is.  Then `InsertContext` returns no
error and issues exactly one batch statement for each distinct record type:
along a list `ts` that holds every type of the records once, the calls are the
batch statements of these types, each for as many rows as there are records of
its type.  The returned count is the `int64` sum of the counts reported for these
statements, which is their sum whenever that sum is an `int64`. -/
theorem InsertContext_one_statement_per_type {σ : Type} (U : Lib) (H : Hooks) (D : Driver σ)
    (visit : List (Str × List Value) → List (Str × List Value)) (db : σ) (w : World)
    (args : List Value)
    (hw : w.tabCache = [])
    (hrec : ∀ x ∈ leavesAll args, wellFormed x = true)
    (hexp : ∀ x ∈ leavesAll args, exportedFields x = true)
    (hkey : ∀ x ∈ leavesAll args, ∀ y ∈ leavesAll args,
      recordKey x = recordKey y → recordType x = recordType y)
    (hvisit : (visit (groupValues args).1).Perm (groupValues args).1)
    (hD : ∀ s q a, (D.ExecContext s q a).2.failure = none) :
    ∃ ts : List StructType, ts.Nodup ∧
      (∀ t, t ∈ ts ↔ ∃ fields, Value.struct t fields ∈ leavesAll args) ∧
      List.Forall₂
        (fun t c => c.query
            = (buildTable U t).CreateBatchInsertScript U (countOfType (leavesAll args) t) ∧
          c.failure = none)
        ts (InsertContext U H (traced D) visit (db, []) w args).db.2 ∧
      (InsertContext U H (traced D) visit (db, []) w args).db.2.length = ts.length ∧
      (InsertContext U H (traced D) visit (db, []) w args).err = none ∧
      (InsertContext U H (traced D) visit (db, []) w args).affected
        = sumInt64 ((InsertContext U H (traced D) visit (db, []) w args).db.2.map
            (fun c => c.count)) ∧
      (-2 ^ 63 ≤ ((InsertContext U H (traced D) visit (db, []) w args).db.2.map
            (fun c => c.count)).sum →
        ((InsertContext U H (traced D) visit (db, []) w args).db.2.map
            (fun c => c.count)).sum < 2 ^ 63 →
        (InsertContext U H (traced D) visit (db, []) w args).affected
          = ((InsertContext U H (traced D) visit (db, []) w args).db.2.map
              (fun c => c.count)).sum) := by
  have hall : (leavesAll args).all isRecord = true := by
    rw [List.all_eq_true]
    intro x hx
    obtain ⟨t, fields, rfl, -⟩ := wellFormed_struct (hrec x hx)
    rfl
  obtain ⟨h1, -⟩ := groupAll_spec args [] [] Groups_nil
  obtain ⟨m, hm, hG⟩ := h1 hall
  have hgv : groupValues args = (m, none) := hm
  rw [hgv] at hvisit
  rw [List.nil_append] at hG
  obtain ⟨hnd, hgrp, hcover⟩ := hG
  -- every record of a group is a well-formed record of the type of the first one
  have hgood : ∀ g ∈ visit m, ∃ t, GroupOf (countOfType (leavesAll args)) g t := by
    intro g hg
    have hgm : g ∈ m := hvisit.subset hg
    obtain ⟨hne, hfil⟩ := hgrp g hgm
    obtain ⟨y, ys, hys⟩ := List.exists_cons_of_ne_nil hne
    have hy : y ∈ (leavesAll args).filter (fun x => recordKey x == g.1) := by
      rw [← hfil, hys]; exact List.mem_cons_self _ _
    obtain ⟨hyl, hyk⟩ := List.mem_filter.mp hy
    have hyk' : recordKey y = g.1 := by simpa using hyk
    obtain ⟨t, fy, hyeq, -⟩ := wellFormed_struct (hrec y hyl)
    have hty : recordType y = some t := by rw [hyeq]; rfl
    have hky : recordKey y = cacheKey t := by rw [hyeq]; rfl
    refine ⟨t, hne, ?_, ?_, ?_, ?_⟩
    · rw [← hky, hyk']
    · rw [hfil]
      unfold countOfType
      congr 1
      apply List.filter_congr
      intro x hx
      rw [Bool.eq_iff_iff, beq_iff_eq, decide_eq_true_eq]
      constructor
      · intro hxk
        rw [← hty]
        exact hkey x hx y hyl (hxk.trans hyk'.symm)
      · intro hxt
        obtain ⟨t', fx, hxeq, -⟩ := wellFormed_struct (hrec x hx)
        rw [hxeq] at hxt ⊢
        have htt : t' = t := Option.some.inj hxt
        rw [htt]
        exact hky.symm.trans hyk'
    · have he := hexp y hyl
      rw [hyeq] at he
      intro d hd
      exact List.all_eq_true.mp he d hd
    · intro item hitem
      rw [hfil] at hitem
      obtain ⟨hil, hik⟩ := List.mem_filter.mp hitem
      have hik' : recordKey item = g.1 := by simpa using hik
      have hit : recordType item = some t := by
        rw [← hty]
        exact hkey item hil y hyl (hik'.trans hyk'.symm)
      obtain ⟨t', fi, hieq, hlen⟩ := wellFormed_struct (hrec item hil)
      rw [hieq] at hit
      have htt : t' = t := Option.some.inj hit
      subst htt
      exact ⟨fi, hieq, hlen⟩
  obtain ⟨ts, hts⟩ := exists_forall2 (GroupOf (countOfType (leavesAll args))) (visit m) hgood
  have hkeys : ts.map cacheKey = (visit m).map Prod.fst := GroupOf_keys _ hts
  have hndts : ts.Nodup := by
    apply List.Nodup.of_map cacheKey
    rw [hkeys]
    exact (hvisit.map Prod.fst).nodup_iff.mpr hnd
  have hR : InsertContext U H (traced D) visit (db, []) w args
      = insertGroups U H (traced D) (visit m) ⟨0, none, (db, []), w⟩ ⟨[], 0, 0⟩ := by
    unfold InsertContext
    rw [hgv]
  obtain ⟨herr, calls, hlog, hcalls⟩ :=
    insertGroups_ok U H D hD (countOfType (leavesAll args)) (visit m) ts hts
      ⟨0, none, (db, []), w⟩ ⟨[], 0, 0⟩ hw rfl
  rw [← hR] at herr hlog
  have hlog' : (InsertContext U H (traced D) visit (db, []) w args).db.2 = calls := by
    rw [hlog]; rfl
  have hA : AllSucceeded (InsertContext U H (traced D) visit (db, []) w args) := by
    rcases InsertContext_traced U H D visit db w args with hA | ⟨_, _, e, _, _, he, _⟩
    · exact hA
    · rw [herr] at he
      exact Option.noConfusion he
  refine ⟨ts, hndts, ?_, ?_, ?_, herr, hA.2, fun hlo hhi => ?_⟩
  · intro t
    constructor
    · intro ht
      obtain ⟨g, hg, hgt⟩ := forall2_right hts t ht
      obtain ⟨y, ys, hys⟩ := List.exists_cons_of_ne_nil hgt.1
      have hyg : y ∈ g.2 := by rw [hys]; exact List.mem_cons_self _ _
      obtain ⟨fields, hyeq, -⟩ := hgt.2.2.2.2 y hyg
      refine ⟨fields, ?_⟩
      rw [← hyeq]
      have := (hgrp g (hvisit.subset hg)).2
      rw [this] at hyg
      exact (List.mem_filter.mp hyg).1
    · rintro ⟨fields, hx⟩
      obtain ⟨g, hgm, hgk⟩ := hcover _ hx
      have hg : g ∈ visit m := hvisit.symm.subset hgm
      obtain ⟨t', ht', hgt⟩ := forall2_left hts g hg
      have hxg : Value.struct t fields ∈ g.2 := by
        rw [(hgrp g hgm).2]
        exact List.mem_filter.mpr ⟨hx, by rw [beq_iff_eq]; exact hgk.symm⟩
      obtain ⟨fields', heq, -⟩ := hgt.2.2.2.2 _ hxg
      have htt : t = t' := (Value.struct.inj heq).1
      rw [htt]
      exact ht'
  · rw [hlog']
    exact hcalls
  · rw [hlog']
    exact hcalls.length_eq.symm
  · rw [hA.2]
    exact sumInt64_eq_sum _ hlo hhi

/-- Witness of C12: an `Account` and an `Order` record on the driver `steady`, whose
calls all succeed. -/
theorem InsertContext_one_statement_per_type_witness :
    world0.tabCache = [] ∧
    (∀ x ∈ leavesAll [account, order], wellFormed x = true) ∧
    (∀ x ∈ leavesAll [account, order], exportedFields x = true) ∧
    (∀ x ∈ leavesAll [account, order], ∀ y ∈ leavesAll [account, order],
      recordKey x = recordKey y → recordType x = recordType y) ∧
    ((fun (m : List (Str × List Value)) => m) (groupValues [account, order]).1).Perm
      (groupValues [account, order]).1 ∧
    (∀ s q a, (steady.ExecContext s q a).2.failure = none) ∧
    ∃ ts : List StructType, ts.Nodup ∧
      (∀ t, t ∈ ts ↔ ∃ fields, Value.struct t fields ∈ leavesAll [account, order]) ∧
      List.Forall₂
        (fun t c => c.query
            = (buildTable plainLib t).CreateBatchInsertScript plainLib
                (countOfType (leavesAll [account, order]) t) ∧
          c.failure = none)
        ts (InsertContext plainLib shippedHooks (traced steady) (fun m => m) (0, []) world0
          [account, order]).db.2 ∧
      (InsertContext plainLib shippedHooks (traced steady) (fun m => m) (0, []) world0
        [account, order]).db.2.length = ts.length ∧
      (InsertContext plainLib shippedHooks (traced steady) (fun m => m) (0, []) world0
        [account, order]).err = none ∧
      (InsertContext plainLib shippedHooks (traced steady) (fun m => m) (0, []) world0
          [account, order]).affected
        = sumInt64 ((InsertContext plainLib shippedHooks (traced steady) (fun m => m) (0, [])
            world0 [account, order]).db.2.map (fun c => c.count)) ∧
      (-2 ^ 63 ≤ ((InsertContext plainLib shippedHooks (traced steady) (fun m => m) (0, [])
            world0 [account, order]).db.2.map (fun c => c.count)).sum →
        ((InsertContext plainLib shippedHooks (traced steady) (fun m => m) (0, [])
            world0 [account, order]).db.2.map (fun c => c.count)).sum < 2 ^ 63 →
        (InsertContext plainLib shippedHooks (traced steady) (fun m => m) (0, []) world0
            [account, order]).affected
          = ((InsertContext plainLib shippedHooks (traced steady) (fun m => m) (0, [])
              world0 [account, order]).db.2.map (fun c => c.count)).sum) :=
  ⟨rfl, by decide!, by decide!, by decide!, List.Perm.refl _, fun _ _ _ => rfl,
    InsertContext_one_statement_per_type plainLib shippedHooks steady (fun m => m) 0 world0
      [account, order] rfl (by decide!) (by decide!) (by decide!) (List.Perm.refl _)
      (fun _ _ _ => rfl)⟩

end Dp
